import Mathlib

/-! Common::Timer (src/common/timer.cpp)

A shallow embedding of the monotonic timer of `src/common/timer.cpp`: the clock read
`GetValue`, the six unit conversions, the blocking `SleepUntil` and the stopwatch object
`Timer`, for the Windows build (`_WIN32`, with or without `_UWP`) and for the POSIX build
(with or without `__APPLE__`).

* Machine integers are `Nat` / `Int` with explicit wrap-around (`wrapU64`, `wrapI64`);
  a `Timer::Value` (`std::uint64_t`) is a `Nat` kept below `2^64`.
* `double` is modelled by `F64`: a finite value is the rational it denotes, every
  arithmetic operation is the exact rational operation followed by IEEE-754 binary64
  rounding to nearest, ties to even (`F64.round`).  The sign of zero is not tracked.
* The operating system is an oracle: each OS call's answer is a function of the history
  of all OS calls made so far (`Event` log, newest first).  Every call the program makes is
  appended to the log, so "which OS calls were issued" is a property of the log.
* The `while` loop of the exact sleep takes a fuel argument bounding its iterations.
-/

set_option linter.dupNamespace false

namespace Common

/-! ## Machine integers -/

/-- Conversion of a mathematical integer to `std::uint64_t` (reduction modulo `2^64`). -/
def wrapU64 (z : Int) : Nat := (z % 18446744073709551616).toNat

/-- Conversion of a mathematical integer to `std::int64_t` (two's complement). -/
def wrapI64 (z : Int) : Int := (z + 9223372036854775808) % 18446744073709551616 - 9223372036854775808

/-- Unsigned 64-bit subtraction `a - b`. -/
def subU64 (a b : Nat) : Nat := wrapU64 ((a : Int) - (b : Int))

/-- Unsigned 64-bit addition `a + b`. -/
def addU64 (a b : Nat) : Nat := (a + b) % 18446744073709551616

/-! ## IEEE-754 binary64 -/

/-- Rounding of a rational to the nearest integer, ties to the even one. -/
def roundHalfEven (q : ℚ) : ℤ :=
  if q - ⌊q⌋ < 1 / 2 then ⌊q⌋
  else if 1 / 2 < q - ⌊q⌋ then ⌊q⌋ + 1
  else if ⌊q⌋ % 2 = 0 then ⌊q⌋ else ⌊q⌋ + 1

/-- Spacing of the binary64 numbers in the binade of `x`: `2^(e-52)` where
`2^e ≤ |x| < 2^(e+1)`, and `2^(-1074)` throughout the subnormal range. -/
def quantum (x : ℚ) : ℚ := (2 : ℚ) ^ (max (Int.log 2 |x|) (-1022) - 52)

/-- The binary64 grid point nearest to `x` (ties to even), exponent range unbounded above. -/
def roundToGrid (x : ℚ) : ℚ := (roundHalfEven (x / quantum x) : ℚ) * quantum x

/-- A value of type `double`: a finite number (the rational it denotes), an infinity or NaN. -/
inductive F64 where
  | fin (q : ℚ)
  | inf (neg : Bool)
  | nan
deriving DecidableEq

namespace F64

/-- Correctly rounded binary64 result of the exact value `x`; overflow gives an infinity. -/
def round (x : ℚ) : F64 :=
  if (2 : ℚ) ^ (1024 : ℕ) ≤ |roundToGrid x| then inf (decide (x < 0)) else fin (roundToGrid x)

/-- The conversion `static_cast<double>(v)` of an unsigned 64-bit integer. -/
def ofU64 (v : Nat) : F64 := round (v : ℚ)

/-- The conversion `static_cast<double>(v)` of a signed 64-bit integer. -/
def ofI64 (v : Int) : F64 := round (v : ℚ)

/-- The product `a * b` of two doubles. -/
def mul : F64 → F64 → F64
  | fin a, fin b => round (a * b)
  | fin a, inf s => if a = 0 then nan else inf (xor s (decide (a < 0)))
  | inf s, fin b => if b = 0 then nan else inf (xor s (decide (b < 0)))
  | inf s, inf t => inf (xor s t)
  | nan, _ => nan
  | _, nan => nan

/-- The quotient `a / b` of two doubles (a zero divisor is `+0.0`). -/
def div : F64 → F64 → F64
  | fin a, fin b =>
    if b = 0 then (if a = 0 then nan else inf (decide (a < 0))) else round (a / b)
  | fin _, inf _ => fin 0
  | inf s, fin b => inf (xor s (decide (b < 0)))
  | inf _, inf _ => nan
  | nan, _ => nan
  | _, nan => nan

/-- The conversion `static_cast<std::uint64_t>(d)`: truncation toward zero; `none` where the
truncated value is not representable (undefined behaviour in C++). -/
def toU64 : F64 → Option Nat
  | fin q => if -1 < q ∧ q < (2 : ℚ) ^ (64 : ℕ) then some ⌊q⌋.toNat else none
  | inf _ => none
  | nan => none

end F64

/-- A rational number that is a binary64 value: `m * 2^k` with `|m| < 2^53` and
`-1074 ≤ k ≤ 971`. -/
def IsDouble (x : ℚ) : Prop :=
  ∃ m k : ℤ, |m| < 2 ^ (53 : ℕ) ∧ -1074 ≤ k ∧ k ≤ 971 ∧ x = (m : ℚ) * (2 : ℚ) ^ k

/-! ## Operating system calls -/

/-- One call to the operating system, with its arguments and its answer. -/
inductive Event where
  | QueryPerformanceFrequency (freq : Int)
  | QueryPerformanceCounter (v : Nat)
  | CreateWaitableTimer (h : Nat)
  | GetSystemTimeAsFileTime (dwLowDateTime dwHighDateTime : Nat)
  | SetWaitableTimer (h : Nat) (due : Int) (ok : Bool)
  | WaitForSingleObject (h : Nat)
  | Sleep (ms : Nat)
  | clock_gettime (tv_sec tv_nsec : Int)
  | nanosleep (tv_sec tv_nsec : Int)
  | clock_nanosleep (tv_sec tv_nsec : Int)
deriving DecidableEq

/-- The calls that block the calling thread. -/
def Event.isWait : Event → Bool
  | Event.WaitForSingleObject _ => true
  | Event.Sleep _ => true
  | Event.nanosleep _ _ => true
  | Event.clock_nanosleep _ _ => true
  | _ => false

/-- Number of blocking OS wait calls recorded in a log. -/
def waitCalls (log : List Event) : Nat := (log.filter Event.isWait).length

/-! ## Windows build (`_WIN32`) -/

namespace Win32

/-- Answers of the Windows system calls, each a function of the calls made so far. -/
structure Env where
  QueryPerformanceFrequency : List Event → Int
  QueryPerformanceCounter : List Event → Nat
  CreateWaitableTimer : List Event → Nat
  GetSystemTimeAsFileTime : List Event → Nat × Nat
  SetWaitableTimer : List Event → Nat → Int → Bool

/-- Program state: the OS calls made so far and the static variables of timer.cpp
(`s_sleep_timer`, `s_sleep_timer_created` are thread-local: one thread is modelled). -/
structure State where
  log : List Event
  s_counter_frequency : F64
  s_counter_initialized : Bool
  s_sleep_timer : Nat
  s_sleep_timer_created : Bool
deriving DecidableEq

/-- State at process start: statics zero-initialised, no OS call made. -/
def State.start : State :=
  { log := [], s_counter_frequency := F64.fin 0, s_counter_initialized := false,
    s_sleep_timer := 0, s_sleep_timer_created := false }

/-- Record one OS call. -/
def State.emit (e : Event) (s : State) : State := { s with log := e :: s.log }

/-- The function `GetSleepTimer` (timer.cpp:20-31); handle `0` is `nullptr`. -/
def GetSleepTimer (env : Env) (s : State) : Nat × State :=
  if s.s_sleep_timer_created then (s.s_sleep_timer, s)
  else
    (env.CreateWaitableTimer s.log,
      { State.emit (Event.CreateWaitableTimer (env.CreateWaitableTimer s.log)) s with
        s_sleep_timer_created := true
        s_sleep_timer := env.CreateWaitableTimer s.log })

/-- The lazy initialisation at the head of `Timer::GetValue` (timer.cpp:36-42). -/
def initCounterFrequency (env : Env) (s : State) : State :=
  if s.s_counter_initialized then s
  else
    { State.emit (Event.QueryPerformanceFrequency (wrapI64 (env.QueryPerformanceFrequency s.log))) s with
      s_counter_frequency :=
        F64.div (F64.ofI64 (wrapI64 (env.QueryPerformanceFrequency s.log))) (F64.fin 1000000000)
      s_counter_initialized := true }

/-- The function `Timer::GetValue` (timer.cpp:33-47). -/
def GetValue (env : Env) (s : State) : Nat × State :=
  (env.QueryPerformanceCounter (initCounterFrequency env s).log % 18446744073709551616,
    State.emit
      (Event.QueryPerformanceCounter
        (env.QueryPerformanceCounter (initCounterFrequency env s).log % 18446744073709551616))
      (initCounterFrequency env s))

/-- The function `Timer::ConvertValueToNanoseconds` (timer.cpp:49-52). -/
def ConvertValueToNanoseconds (s : State) (value : Nat) : F64 :=
  F64.div (F64.ofU64 value) s.s_counter_frequency

/-- The function `Timer::ConvertValueToMilliseconds` (timer.cpp:54-57). -/
def ConvertValueToMilliseconds (s : State) (value : Nat) : F64 :=
  F64.div (F64.div (F64.ofU64 value) s.s_counter_frequency) (F64.fin 1000000)

/-- The function `Timer::ConvertValueToSeconds` (timer.cpp:59-62). -/
def ConvertValueToSeconds (s : State) (value : Nat) : F64 :=
  F64.div (F64.div (F64.ofU64 value) s.s_counter_frequency) (F64.fin 1000000000)

/-- The function `Timer::ConvertSecondsToValue` (timer.cpp:64-67). -/
def ConvertSecondsToValue (s : State) (d : F64) : Option Nat :=
  F64.toU64 (F64.mul (F64.mul d (F64.fin 1000000000)) s.s_counter_frequency)

/-- The function `Timer::ConvertMillisecondsToValue` (timer.cpp:69-72). -/
def ConvertMillisecondsToValue (s : State) (ms : F64) : Option Nat :=
  F64.toU64 (F64.mul (F64.mul ms (F64.fin 1000000)) s.s_counter_frequency)

/-- The function `Timer::ConvertNanosecondsToValue` (timer.cpp:74-77). -/
def ConvertNanosecondsToValue (s : State) (ns : F64) : Option Nat :=
  F64.toU64 (F64.mul ns s.s_counter_frequency)

/-- The fallback `Sleep(static_cast<DWORD>(static_cast<std::uint64_t>(diff) / 1000000))`
(timer.cpp:113). -/
def fallbackSleep (diff : Int) (s : State) : State :=
  State.emit (Event.Sleep ((wrapU64 diff / 1000000) % 4294967296)) s

/-- The waitable-timer block of `Timer::SleepUntil` (timer.cpp:93-109), entered with a
non-null timer handle; falls through to the fallback sleep when `SetWaitableTimer` fails.
`fti.QuadPart += diff` is taken with two's complement wrap-around. -/
def waitOnTimer (env : Env) (timer : Nat) (diff : Int) (s : State) : State :=
  let ft := env.GetSystemTimeAsFileTime s.log
  let s1 := State.emit (Event.GetSystemTimeAsFileTime (ft.1 % 4294967296) (ft.2 % 4294967296)) s
  let fti : Int := wrapI64 (((ft.2 % 4294967296 : Nat) : Int) * 4294967296 + ((ft.1 % 4294967296 : Nat) : Int))
  let due : Int := wrapI64 (fti + diff)
  let ok := env.SetWaitableTimer s1.log timer due
  let s2 := State.emit (Event.SetWaitableTimer timer due ok) s1
  if ok then State.emit (Event.WaitForSingleObject timer) s2
  else fallbackSleep diff s2

/-- The signed difference `static_cast<std::int64_t>(value - GetValue())` (timer.cpp:88),
for the clock value `now` just read. -/
def sleepDiff (value now : Nat) : Int := wrapI64 (subU64 value now)

/-- The approximate branch of `Timer::SleepUntil` (timer.cpp:86-114); `uwp` says whether the
build defines `_UWP`. -/
def SleepUntilApprox (uwp : Bool) (env : Env) (value : Nat) (s : State) : State :=
  if sleepDiff value (GetValue env s).1 ≤ 0 then (GetValue env s).2
  else if uwp then fallbackSleep (sleepDiff value (GetValue env s).1) (GetValue env s).2
  else if (GetSleepTimer env (GetValue env s).2).1 ≠ 0 then
    waitOnTimer env (GetSleepTimer env (GetValue env s).2).1
      (sleepDiff value (GetValue env s).1) (GetSleepTimer env (GetValue env s).2).2
  else fallbackSleep (sleepDiff value (GetValue env s).1) (GetSleepTimer env (GetValue env s).2).2

/-- The exact branch of `Timer::SleepUntil` (timer.cpp:81-85): `fuel` bounds the number of
evaluations of the loop condition; `none` when the bound is reached. -/
def SleepUntilExact (uwp : Bool) (env : Env) (value : Nat) : Nat → State → Option State
  | 0, _ => none
  | fuel + 1, s =>
    if (GetValue env s).1 < value then
      SleepUntilExact uwp env value fuel (SleepUntilApprox uwp env value (GetValue env s).2)
    else some (GetValue env s).2

/-- The function `Timer::SleepUntil` (timer.cpp:79-115). -/
def SleepUntil (uwp : Bool) (env : Env) (value : Nat) (exact : Bool) (fuel : Nat)
    (s : State) : Option State :=
  if exact then SleepUntilExact uwp env value fuel s
  else some (SleepUntilApprox uwp env value s)

end Win32

/-! ## POSIX build -/

namespace Posix

/-- The C structure `struct timespec`. -/
structure timespec where
  tv_sec : Int
  tv_nsec : Int
deriving DecidableEq

/-- Answer of `clock_gettime(CLOCK_MONOTONIC, _)` as a function of the calls made so far. -/
structure Env where
  clock_gettime : List Event → timespec

/-- Program state: the OS calls made so far (the POSIX build has no static variables). -/
structure State where
  log : List Event
deriving DecidableEq

/-- Record one OS call. -/
def State.emit (e : Event) (s : State) : State := { s with log := e :: s.log }

/-- The expression `(Value)tv.tv_nsec + (Value)tv.tv_sec * 1000000000` of `Timer::GetValue`
(timer.cpp:123), in unsigned 64-bit arithmetic. -/
def timespecValue (tv : timespec) : Nat :=
  (wrapU64 tv.tv_nsec + wrapU64 tv.tv_sec * 1000000000) % 18446744073709551616

/-- The function `Timer::GetValue` (timer.cpp:119-124). -/
def GetValue (env : Env) (s : State) : Nat × State :=
  (timespecValue (env.clock_gettime s.log),
    State.emit (Event.clock_gettime (env.clock_gettime s.log).tv_sec
      (env.clock_gettime s.log).tv_nsec) s)

/-- The function `Timer::ConvertValueToNanoseconds` (timer.cpp:126-129). -/
def ConvertValueToNanoseconds (value : Nat) : F64 := F64.ofU64 value

/-- The function `Timer::ConvertValueToMilliseconds` (timer.cpp:131-134). -/
def ConvertValueToMilliseconds (value : Nat) : F64 :=
  F64.div (F64.ofU64 value) (F64.fin 1000000)

/-- The function `Timer::ConvertValueToSeconds` (timer.cpp:136-139). -/
def ConvertValueToSeconds (value : Nat) : F64 :=
  F64.div (F64.ofU64 value) (F64.fin 1000000000)

/-- The function `Timer::ConvertSecondsToValue` (timer.cpp:141-144). -/
def ConvertSecondsToValue (d : F64) : Option Nat :=
  F64.toU64 (F64.mul d (F64.fin 1000000000))

/-- The function `Timer::ConvertMillisecondsToValue` (timer.cpp:146-149). -/
def ConvertMillisecondsToValue (ms : F64) : Option Nat :=
  F64.toU64 (F64.mul ms (F64.fin 1000000))

/-- The function `Timer::ConvertNanosecondsToValue` (timer.cpp:151-154). -/
def ConvertNanosecondsToValue (ns : F64) : Option Nat := F64.toU64 ns

/-- The timespec built from a 64-bit nanosecond count (timer.cpp:172-174 and 177-179). -/
def toTimespec (v : Nat) : timespec :=
  { tv_sec := wrapI64 ((v / 1000000000 : Nat) : Int)
    tv_nsec := wrapI64 ((v % 1000000000 : Nat) : Int) }

/-- The approximate branch of `Timer::SleepUntil` (timer.cpp:163-182); `apple` says whether
the build defines `__APPLE__`. -/
def SleepUntilApprox (apple : Bool) (env : Env) (value : Nat) (s : State) : State :=
  if apple then
    if value ≤ (GetValue env s).1 then (GetValue env s).2
    else
      State.emit
        (Event.nanosleep (toTimespec (subU64 value (GetValue env s).1)).tv_sec
          (toTimespec (subU64 value (GetValue env s).1)).tv_nsec)
        (GetValue env s).2
  else
    State.emit (Event.clock_nanosleep (toTimespec value).tv_sec (toTimespec value).tv_nsec) s

/-- The exact branch of `Timer::SleepUntil` (timer.cpp:158-162): `fuel` bounds the number of
evaluations of the loop condition; `none` when the bound is reached. -/
def SleepUntilExact (apple : Bool) (env : Env) (value : Nat) : Nat → State → Option State
  | 0, _ => none
  | fuel + 1, s =>
    if (GetValue env s).1 < value then
      SleepUntilExact apple env value fuel (SleepUntilApprox apple env value (GetValue env s).2)
    else some (GetValue env s).2

/-- The function `Timer::SleepUntil` (timer.cpp:156-183). -/
def SleepUntil (apple : Bool) (env : Env) (value : Nat) (exact : Bool) (fuel : Nat)
    (s : State) : Option State :=
  if exact then SleepUntilExact apple env value fuel s
  else some (SleepUntilApprox apple env value s)

end Posix

/-! ## The stopwatch object (timer.cpp:187-205, shared by both builds) -/

/-- The static members of `Timer` the stopwatch calls, as provided by one build; `S` is the
program state of that build. -/
structure Clock (S : Type) where
  GetValue : S → Nat × S
  ConvertValueToSeconds : S → Nat → F64
  ConvertValueToMilliseconds : S → Nat → F64

/-- The static members of the Windows build. -/
def Win32.clock (env : Win32.Env) : Clock Win32.State :=
  { GetValue := Win32.GetValue env
    ConvertValueToSeconds := Win32.ConvertValueToSeconds
    ConvertValueToMilliseconds := Win32.ConvertValueToMilliseconds }

/-- The static members of the POSIX build. -/
def Posix.clock (env : Posix.Env) : Clock Posix.State :=
  { GetValue := Posix.GetValue env
    ConvertValueToSeconds := fun _ v => Posix.ConvertValueToSeconds v
    ConvertValueToMilliseconds := fun _ v => Posix.ConvertValueToMilliseconds v }

/-- The data members of class `Timer`. -/
structure Timer where
  m_tvStartValue : Nat
deriving DecidableEq

namespace Timer

variable {S : Type}

/-- The method `Timer::Reset` (timer.cpp:192-195): the object after the call and the program
state after the call. -/
def Reset (clk : Clock S) (self : Timer) (s : S) : Timer × S :=
  ({ self with m_tvStartValue := (clk.GetValue s).1 }, (clk.GetValue s).2)

/-- The method `Timer::GetTimeSeconds` (timer.cpp:197-200): the returned double, the object
after the call and the program state after the call. -/
def GetTimeSeconds (clk : Clock S) (self : Timer) (s : S) : F64 × Timer × S :=
  (clk.ConvertValueToSeconds (clk.GetValue s).2 (subU64 (clk.GetValue s).1 self.m_tvStartValue),
    self, (clk.GetValue s).2)

/-- The method `Timer::GetTimeMilliseconds` (timer.cpp:202-205): the returned double, the
object after the call and the program state after the call. -/
def GetTimeMilliseconds (clk : Clock S) (self : Timer) (s : S) : F64 × Timer × S :=
  (clk.ConvertValueToMilliseconds (clk.GetValue s).2
      (subU64 (clk.GetValue s).1 self.m_tvStartValue),
    self, (clk.GetValue s).2)

/-- The constructor `Timer::Timer` (timer.cpp:187-190); `self` is the uninitialised object. -/
def Timer (clk : Clock S) (self : Common.Timer) (s : S) : Common.Timer × S := Reset clk self s

end Timer

end Common

/-! ## Hypotheses on the clock -/

namespace Common

/-- The Windows performance counter never goes backwards: a read made after more OS calls
returns at least as much. -/
def Win32.Env.Monotone (env : Win32.Env) : Prop :=
  ∀ l l0 : List Event, l0 <:+ l →
    env.QueryPerformanceCounter l0 % 18446744073709551616
      ≤ env.QueryPerformanceCounter l % 18446744073709551616

/-- The POSIX monotonic clock, read through `GetValue`, never goes backwards. -/
def Posix.Env.Monotone (env : Posix.Env) : Prop :=
  ∀ l l0 : List Event, l0 <:+ l →
    Posix.timespecValue (env.clock_gettime l0) ≤ Posix.timespecValue (env.clock_gettime l)

end Common

/-! ## Concrete environments -/

namespace Common

/-- A Windows environment whose counter advances 4 ticks per OS call (up to 1000), whose
frequency is 10^9 Hz, whose waitable timer is available (handle 1) and can be armed. -/
def Win32.stepEnv : Win32.Env :=
  { QueryPerformanceFrequency := fun _ => 1000000000
    QueryPerformanceCounter := fun l => if l.length < 250 then 4 * l.length else 1000
    CreateWaitableTimer := fun _ => 1
    GetSystemTimeAsFileTime := fun _ => (0, 0)
    SetWaitableTimer := fun _ _ _ => true }

/-- A Windows environment whose frequency is `freq` Hz and whose counter always reads `c`;
the waitable timer is available (handle 1) and armed successfully, the file time is `ft`
(low word). -/
def Win32.constEnv (freq : Int) (c ft : Nat) : Win32.Env :=
  { QueryPerformanceFrequency := fun _ => freq
    QueryPerformanceCounter := fun _ => c
    CreateWaitableTimer := fun _ => 1
    GetSystemTimeAsFileTime := fun _ => (ft, 0)
    SetWaitableTimer := fun _ _ _ => true }

/-- The Windows state after the first `GetValue()` of a process whose counter runs at 1 GHz
(counter at 0, file time 1000). -/
def Win32.State.oneGHz : Win32.State :=
  (Win32.GetValue (Win32.constEnv 1000000000 0 1000) Win32.State.start).2

/-- The Windows state after the first `GetValue()` of a process whose counter runs at 10 MHz
(counter at 0, file time 1000). -/
def Win32.State.tenMHz : Win32.State :=
  (Win32.GetValue (Win32.constEnv 10000000 0 1000) Win32.State.start).2

/-- The Windows state after the first `GetValue()` of a process whose
`QueryPerformanceFrequency` answers `freq` (counter at 0, file time 1000). -/
def Win32.State.atFrequency (freq : Int) : Win32.State :=
  (Win32.GetValue (Win32.constEnv freq 0 1000) Win32.State.start).2

/-- A POSIX environment whose clock advances 4 ns per OS call (up to 1000 ns). -/
def Posix.stepEnv : Posix.Env :=
  { clock_gettime := fun l =>
      { tv_sec := 0, tv_nsec := ((if l.length < 250 then 4 * l.length else 1000 : Nat) : Int) } }

/-- A POSIX environment whose clock always reads `sec` seconds and `nsec` nanoseconds. -/
def Posix.constEnv (sec nsec : Int) : Posix.Env :=
  { clock_gettime := fun _ => { tv_sec := sec, tv_nsec := nsec } }

/-- A POSIX environment whose clock reads (1 s, 999999999 ns) before any OS call and
(2 s, 0 ns) afterwards. -/
def Posix.rollEnv : Posix.Env :=
  { clock_gettime := fun l =>
      if l.length = 0 then { tv_sec := 1, tv_nsec := 999999999 } else { tv_sec := 2, tv_nsec := 0 } }

/-- A POSIX environment whose clock reads (-1 s, 5 ns) before any OS call and (0 s, 0 ns)
afterwards. -/
def Posix.negEnv : Posix.Env :=
  { clock_gettime := fun l =>
      if l.length = 0 then { tv_sec := -1, tv_nsec := 5 } else { tv_sec := 0, tv_nsec := 0 } }

/-- A POSIX environment whose clock advances one second per blocking wait (up to 10 s). -/
def Posix.waitEnv : Posix.Env :=
  { clock_gettime := fun l =>
      { tv_sec := ((if waitCalls l < 10 then waitCalls l else 10 : Nat) : Int), tv_nsec := 0 } }

end Common

/-! ## Theorems -/

namespace Common

/-! ### Machine integers -/

theorem wrapU64_natCast (n : Nat) (h : n < 18446744073709551616) : wrapU64 (n : Int) = n := by
  unfold wrapU64
  omega

theorem wrapU64_zero : wrapU64 0 = 0 := by
  unfold wrapU64
  omega

theorem wrapI64_of_range (z : Int) (h0 : -9223372036854775808 ≤ z)
    (h1 : z < 9223372036854775808) : wrapI64 z = z := by
  unfold wrapI64
  omega

theorem subU64_of_le (a b : Nat) (h : b ≤ a) (ha : a < 18446744073709551616) :
    subU64 a b = a - b := by
  unfold subU64 wrapU64
  omega

/-! ### Logs only grow -/

theorem win32_initCounterFrequency_log_suffix (env : Win32.Env) (s : Win32.State) :
    s.log <:+ (Win32.initCounterFrequency env s).log := by
  unfold Win32.initCounterFrequency
  split
  · exact List.suffix_refl _
  · exact List.suffix_cons _ _

theorem win32_GetValue_log (env : Win32.Env) (s : Win32.State) :
    (Win32.GetValue env s).2.log
      = Event.QueryPerformanceCounter
          (env.QueryPerformanceCounter (Win32.initCounterFrequency env s).log
            % 18446744073709551616)
        :: (Win32.initCounterFrequency env s).log := rfl

theorem win32_GetValue_fst (env : Win32.Env) (s : Win32.State) :
    (Win32.GetValue env s).1
      = env.QueryPerformanceCounter (Win32.initCounterFrequency env s).log
          % 18446744073709551616 := rfl

theorem win32_SleepUntilExact_last_read (uwp : Bool) (env : Win32.Env) (value : Nat) :
    ∀ (fuel : Nat) (s s1 : Win32.State),
      Win32.SleepUntilExact uwp env value fuel s = some s1 →
      ∃ rest, s1.log = Event.QueryPerformanceCounter
            (env.QueryPerformanceCounter rest % 18446744073709551616) :: rest
        ∧ value ≤ env.QueryPerformanceCounter rest % 18446744073709551616 := by
  intro fuel
  induction fuel with
  | zero => intro s s1 h; simp [Win32.SleepUntilExact] at h
  | succ n ih =>
    intro s s1 h
    unfold Win32.SleepUntilExact at h
    split at h
    · exact ih _ _ h
    · rename_i hlt
      injection h with h
      subst h
      refine ⟨(Win32.initCounterFrequency env s).log, win32_GetValue_log env s, ?_⟩
      rw [win32_GetValue_fst] at hlt
      exact Nat.le_of_not_lt hlt

theorem posix_GetValue_log (env : Posix.Env) (s : Posix.State) :
    (Posix.GetValue env s).2.log
      = Event.clock_gettime (env.clock_gettime s.log).tv_sec (env.clock_gettime s.log).tv_nsec
        :: s.log := rfl

theorem posix_GetValue_fst (env : Posix.Env) (s : Posix.State) :
    (Posix.GetValue env s).1 = Posix.timespecValue (env.clock_gettime s.log) := rfl

theorem posix_SleepUntilExact_last_read (apple : Bool) (env : Posix.Env) (value : Nat) :
    ∀ (fuel : Nat) (s s1 : Posix.State),
      Posix.SleepUntilExact apple env value fuel s = some s1 →
      ∃ rest, s1.log = Event.clock_gettime (env.clock_gettime rest).tv_sec
            (env.clock_gettime rest).tv_nsec :: rest
        ∧ value ≤ Posix.timespecValue (env.clock_gettime rest) := by
  intro fuel
  induction fuel with
  | zero => intro s s1 h; simp [Posix.SleepUntilExact] at h
  | succ n ih =>
    intro s s1 h
    unfold Posix.SleepUntilExact at h
    split at h
    · exact ih _ _ h
    · rename_i hlt
      injection h with h
      subst h
      refine ⟨s.log, posix_GetValue_log env s, ?_⟩
      rw [posix_GetValue_fst] at hlt
      exact Nat.le_of_not_lt hlt

/-! ### The exact sleep returns once the clock has reached the target -/

theorem win32_initCounterFrequency_log_length (env : Win32.Env) (s : Win32.State) :
    s.log.length ≤ (Win32.initCounterFrequency env s).log.length :=
  (win32_initCounterFrequency_log_suffix env s).length_le

theorem win32_GetValue_log_length (env : Win32.Env) (s : Win32.State) :
    s.log.length + 1 ≤ (Win32.GetValue env s).2.log.length := by
  rw [win32_GetValue_log, List.length_cons]
  have := win32_initCounterFrequency_log_length env s
  omega

theorem win32_GetSleepTimer_log_length (env : Win32.Env) (s : Win32.State) :
    s.log.length ≤ (Win32.GetSleepTimer env s).2.log.length := by
  unfold Win32.GetSleepTimer
  split
  · exact le_refl _
  · simp [Win32.State.emit]

theorem win32_waitOnTimer_log_length (env : Win32.Env) (timer : Nat) (diff : Int)
    (s : Win32.State) : s.log.length ≤ (Win32.waitOnTimer env timer diff s).log.length := by
  unfold Win32.waitOnTimer
  simp only
  split
  · simp [Win32.State.emit]
    omega
  · simp [Win32.fallbackSleep, Win32.State.emit]
    omega

theorem win32_SleepUntilApprox_log_length (uwp : Bool) (env : Win32.Env) (value : Nat)
    (s : Win32.State) : s.log.length ≤ (Win32.SleepUntilApprox uwp env value s).log.length := by
  have g := win32_GetValue_log_length env s
  have t := win32_GetSleepTimer_log_length env (Win32.GetValue env s).2
  unfold Win32.SleepUntilApprox
  split
  · omega
  · split
    · simp [Win32.fallbackSleep, Win32.State.emit]
      omega
    · split
      · have w := win32_waitOnTimer_log_length env
          (Win32.GetSleepTimer env (Win32.GetValue env s).2).1
          (Win32.sleepDiff value (Win32.GetValue env s).1)
          (Win32.GetSleepTimer env (Win32.GetValue env s).2).2
        omega
      · simp [Win32.fallbackSleep, Win32.State.emit]
        omega

theorem win32_SleepUntilExact_returns (uwp : Bool) (env : Win32.Env) (value N : Nat)
    (hN : ∀ l : List Event, N ≤ l.length →
      value ≤ env.QueryPerformanceCounter l % 18446744073709551616) :
    ∀ (fuel : Nat) (s : Win32.State), N + 1 ≤ s.log.length + fuel → 1 ≤ fuel →
      ∃ s1, Win32.SleepUntilExact uwp env value fuel s = some s1 := by
  intro fuel
  induction fuel with
  | zero => intro s _ h; omega
  | succ k ih =>
    intro s h1 _
    unfold Win32.SleepUntilExact
    split
    · rename_i hlt
      rw [win32_GetValue_fst] at hlt
      have hi := win32_initCounterFrequency_log_length env s
      have hlen : (Win32.initCounterFrequency env s).log.length < N := by
        by_contra hc
        have := hN _ (not_lt.mp hc)
        omega
      have g := win32_GetValue_log_length env s
      have a := win32_SleepUntilApprox_log_length uwp env value (Win32.GetValue env s).2
      exact ih _ (by omega) (by omega)
    · exact ⟨_, rfl⟩

theorem posix_SleepUntilApprox_log_length (apple : Bool) (env : Posix.Env) (value : Nat)
    (s : Posix.State) : s.log.length ≤ (Posix.SleepUntilApprox apple env value s).log.length := by
  unfold Posix.SleepUntilApprox
  split
  · split
    · rw [posix_GetValue_log]
      simp
    · simp [Posix.State.emit, posix_GetValue_log]
      omega
  · simp [Posix.State.emit]

theorem posix_SleepUntilExact_returns (apple : Bool) (env : Posix.Env) (value N : Nat)
    (hN : ∀ l : List Event, N ≤ l.length →
      value ≤ Posix.timespecValue (env.clock_gettime l)) :
    ∀ (fuel : Nat) (s : Posix.State), N + 1 ≤ s.log.length + fuel → 1 ≤ fuel →
      ∃ s1, Posix.SleepUntilExact apple env value fuel s = some s1 := by
  intro fuel
  induction fuel with
  | zero => intro s _ h; omega
  | succ k ih =>
    intro s h1 _
    unfold Posix.SleepUntilExact
    split
    · rename_i hlt
      rw [posix_GetValue_fst] at hlt
      have hlen : s.log.length < N := by
        by_contra hc
        have := hN _ (not_lt.mp hc)
        omega
      have g : (Posix.GetValue env s).2.log.length = s.log.length + 1 := by
        rw [posix_GetValue_log, List.length_cons]
      have a := posix_SleepUntilApprox_log_length apple env value (Posix.GetValue env s).2
      exact ih _ (by omega) (by omega)
    · exact ⟨_, rfl⟩

/-! ### C1: postcondition of the exact sleep -/

/-- C1. Whenever `SleepUntil(target, exact = true)` returns, the last OS call it made is a
clock read whose value is at least `target`; hence, when the clock never goes backwards,
every `GetValue()` made in any later state (any state whose history extends the one at
return) is at least `target`.  For every target, on the Windows path (with or without
`_UWP`) and on the POSIX path (with or without `__APPLE__`); the clock and the outcome of
every wait are arbitrary.  Moreover the call does return, within `fuel` evaluations of the
loop condition, as soon as the clock reads at least `target` in every history of `N` or
more OS calls and `N + 1 ≤ (calls made so far) + fuel`. -/
theorem SleepUntil_exact_postcondition :
    (∀ (uwp : Bool) (env : Win32.Env) (target : Nat) (fuel : Nat) (s s1 : Win32.State),
      Win32.SleepUntil uwp env target true fuel s = some s1 →
      (∃ rest, s1.log = Event.QueryPerformanceCounter
            (env.QueryPerformanceCounter rest % 18446744073709551616) :: rest
          ∧ target ≤ env.QueryPerformanceCounter rest % 18446744073709551616)
      ∧ (env.Monotone → ∀ s2 : Win32.State, s1.log <:+ s2.log →
          target ≤ (Win32.GetValue env s2).1))
    ∧ (∀ (apple : Bool) (env : Posix.Env) (target : Nat) (fuel : Nat) (s s1 : Posix.State),
      Posix.SleepUntil apple env target true fuel s = some s1 →
      (∃ rest, s1.log = Event.clock_gettime (env.clock_gettime rest).tv_sec
            (env.clock_gettime rest).tv_nsec :: rest
          ∧ target ≤ Posix.timespecValue (env.clock_gettime rest))
      ∧ (env.Monotone → ∀ s2 : Posix.State, s1.log <:+ s2.log →
          target ≤ (Posix.GetValue env s2).1))
    ∧ (∀ (uwp : Bool) (env : Win32.Env) (target N fuel : Nat) (s : Win32.State),
      (∀ l : List Event, N ≤ l.length →
        target ≤ env.QueryPerformanceCounter l % 18446744073709551616) →
      N + 1 ≤ s.log.length + fuel → 1 ≤ fuel →
      ∃ s1, Win32.SleepUntil uwp env target true fuel s = some s1)
    ∧ (∀ (apple : Bool) (env : Posix.Env) (target N fuel : Nat) (s : Posix.State),
      (∀ l : List Event, N ≤ l.length →
        target ≤ Posix.timespecValue (env.clock_gettime l)) →
      N + 1 ≤ s.log.length + fuel → 1 ≤ fuel →
      ∃ s1, Posix.SleepUntil apple env target true fuel s = some s1) := by
  refine ⟨?_, ?_, ?_, ?_⟩
  · intro uwp env target fuel s s1 h
    simp only [Win32.SleepUntil, if_true] at h
    obtain ⟨rest, hlog, hle⟩ := win32_SleepUntilExact_last_read uwp env target fuel s s1 h
    refine ⟨⟨rest, hlog, hle⟩, ?_⟩
    intro hmono s2 hsuf
    rw [win32_GetValue_fst]
    refine le_trans hle (hmono _ _ ?_)
    have h1 : rest <:+ s1.log := by rw [hlog]; exact List.suffix_cons _ _
    exact h1.trans (hsuf.trans (win32_initCounterFrequency_log_suffix env s2))
  · intro apple env target fuel s s1 h
    simp only [Posix.SleepUntil, if_true] at h
    obtain ⟨rest, hlog, hle⟩ := posix_SleepUntilExact_last_read apple env target fuel s s1 h
    refine ⟨⟨rest, hlog, hle⟩, ?_⟩
    intro hmono s2 hsuf
    rw [posix_GetValue_fst]
    refine le_trans hle (hmono _ _ ?_)
    have h1 : rest <:+ s1.log := by rw [hlog]; exact List.suffix_cons _ _
    exact h1.trans hsuf
  · intro uwp env target N fuel s hN h1 h2
    simp only [Win32.SleepUntil, if_true]
    exact win32_SleepUntilExact_returns uwp env target N hN fuel s h1 h2
  · intro apple env target N fuel s hN h1 h2
    simp only [Posix.SleepUntil, if_true]
    exact posix_SleepUntilExact_returns apple env target N hN fuel s h1 h2


theorem win32_stepEnv_monotone : Win32.stepEnv.Monotone := by
  intro l l0 h
  have := h.length_le
  simp only [Win32.stepEnv]
  split_ifs <;> omega

theorem posix_stepEnv_monotone : Posix.stepEnv.Monotone := by
  intro l l0 h
  have := h.length_le
  have e : ∀ n : Nat, n ≤ 1000 →
      Posix.timespecValue { tv_sec := 0, tv_nsec := (n : Int) } = n := by
    intro n hn
    have h1 : n < 18446744073709551616 := by omega
    simp only [Posix.timespecValue, wrapU64_natCast _ h1, wrapU64_zero, Nat.zero_mul,
      Nat.add_zero, Nat.mod_eq_of_lt h1]
  simp only [Posix.stepEnv]
  rw [e _ (by split_ifs <;> omega), e _ (by split_ifs <;> omega)]
  split_ifs <;> omega

/-- Witness for C1: on a clock advancing 4 ticks per OS call the exact sleep to tick 10
returns (the clock reads at least 10 after 3 OS calls), and the postcondition holds there,
on both paths. -/
theorem SleepUntil_exact_postcondition_witness :
    ∃ (s1 : Win32.State) (t1 : Posix.State),
      Win32.SleepUntil false Win32.stepEnv 10 true 4 Win32.State.start = some s1
      ∧ (∃ rest, s1.log = Event.QueryPerformanceCounter
            (Win32.stepEnv.QueryPerformanceCounter rest % 18446744073709551616) :: rest
          ∧ 10 ≤ Win32.stepEnv.QueryPerformanceCounter rest % 18446744073709551616)
      ∧ (∀ s2 : Win32.State, s1.log <:+ s2.log → 10 ≤ (Win32.GetValue Win32.stepEnv s2).1)
      ∧ Posix.SleepUntil false Posix.stepEnv 10 true 4 { log := [] } = some t1
      ∧ (∃ rest, t1.log = Event.clock_gettime (Posix.stepEnv.clock_gettime rest).tv_sec
            (Posix.stepEnv.clock_gettime rest).tv_nsec :: rest
          ∧ 10 ≤ Posix.timespecValue (Posix.stepEnv.clock_gettime rest))
      ∧ (∀ s2 : Posix.State, t1.log <:+ s2.log → 10 ≤ (Posix.GetValue Posix.stepEnv s2).1) := by
  have hw : ∃ s1, Win32.SleepUntil false Win32.stepEnv 10 true 4 Win32.State.start = some s1 :=
    SleepUntil_exact_postcondition.2.2.1 false Win32.stepEnv 10 3 4 Win32.State.start
      (by
        intro l hl
        simp only [Win32.stepEnv]
        split_ifs <;> omega)
      (by decide) (by decide)
  have hp : ∃ t1, Posix.SleepUntil false Posix.stepEnv 10 true 4 { log := [] } = some t1 :=
    SleepUntil_exact_postcondition.2.2.2 false Posix.stepEnv 10 3 4 { log := [] }
      (by
        intro l hl
        have e : ∀ n : Nat, n ≤ 1000 →
            Posix.timespecValue { tv_sec := 0, tv_nsec := (n : Int) } = n := by
          intro n hn
          have h1 : n < 18446744073709551616 := by omega
          simp only [Posix.timespecValue, wrapU64_natCast _ h1, wrapU64_zero, Nat.zero_mul,
            Nat.add_zero, Nat.mod_eq_of_lt h1]
        simp only [Posix.stepEnv]
        rw [e _ (by split_ifs <;> omega)]
        split_ifs <;> omega)
      (by decide) (by decide)
  obtain ⟨s1, hs1⟩ := hw
  obtain ⟨t1, ht1⟩ := hp
  have h1 := SleepUntil_exact_postcondition.1 false Win32.stepEnv 10 4 Win32.State.start s1 hs1
  have h2 := SleepUntil_exact_postcondition.2.1 false Posix.stepEnv 10 4 { log := [] } t1 ht1
  exact ⟨s1, t1, hs1, h1.1, h1.2 win32_stepEnv_monotone, ht1, h2.1,
    h2.2 posix_stepEnv_monotone⟩


/-! ### Counting the blocking calls -/

theorem waitCalls_cons (e : Event) (l : List Event) :
    waitCalls (e :: l) = (if e.isWait = true then 1 else 0) + waitCalls l := by
  unfold waitCalls
  by_cases h : e.isWait = true
  · rw [List.filter_cons_of_pos h, if_pos h, List.length_cons]; omega
  · rw [List.filter_cons_of_neg h, if_neg h]; omega

theorem win32_waitCalls_initCounterFrequency (env : Win32.Env) (s : Win32.State) :
    waitCalls (Win32.initCounterFrequency env s).log = waitCalls s.log := by
  unfold Win32.initCounterFrequency
  split
  · rfl
  · simp [Win32.State.emit, waitCalls_cons, Event.isWait]

theorem win32_waitCalls_GetValue (env : Win32.Env) (s : Win32.State) :
    waitCalls (Win32.GetValue env s).2.log = waitCalls s.log := by
  rw [win32_GetValue_log, waitCalls_cons, win32_waitCalls_initCounterFrequency]
  simp [Event.isWait]

theorem win32_SleepUntilApprox_of_nonpos (uwp : Bool) (env : Win32.Env) (value : Nat)
    (s : Win32.State) (h : Win32.sleepDiff value (Win32.GetValue env s).1 ≤ 0) :
    Win32.SleepUntilApprox uwp env value s = (Win32.GetValue env s).2 := by
  unfold Win32.SleepUntilApprox
  rw [if_pos h]

theorem win32_sleepDiff_of_le (value now : Nat) (h : value ≤ now)
    (hd : now - value ≤ 9223372036854775808) :
    Win32.sleepDiff value now = -((now - value : Nat) : Int) := by
  unfold Win32.sleepDiff subU64 wrapU64 wrapI64
  omega

theorem posix_waitCalls_GetValue (env : Posix.Env) (s : Posix.State) :
    waitCalls (Posix.GetValue env s).2.log = waitCalls s.log := by
  rw [posix_GetValue_log, waitCalls_cons]
  simp [Event.isWait]

/-! ### C2: approximate sleep with a target already reached -/

/-- C2 as stated fails. (1) On the POSIX path without `__APPLE__` the approximate branch
makes no comparison: with target 0 and the clock at 0 it issues `clock_nanosleep`.
(2) On the Windows path the comparison is made on the signed 64-bit difference: with
target 0 and the counter at `2^63 + 1` the difference is `2^63 - 1 > 0` and one wait
(`WaitForSingleObject`) is issued. -/
theorem SleepUntil_approx_reached_counterexample :
    (0 ≤ (Posix.GetValue (Posix.constEnv 0 0) { log := [] }).1
      ∧ (Posix.SleepUntilApprox false (Posix.constEnv 0 0) 0 { log := [] }).log
          = [Event.clock_nanosleep 0 0]
      ∧ waitCalls (Posix.SleepUntilApprox false (Posix.constEnv 0 0) 0 { log := [] }).log = 1)
    ∧ (0 ≤ (Win32.GetValue (Win32.constEnv 1000000000 9223372036854775809 0) Win32.State.start).1
      ∧ (Win32.SleepUntilApprox false (Win32.constEnv 1000000000 9223372036854775809 0) 0
            Win32.State.start).log
          = [Event.WaitForSingleObject 1, Event.SetWaitableTimer 1 9223372036854775807 true,
              Event.GetSystemTimeAsFileTime 0 0, Event.CreateWaitableTimer 1,
              Event.QueryPerformanceCounter 9223372036854775809,
              Event.QueryPerformanceFrequency 1000000000]
      ∧ waitCalls (Win32.SleepUntilApprox false (Win32.constEnv 1000000000 9223372036854775809 0) 0
            Win32.State.start).log = 1) := by
  refine ⟨⟨Nat.zero_le _, by rfl, by rfl⟩, ⟨Nat.zero_le _, by rfl, by rfl⟩⟩

/-- C2, amended. With `target ≤ now` for the clock value `now` read by the call:
on the Apple path `SleepUntil(target, false)` makes that one clock read and nothing else
(no wait call); on the Windows path the same holds whenever `now - target ≤ 2^63`
(the difference is compared as a signed 64-bit integer); on the other POSIX path the call
never reads the clock and always issues exactly one `clock_nanosleep` with the absolute
deadline `target`, also when the target is already reached. -/
theorem SleepUntil_approx_reached :
    (∀ (env : Posix.Env) (target : Nat) (s : Posix.State),
      target ≤ (Posix.GetValue env s).1 →
      Posix.SleepUntil true env target false 0 s = some (Posix.GetValue env s).2
      ∧ waitCalls (Posix.SleepUntilApprox true env target s).log = waitCalls s.log)
    ∧ (∀ (uwp : Bool) (env : Win32.Env) (target : Nat) (s : Win32.State),
      target ≤ (Win32.GetValue env s).1 →
      (Win32.GetValue env s).1 - target ≤ 9223372036854775808 →
      Win32.SleepUntil uwp env target false 0 s = some (Win32.GetValue env s).2
      ∧ waitCalls (Win32.SleepUntilApprox uwp env target s).log = waitCalls s.log)
    ∧ (∀ (env : Posix.Env) (target : Nat) (s : Posix.State),
      Posix.SleepUntil false env target false 0 s
        = some (Posix.State.emit
            (Event.clock_nanosleep (Posix.toTimespec target).tv_sec
              (Posix.toTimespec target).tv_nsec) s)
      ∧ waitCalls (Posix.SleepUntilApprox false env target s).log = waitCalls s.log + 1) := by
  refine ⟨?_, ?_, ?_⟩
  · intro env target s h
    have e : Posix.SleepUntilApprox true env target s = (Posix.GetValue env s).2 := by
      unfold Posix.SleepUntilApprox
      rw [if_pos rfl, if_pos h]
    refine ⟨?_, ?_⟩
    · simp only [Posix.SleepUntil, e]
      rfl
    · rw [e, posix_waitCalls_GetValue]
  · intro uwp env target s h hd
    have hdiff : Win32.sleepDiff target (Win32.GetValue env s).1 ≤ 0 := by
      rw [win32_sleepDiff_of_le _ _ h hd]
      omega
    have e := win32_SleepUntilApprox_of_nonpos uwp env target s hdiff
    refine ⟨?_, ?_⟩
    · simp only [Win32.SleepUntil, e]
      rfl
    · rw [e, win32_waitCalls_GetValue]
  · intro env target s
    have e : Posix.SleepUntilApprox false env target s
        = Posix.State.emit (Event.clock_nanosleep (Posix.toTimespec target).tv_sec
              (Posix.toTimespec target).tv_nsec) s := by
      unfold Posix.SleepUntilApprox
      simp
    refine ⟨?_, ?_⟩
    · simp only [Posix.SleepUntil, e]
      rfl
    · rw [e]
      simp [Posix.State.emit, waitCalls_cons, Event.isWait]
      omega

/-- Witness for C2 (amended): the clock at 7 and target 5, on the Apple and the Windows
path. -/
theorem SleepUntil_approx_reached_witness :
    (5 ≤ (Posix.GetValue (Posix.constEnv 0 7) { log := [] }).1
      ∧ waitCalls (Posix.SleepUntilApprox true (Posix.constEnv 0 7) 5 { log := [] }).log
          = waitCalls [])
    ∧ (5 ≤ (Win32.GetValue (Win32.constEnv 1000000000 7 0) Win32.State.start).1
      ∧ (Win32.GetValue (Win32.constEnv 1000000000 7 0) Win32.State.start).1 - 5 ≤ 9223372036854775808
      ∧ waitCalls (Win32.SleepUntilApprox false (Win32.constEnv 1000000000 7 0) 5 Win32.State.start).log
          = waitCalls []) :=
  ⟨⟨by decide,
      (SleepUntil_approx_reached.1 (Posix.constEnv 0 7) 5 { log := [] } (by decide)).2⟩,
    ⟨by decide, by decide,
      (SleepUntil_approx_reached.2.1 false (Win32.constEnv 1000000000 7 0) 5 Win32.State.start
        (by decide) (by decide)).2⟩⟩


/-! ### C3: approximate sleep with a target ahead -/

theorem posix_timespecValue_of_range (tv : Posix.timespec)
    (hn : 0 ≤ tv.tv_nsec ∧ tv.tv_nsec < 1000000000)
    (hr : 0 ≤ tv.tv_sec * 1000000000 + tv.tv_nsec
      ∧ tv.tv_sec * 1000000000 + tv.tv_nsec < 18446744073709551616) :
    (Posix.timespecValue tv : Int) = tv.tv_nsec + tv.tv_sec * 1000000000 := by
  unfold Posix.timespecValue wrapU64
  omega

/-- C5 as stated fails: it bounds `tv_sec * 10^9 + tv_nsec` from above only.  Two successive
`GetValue()` calls whose OS readings are (-1 s, 5 ns) and then (0 s, 0 ns): both readings
are normalized, the second is the later one, both satisfy `tv_sec * 10^9 + tv_nsec < 2^64`;
the first call returns `2^64 - 999999995` (the unsigned conversion of `tv_sec` wraps) and
the second returns 0. -/
theorem GetValue_posix_order_counterexample :
    Posix.negEnv.clock_gettime [] = { tv_sec := -1, tv_nsec := 5 }
    ∧ Posix.negEnv.clock_gettime (Posix.GetValue Posix.negEnv { log := [] }).2.log
        = { tv_sec := 0, tv_nsec := 0 }
    ∧ ((0 : Int) ≤ 5 ∧ (5 : Int) < 1000000000)
    ∧ ((0 : Int) ≤ 0 ∧ (0 : Int) < 1000000000)
    ∧ (-1 : Int) < 0
    ∧ (-1 : Int) * 1000000000 + 5 < 18446744073709551616
    ∧ (0 : Int) * 1000000000 + 0 < 18446744073709551616
    ∧ (Posix.GetValue Posix.negEnv { log := [] }).1 = 18446744072709551621
    ∧ (Posix.GetValue Posix.negEnv (Posix.GetValue Posix.negEnv { log := [] }).2).1 = 0
    ∧ ¬ ((Posix.GetValue Posix.negEnv { log := [] }).1
        ≤ (Posix.GetValue Posix.negEnv (Posix.GetValue Posix.negEnv { log := [] }).2).1) := by
  decide

/-- C5, amended. On the POSIX path `GetValue` returns `tv_nsec + tv_sec * 1000000000` of the
OS reading; for two normalized readings (`0 ≤ tv_nsec < 10^9`) with
`0 ≤ tv_sec * 10^9 + tv_nsec < 2^64` (the lower bound is the amendment: no reading before
the clock's origin), if the second reading is not earlier than the first in the
lexicographic order on `(tv_sec, tv_nsec)` then the second `GetValue` result is at least the
first, and it is strictly greater when the second reading is strictly later. -/
theorem GetValue_posix_order (env : Posix.Env) (s1 s2 : Posix.State) (a b : Posix.timespec)
    (ha : env.clock_gettime s1.log = a) (hb : env.clock_gettime s2.log = b)
    (hna : 0 ≤ a.tv_nsec ∧ a.tv_nsec < 1000000000)
    (hnb : 0 ≤ b.tv_nsec ∧ b.tv_nsec < 1000000000)
    (hra : 0 ≤ a.tv_sec * 1000000000 + a.tv_nsec
      ∧ a.tv_sec * 1000000000 + a.tv_nsec < 18446744073709551616)
    (hrb : 0 ≤ b.tv_sec * 1000000000 + b.tv_nsec
      ∧ b.tv_sec * 1000000000 + b.tv_nsec < 18446744073709551616) :
    ((Posix.GetValue env s1).1 : Int) = a.tv_nsec + a.tv_sec * 1000000000
    ∧ ((Posix.GetValue env s2).1 : Int) = b.tv_nsec + b.tv_sec * 1000000000
    ∧ ((a.tv_sec < b.tv_sec ∨ (a.tv_sec = b.tv_sec ∧ a.tv_nsec ≤ b.tv_nsec)) →
        (Posix.GetValue env s1).1 ≤ (Posix.GetValue env s2).1)
    ∧ ((a.tv_sec < b.tv_sec ∨ (a.tv_sec = b.tv_sec ∧ a.tv_nsec < b.tv_nsec)) →
        (Posix.GetValue env s1).1 < (Posix.GetValue env s2).1) := by
  have e1 := posix_timespecValue_of_range a hna hra
  have e2 := posix_timespecValue_of_range b hnb hrb
  rw [posix_GetValue_fst, posix_GetValue_fst, ha, hb]
  refine ⟨e1, e2, ?_, ?_⟩
  · intro h
    have : (Posix.timespecValue a : Int) ≤ Posix.timespecValue b := by
      rw [e1, e2]
      omega
    exact_mod_cast this
  · intro h
    have : (Posix.timespecValue a : Int) < Posix.timespecValue b := by
      rw [e1, e2]
      omega
    exact_mod_cast this

/-- Witness for C5 (amended): the reading (1 s, 999999999 ns) followed by the reading
(2 s, 0 ns). -/
theorem GetValue_posix_order_witness :
    ((Posix.GetValue Posix.rollEnv { log := [] }).1 : Int) = 999999999 + 1 * 1000000000
    ∧ ((Posix.GetValue Posix.rollEnv { log := [Event.Sleep 0] }).1 : Int)
        = 0 + 2 * 1000000000
    ∧ (Posix.GetValue Posix.rollEnv { log := [] }).1
        ≤ (Posix.GetValue Posix.rollEnv { log := [Event.Sleep 0] }).1
    ∧ (Posix.GetValue Posix.rollEnv { log := [] }).1
        < (Posix.GetValue Posix.rollEnv { log := [Event.Sleep 0] }).1 :=
  have h := GetValue_posix_order Posix.rollEnv { log := [] } { log := [Event.Sleep 0] }
      { tv_sec := 1, tv_nsec := 999999999 } { tv_sec := 2, tv_nsec := 0 } rfl rfl
      (by decide) (by decide) (by decide) (by decide)
  ⟨h.1, h.2.1, h.2.2.1 (Or.inl (by decide)), h.2.2.2 (Or.inl (by decide))⟩

/-! ### C10: the timespec handed to the OS wait -/

theorem posix_toTimespec_spec (v : Nat) (hv : v < 18446744073709551616) :
    (Posix.toTimespec v).tv_sec = ((v / 1000000000 : Nat) : Int)
    ∧ (Posix.toTimespec v).tv_nsec = ((v % 1000000000 : Nat) : Int)
    ∧ 0 ≤ (Posix.toTimespec v).tv_nsec ∧ (Posix.toTimespec v).tv_nsec < 1000000000
    ∧ (Posix.toTimespec v).tv_sec * 1000000000 + (Posix.toTimespec v).tv_nsec = (v : Int)
    ∧ Posix.timespecValue (Posix.toTimespec v) = v := by
  have h1 : (Posix.toTimespec v).tv_sec = ((v / 1000000000 : Nat) : Int) := by
    simp only [Posix.toTimespec]
    apply wrapI64_of_range <;> omega
  have h2 : (Posix.toTimespec v).tv_nsec = ((v % 1000000000 : Nat) : Int) := by
    simp only [Posix.toTimespec]
    apply wrapI64_of_range <;> omega
  refine ⟨h1, h2, ?_, ?_, ?_, ?_⟩
  · rw [h2]; omega
  · rw [h2]; omega
  · rw [h1, h2]; omega
  · have h3 : (Posix.timespecValue (Posix.toTimespec v) : Int) = v := by
      rw [posix_timespecValue_of_range _ (by rw [h2]; omega) (by rw [h1, h2]; omega), h1, h2]
      omega
    exact_mod_cast h3

/-- C10. For every 64-bit value, the non-Apple POSIX path hands `clock_nanosleep` the
timespec with `tv_sec = value / 10^9` and `tv_nsec = value % 10^9`: it is normalized
(`0 ≤ tv_nsec < 10^9`), `tv_sec * 10^9 + tv_nsec = value`, and the composition used by
`GetValue` gives back the target exactly.  On the Apple path, when `value > current_time`,
the same holds of the timespec handed to `nanosleep` for `diff = value - current_time`. -/
theorem SleepUntil_timespec_exact (env : Posix.Env) (value : Nat) (s : Posix.State)
    (hv : value < 18446744073709551616) :
    ((Posix.SleepUntilApprox false env value s).log
        = Event.clock_nanosleep ((value / 1000000000 : Nat) : Int)
            ((value % 1000000000 : Nat) : Int) :: s.log
      ∧ (0 : Int) ≤ ((value % 1000000000 : Nat) : Int)
      ∧ ((value % 1000000000 : Nat) : Int) < 1000000000
      ∧ ((value / 1000000000 : Nat) : Int) * 1000000000 + ((value % 1000000000 : Nat) : Int)
          = (value : Int)
      ∧ Posix.timespecValue { tv_sec := ((value / 1000000000 : Nat) : Int),
                              tv_nsec := ((value % 1000000000 : Nat) : Int) } = value)
    ∧ ((Posix.GetValue env s).1 < value →
      (Posix.SleepUntilApprox true env value s).log
        = Event.nanosleep (((value - (Posix.GetValue env s).1) / 1000000000 : Nat) : Int)
            (((value - (Posix.GetValue env s).1) % 1000000000 : Nat) : Int)
          :: (Posix.GetValue env s).2.log
      ∧ (0 : Int) ≤ (((value - (Posix.GetValue env s).1) % 1000000000 : Nat) : Int)
      ∧ (((value - (Posix.GetValue env s).1) % 1000000000 : Nat) : Int) < 1000000000
      ∧ (((value - (Posix.GetValue env s).1) / 1000000000 : Nat) : Int) * 1000000000
          + (((value - (Posix.GetValue env s).1) % 1000000000 : Nat) : Int)
          = ((value - (Posix.GetValue env s).1 : Nat) : Int)
      ∧ Posix.timespecValue
          { tv_sec := (((value - (Posix.GetValue env s).1) / 1000000000 : Nat) : Int),
            tv_nsec := (((value - (Posix.GetValue env s).1) % 1000000000 : Nat) : Int) }
          = value - (Posix.GetValue env s).1) := by
  constructor
  · obtain ⟨h1, h2, h3, h4, h5, h6⟩ := posix_toTimespec_spec value hv
    have e : Posix.SleepUntilApprox false env value s
        = Posix.State.emit (Event.clock_nanosleep (Posix.toTimespec value).tv_sec
              (Posix.toTimespec value).tv_nsec) s := by
      unfold Posix.SleepUntilApprox
      simp
    have e6 : Posix.toTimespec value = Posix.timespec.mk ((value / 1000000000 : Nat) : Int)
        ((value % 1000000000 : Nat) : Int) := by
      rw [← h1, ← h2]
    refine ⟨?_, ?_, ?_, ?_, ?_⟩
    · rw [e, h1, h2]; rfl
    · rw [← h2]; exact h3
    · rw [← h2]; exact h4
    · rw [← h1, ← h2]; exact h5
    · rw [← e6]; exact h6
  · intro hlt
    have hsub : subU64 value (Posix.GetValue env s).1 = value - (Posix.GetValue env s).1 :=
      subU64_of_le _ _ (Nat.le_of_lt hlt) hv
    have hd : value - (Posix.GetValue env s).1 < 18446744073709551616 := by omega
    obtain ⟨h1, h2, h3, h4, h5, h6⟩ := posix_toTimespec_spec _ hd
    have e : Posix.SleepUntilApprox true env value s
        = Posix.State.emit
            (Event.nanosleep (Posix.toTimespec (subU64 value (Posix.GetValue env s).1)).tv_sec
              (Posix.toTimespec (subU64 value (Posix.GetValue env s).1)).tv_nsec)
            (Posix.GetValue env s).2 := by
      unfold Posix.SleepUntilApprox
      rw [if_pos rfl, if_neg (not_le.mpr hlt)]
    have e6 : Posix.toTimespec (value - (Posix.GetValue env s).1)
        = Posix.timespec.mk (((value - (Posix.GetValue env s).1) / 1000000000 : Nat) : Int)
            (((value - (Posix.GetValue env s).1) % 1000000000 : Nat) : Int) := by
      rw [← h1, ← h2]
    refine ⟨?_, ?_, ?_, ?_, ?_⟩
    · rw [e, hsub, h1, h2]; rfl
    · rw [← h2]; exact h3
    · rw [← h2]; exact h4
    · rw [← h1, ← h2]; exact h5
    · rw [← e6]; exact h6

/-- Witness for C10: target 5000000123 with the clock at 7 ns. -/
theorem SleepUntil_timespec_exact_witness :
    (5000000123 : Nat) < 18446744073709551616
    ∧ (Posix.SleepUntilApprox false (Posix.constEnv 0 7) 5000000123 { log := [] }).log
        = [Event.clock_nanosleep 5 123]
    ∧ (Posix.SleepUntilApprox true (Posix.constEnv 0 7) 5000000123 { log := [] }).log
        = [Event.nanosleep 5 116, Event.clock_gettime 0 7] :=
  ⟨by decide,
    (SleepUntil_timespec_exact (Posix.constEnv 0 7) 5000000123 { log := [] }
      (by decide)).1.1,
    ((SleepUntil_timespec_exact (Posix.constEnv 0 7) 5000000123 { log := [] }
      (by decide)).2 (by decide)).1⟩


/-! ### C7: the stopwatch object -/

/-- C7. On both builds: the constructor and `Reset()` set the stored start value to the
clock value read by the call and have no other effect than that one clock read;
`GetTimeSeconds()` and `GetTimeMilliseconds()` return `ConvertValueToSeconds` /
`ConvertValueToMilliseconds` of (clock value read by the call - stored start value) and
leave the object unchanged, so a second elapsed read made later without a `Reset` in
between is measured from the same start value. -/
theorem Timer_state_contract :
    (∀ (env : Win32.Env) (self : Timer) (s s1 : Win32.State),
      Timer.Timer (Win32.clock env) self s
          = ({ m_tvStartValue := (Win32.GetValue env s).1 }, (Win32.GetValue env s).2)
      ∧ Timer.Reset (Win32.clock env) self s
          = ({ m_tvStartValue := (Win32.GetValue env s).1 }, (Win32.GetValue env s).2)
      ∧ Timer.GetTimeSeconds (Win32.clock env) self s
          = (Win32.ConvertValueToSeconds (Win32.GetValue env s).2
              (subU64 (Win32.GetValue env s).1 self.m_tvStartValue),
            self, (Win32.GetValue env s).2)
      ∧ Timer.GetTimeMilliseconds (Win32.clock env) self s
          = (Win32.ConvertValueToMilliseconds (Win32.GetValue env s).2
              (subU64 (Win32.GetValue env s).1 self.m_tvStartValue),
            self, (Win32.GetValue env s).2)
      ∧ (Timer.GetTimeMilliseconds (Win32.clock env)
            (Timer.GetTimeSeconds (Win32.clock env) self s).2.1 s1).1
          = Win32.ConvertValueToMilliseconds (Win32.GetValue env s1).2
              (subU64 (Win32.GetValue env s1).1 self.m_tvStartValue)
      ∧ (Timer.GetTimeSeconds (Win32.clock env)
            (Timer.GetTimeMilliseconds (Win32.clock env) self s).2.1 s1).1
          = Win32.ConvertValueToSeconds (Win32.GetValue env s1).2
              (subU64 (Win32.GetValue env s1).1 self.m_tvStartValue))
    ∧ (∀ (env : Posix.Env) (self : Timer) (s s1 : Posix.State),
      Timer.Timer (Posix.clock env) self s
          = ({ m_tvStartValue := (Posix.GetValue env s).1 }, (Posix.GetValue env s).2)
      ∧ Timer.Reset (Posix.clock env) self s
          = ({ m_tvStartValue := (Posix.GetValue env s).1 }, (Posix.GetValue env s).2)
      ∧ Timer.GetTimeSeconds (Posix.clock env) self s
          = (Posix.ConvertValueToSeconds (subU64 (Posix.GetValue env s).1 self.m_tvStartValue),
            self, (Posix.GetValue env s).2)
      ∧ Timer.GetTimeMilliseconds (Posix.clock env) self s
          = (Posix.ConvertValueToMilliseconds
              (subU64 (Posix.GetValue env s).1 self.m_tvStartValue),
            self, (Posix.GetValue env s).2)
      ∧ (Timer.GetTimeMilliseconds (Posix.clock env)
            (Timer.GetTimeSeconds (Posix.clock env) self s).2.1 s1).1
          = Posix.ConvertValueToMilliseconds
              (subU64 (Posix.GetValue env s1).1 self.m_tvStartValue)
      ∧ (Timer.GetTimeSeconds (Posix.clock env)
            (Timer.GetTimeMilliseconds (Posix.clock env) self s).2.1 s1).1
          = Posix.ConvertValueToSeconds
              (subU64 (Posix.GetValue env s1).1 self.m_tvStartValue)) := by
  constructor
  · intro env self s s1
    exact ⟨rfl, rfl, rfl, rfl, rfl, rfl⟩
  · intro env self s s1
    exact ⟨rfl, rfl, rfl, rfl, rfl, rfl⟩


/-! ### Rounding to the nearest integer -/

theorem roundHalfEven_cases (q : ℚ) :
    roundHalfEven q = ⌊q⌋ ∧ q - ⌊q⌋ ≤ 1 / 2 ∨ roundHalfEven q = ⌊q⌋ + 1 ∧ 1 / 2 ≤ q - ⌊q⌋ := by
  unfold roundHalfEven
  split_ifs with h1 h2 h3
  · exact Or.inl ⟨rfl, le_of_lt h1⟩
  · exact Or.inr ⟨rfl, le_of_lt h2⟩
  · exact Or.inl ⟨rfl, not_lt.mp h2⟩
  · exact Or.inr ⟨rfl, not_lt.mp h1⟩

theorem roundHalfEven_abs_sub_le (q : ℚ) : |(roundHalfEven q : ℚ) - q| ≤ 1 / 2 := by
  have h0 := Int.floor_le q
  have h1 := Int.lt_floor_add_one q
  rw [abs_le]
  rcases roundHalfEven_cases q with ⟨h, hf⟩ | ⟨h, hf⟩
  · rw [h]; constructor <;> linarith
  · rw [h]; push_cast; constructor <;> linarith

theorem roundHalfEven_intCast (n : ℤ) : roundHalfEven (n : ℚ) = n := by
  unfold roundHalfEven
  simp

theorem le_roundHalfEven (q : ℚ) (n : ℤ) (h : (n : ℚ) ≤ q) : n ≤ roundHalfEven q := by
  have hn : n ≤ ⌊q⌋ := Int.le_floor.mpr h
  rcases roundHalfEven_cases q with ⟨e, _⟩ | ⟨e, _⟩ <;> omega

theorem roundHalfEven_le (q : ℚ) (n : ℤ) (h : q ≤ (n : ℚ)) : roundHalfEven q ≤ n := by
  rcases lt_or_eq_of_le h with hlt | heq
  · have hn : ⌊q⌋ < n := Int.floor_lt.mpr hlt
    rcases roundHalfEven_cases q with ⟨e, _⟩ | ⟨e, _⟩ <;> omega
  · rw [heq, roundHalfEven_intCast]

theorem roundHalfEven_mono {p q : ℚ} (h : p ≤ q) : roundHalfEven p ≤ roundHalfEven q := by
  by_cases hf : ⌊p⌋ = ⌊q⌋
  · unfold roundHalfEven
    rw [hf]
    split_ifs <;> first | omega | (exfalso; linarith)
  · have hlt : ⌊p⌋ < ⌊q⌋ := lt_of_le_of_ne (Int.floor_mono h) hf
    have h1 : roundHalfEven p ≤ ⌊p⌋ + 1 := by
      rcases roundHalfEven_cases p with ⟨e, _⟩ | ⟨e, _⟩ <;> omega
    have h2 : ⌊q⌋ ≤ roundHalfEven q := by
      rcases roundHalfEven_cases q with ⟨e, _⟩ | ⟨e, _⟩ <;> omega
    omega


/-! ### The binary64 grid -/

theorem quantum_pos (x : ℚ) : 0 < quantum x := by
  unfold quantum
  positivity

theorem int_log_two_eq {x : ℚ} {e : ℤ} (h0 : (2 : ℚ) ^ e ≤ x) (h1 : x < (2 : ℚ) ^ (e + 1)) :
    Int.log 2 x = e := by
  have hx : 0 < x := lt_of_lt_of_le (by positivity) h0
  have a : e ≤ Int.log 2 x :=
    (Int.zpow_le_iff_le_log (by norm_num) hx).mp (by simpa using h0)
  have b : Int.log 2 x < e + 1 :=
    (Int.lt_zpow_iff_log_lt (by norm_num) hx).mp (by simpa using h1)
  omega

theorem zpow_int_log_le {x : ℚ} (hx : 0 < x) : (2 : ℚ) ^ Int.log 2 x ≤ x := by
  simpa using Int.zpow_log_le_self (b := 2) (by norm_num) hx

theorem lt_zpow_int_log_succ (x : ℚ) : x < (2 : ℚ) ^ (Int.log 2 x + 1) := by
  simpa using Int.lt_zpow_succ_log_self (b := 2) (by norm_num) x

theorem quantum_of_binade {x : ℚ} {e : ℤ} (h0 : (2 : ℚ) ^ e ≤ |x|)
    (h1 : |x| < (2 : ℚ) ^ (e + 1)) : quantum x = (2 : ℚ) ^ (max e (-1022) - 52) := by
  unfold quantum
  rw [int_log_two_eq h0 h1]

theorem roundToGrid_zero : roundToGrid 0 = 0 := by
  unfold roundToGrid
  rw [zero_div]
  have : roundHalfEven (0 : ℚ) = 0 := by
    have := roundHalfEven_intCast 0
    simpa using this
  rw [this]
  simp

theorem roundToGrid_abs_sub_le (x : ℚ) : |roundToGrid x - x| ≤ quantum x / 2 := by
  have hu := quantum_pos x
  have h := roundHalfEven_abs_sub_le (x / quantum x)
  have e : roundToGrid x - x = ((roundHalfEven (x / quantum x) : ℚ) - x / quantum x) * quantum x := by
    unfold roundToGrid
    field_simp
  rw [e, abs_mul, abs_of_pos hu]
  calc |(roundHalfEven (x / quantum x) : ℚ) - x / quantum x| * quantum x
      ≤ 1 / 2 * quantum x := mul_le_mul_of_nonneg_right h (le_of_lt hu)
    _ = quantum x / 2 := by ring

theorem quantum_le_of_normal {x : ℚ} (h : (2 : ℚ) ^ (-1022 : ℤ) ≤ |x|) :
    quantum x ≤ |x| * (2 : ℚ) ^ (-52 : ℤ) := by
  have hx : 0 < |x| := lt_of_lt_of_le (by positivity) h
  have hl : (-1022 : ℤ) ≤ Int.log 2 |x| :=
    (Int.zpow_le_iff_le_log (by norm_num) hx).mp (by simpa using h)
  unfold quantum
  rw [max_eq_left hl, sub_eq_add_neg, zpow_add₀ (by norm_num : (2 : ℚ) ≠ 0)]
  exact mul_le_mul_of_nonneg_right (zpow_int_log_le hx) (by positivity)

/-- Relative error of one rounding in the normal range: at most `2^(-53)`. -/
theorem roundToGrid_rel_error {x : ℚ} (h : (2 : ℚ) ^ (-1022 : ℤ) ≤ |x|) :
    |roundToGrid x - x| ≤ |x| * (2 : ℚ) ^ (-53 : ℤ) := by
  have h1 := roundToGrid_abs_sub_le x
  have h2 := quantum_le_of_normal h
  have e : |x| * (2 : ℚ) ^ (-53 : ℤ) = |x| * (2 : ℚ) ^ (-52 : ℤ) / 2 := by
    rw [show (-53 : ℤ) = -52 + -1 by norm_num, zpow_add₀ (by norm_num : (2 : ℚ) ≠ 0)]
    norm_num
    ring
  rw [e]
  exact le_trans h1 (div_le_div_of_nonneg_right h2 (by norm_num))


/-! ### Representable values are fixed, rounding is monotone -/

theorem roundToGrid_of_grid (x : ℚ) (n : ℤ) (h : x / quantum x = (n : ℚ)) :
    roundToGrid x = x := by
  have hu := quantum_pos x
  unfold roundToGrid
  rw [h, roundHalfEven_intCast, ← h]
  field_simp

theorem roundToGrid_of_isDouble {x : ℚ} (h : IsDouble x) : roundToGrid x = x := by
  obtain ⟨m, k, hm, hk, _, rfl⟩ := h
  by_cases hm0 : m = 0
  · subst hm0
    simp [roundToGrid_zero]
  have h2 : (0 : ℚ) < (2 : ℚ) ^ k := by positivity
  have hx : 0 < |(m : ℚ) * (2 : ℚ) ^ k| := by
    rw [abs_pos]
    exact mul_ne_zero (by exact_mod_cast hm0) (ne_of_gt h2)
  have hlt : |(m : ℚ) * (2 : ℚ) ^ k| < (2 : ℚ) ^ (53 + k) := by
    rw [abs_mul, abs_of_pos h2, zpow_add₀ (by norm_num : (2 : ℚ) ≠ 0)]
    apply mul_lt_mul_of_pos_right _ h2
    have : ((|m| : ℤ) : ℚ) < ((2 ^ (53 : ℕ) : ℤ) : ℚ) := by exact_mod_cast hm
    rw [Int.cast_abs] at this
    norm_num at this ⊢
    exact this
  have hlog : Int.log 2 |(m : ℚ) * (2 : ℚ) ^ k| < 53 + k :=
    (Int.lt_zpow_iff_log_lt (by norm_num) hx).mp (by simpa using hlt)
  have hj : max (Int.log 2 |(m : ℚ) * (2 : ℚ) ^ k|) (-1022) - 52 ≤ k := by
    rcases max_cases (Int.log 2 |(m : ℚ) * (2 : ℚ) ^ k|) (-1022) with ⟨e, _⟩ | ⟨e, _⟩ <;>
      rw [e] <;> omega
  obtain ⟨j, hj2⟩ := Int.eq_ofNat_of_zero_le (sub_nonneg.mpr hj)
  apply roundToGrid_of_grid _ (m * 2 ^ j)
  unfold quantum
  rw [mul_div_assoc, ← zpow_sub₀ (by norm_num : (2 : ℚ) ≠ 0), hj2]
  push_cast
  rw [zpow_natCast]

theorem roundToGrid_nonneg {x : ℚ} (h : 0 ≤ x) : 0 ≤ roundToGrid x := by
  unfold roundToGrid
  have hu := quantum_pos x
  have : (0 : ℤ) ≤ roundHalfEven (x / quantum x) :=
    le_roundHalfEven _ 0 (by simpa using div_nonneg h (le_of_lt hu))
  have h2 : (0 : ℚ) ≤ (roundHalfEven (x / quantum x) : ℚ) := by exact_mod_cast this
  exact mul_nonneg h2 (le_of_lt hu)

theorem roundToGrid_le_binade_top {x : ℚ} (h : 0 ≤ x) :
    roundToGrid x ≤ (2 : ℚ) ^ (max (Int.log 2 |x|) (-1022) + 1) := by
  have hu := quantum_pos x
  have hx : x < (2 : ℚ) ^ (max (Int.log 2 |x|) (-1022) + 1) := by
    have h1 := lt_zpow_int_log_succ |x|
    rw [abs_of_nonneg h] at h1 ⊢
    refine lt_of_lt_of_le h1 (zpow_le_zpow_right₀ (by norm_num) ?_)
    have := le_max_left (Int.log 2 x) (-1022)
    omega
  have e : (2 : ℚ) ^ (max (Int.log 2 |x|) (-1022) + 1)
      = ((9007199254740992 : ℤ) : ℚ) * quantum x := by
    unfold quantum
    rw [show max (Int.log 2 |x|) (-1022) + 1 = 53 + (max (Int.log 2 |x|) (-1022) - 52) by ring,
      zpow_add₀ (by norm_num : (2 : ℚ) ≠ 0)]
    norm_num
  have hq : x / quantum x ≤ ((9007199254740992 : ℤ) : ℚ) := by
    rw [div_le_iff₀ hu, ← e]
    exact le_of_lt hx
  have hr := roundHalfEven_le _ _ hq
  rw [e]
  unfold roundToGrid
  exact mul_le_mul_of_nonneg_right (by exact_mod_cast hr) (le_of_lt hu)

theorem binade_bottom_le_roundToGrid {x : ℚ} (h : 0 < x)
    (hn : (-1022 : ℤ) ≤ Int.log 2 |x|) :
    (2 : ℚ) ^ (Int.log 2 |x|) ≤ roundToGrid x := by
  have hu := quantum_pos x
  have hx : (2 : ℚ) ^ (Int.log 2 |x|) ≤ x := by
    have := zpow_int_log_le (abs_pos.mpr (ne_of_gt h))
    rwa [abs_of_pos h] at this ⊢
  have e : (2 : ℚ) ^ (Int.log 2 |x|) = ((4503599627370496 : ℤ) : ℚ) * quantum x := by
    unfold quantum
    rw [max_eq_left hn]
    nth_rewrite 1 [show Int.log 2 |x| = 52 + (Int.log 2 |x| - 52) by ring]
    rw [zpow_add₀ (by norm_num : (2 : ℚ) ≠ 0)]
    norm_num
  have hq : ((4503599627370496 : ℤ) : ℚ) ≤ x / quantum x := by
    rw [le_div_iff₀ hu, ← e]
    exact hx
  have hr := le_roundHalfEven _ _ hq
  rw [e]
  unfold roundToGrid
  exact mul_le_mul_of_nonneg_right (by exact_mod_cast hr) (le_of_lt hu)

theorem roundToGrid_mono {x y : ℚ} (hx : 0 ≤ x) (hxy : x ≤ y) :
    roundToGrid x ≤ roundToGrid y := by
  rcases eq_or_lt_of_le hx with h0 | hpos
  · rw [← h0, roundToGrid_zero]
    exact roundToGrid_nonneg (le_trans hx hxy)
  have hy : 0 < y := lt_of_lt_of_le hpos hxy
  have hlog : Int.log 2 |x| ≤ Int.log 2 |y| := by
    rw [abs_of_pos hpos, abs_of_pos hy]
    exact Int.log_mono_right hpos hxy
  by_cases hE : max (Int.log 2 |x|) (-1022) = max (Int.log 2 |y|) (-1022)
  · have hu : quantum x = quantum y := by
      unfold quantum
      rw [hE]
    have hq := quantum_pos y
    unfold roundToGrid
    rw [hu]
    have : roundHalfEven (x / quantum y) ≤ roundHalfEven (y / quantum y) :=
      roundHalfEven_mono (div_le_div_of_nonneg_right hxy (le_of_lt hq))
    exact mul_le_mul_of_nonneg_right (by exact_mod_cast this) (le_of_lt hq)
  · have hlt : max (Int.log 2 |x|) (-1022) + 1 ≤ Int.log 2 |y| ∧ (-1022 : ℤ) ≤ Int.log 2 |y| := by
      rcases max_cases (Int.log 2 |x|) (-1022) with ⟨e1, _⟩ | ⟨e1, _⟩ <;>
        rcases max_cases (Int.log 2 |y|) (-1022) with ⟨e2, _⟩ | ⟨e2, _⟩ <;>
        rw [e1, e2] at hE <;> rw [e1] <;> omega
    calc roundToGrid x ≤ (2 : ℚ) ^ (max (Int.log 2 |x|) (-1022) + 1) :=
          roundToGrid_le_binade_top hx
      _ ≤ (2 : ℚ) ^ (Int.log 2 |y|) := zpow_le_zpow_right₀ (by norm_num) hlt.1
      _ ≤ roundToGrid y := binade_bottom_le_roundToGrid hy hlt.2


/-! ### Operations on doubles -/

theorem roundHalfEven_eq_of_near (q : ℚ) (n : ℤ) (h : |q - (n : ℚ)| < 1 / 2) :
    roundHalfEven q = n := by
  have h1 := roundHalfEven_abs_sub_le q
  rw [abs_le] at h1
  rw [abs_lt] at h
  have h2 : ((roundHalfEven q : ℤ) : ℚ) < ((n + 1 : ℤ) : ℚ) := by push_cast; linarith
  have h3 : ((n - 1 : ℤ) : ℚ) < ((roundHalfEven q : ℤ) : ℚ) := by push_cast; linarith
  have h4 : roundHalfEven q < n + 1 := by exact_mod_cast h2
  have h5 : n - 1 < roundHalfEven q := by exact_mod_cast h3
  omega

theorem roundToGrid_eq_of_near (x : ℚ) (e n : ℤ) (h0 : (2 : ℚ) ^ e ≤ |x|)
    (h1 : |x| < (2 : ℚ) ^ (e + 1)) (he : -1022 ≤ e)
    (hn : |x / (2 : ℚ) ^ (e - 52) - (n : ℚ)| < 1 / 2) :
    roundToGrid x = (n : ℚ) * (2 : ℚ) ^ (e - 52) := by
  unfold roundToGrid
  rw [quantum_of_binade h0 h1, max_eq_left he, roundHalfEven_eq_of_near _ n hn]

theorem abs_lt_of_isDouble {x : ℚ} (h : IsDouble x) : |x| < (2 : ℚ) ^ (1024 : ℕ) := by
  obtain ⟨m, k, hm, _, hk, rfl⟩ := h
  have h2 : (0 : ℚ) < (2 : ℚ) ^ k := by positivity
  have hm2 : |(m : ℚ)| < 9007199254740992 := by
    have : ((|m| : ℤ) : ℚ) < ((2 ^ (53 : ℕ) : ℤ) : ℚ) := by exact_mod_cast hm
    rw [Int.cast_abs] at this
    norm_num at this ⊢
    exact this
  have hk2 : (2 : ℚ) ^ k ≤ (2 : ℚ) ^ (971 : ℤ) := zpow_le_zpow_right₀ (by norm_num) hk
  rw [abs_mul, abs_of_pos h2]
  calc |(m : ℚ)| * (2 : ℚ) ^ k ≤ |(m : ℚ)| * (2 : ℚ) ^ (971 : ℤ) :=
        mul_le_mul_of_nonneg_left hk2 (abs_nonneg _)
    _ < 9007199254740992 * (2 : ℚ) ^ (971 : ℤ) :=
        mul_lt_mul_of_pos_right hm2 (by positivity)
    _ = (2 : ℚ) ^ (1024 : ℕ) := by
        rw [show (9007199254740992 : ℚ) = (2 : ℚ) ^ (53 : ℤ) by norm_num,
          ← zpow_add₀ (by norm_num : (2 : ℚ) ≠ 0), ← zpow_natCast]
        norm_num

theorem round_of_isDouble {x : ℚ} (h : IsDouble x) : F64.round x = F64.fin x := by
  unfold F64.round
  rw [roundToGrid_of_isDouble h, if_neg (not_le.mpr (abs_lt_of_isDouble h))]

theorem round_of_lt {x : ℚ} (h : |roundToGrid x| < (2 : ℚ) ^ (1024 : ℕ)) :
    F64.round x = F64.fin (roundToGrid x) := by
  unfold F64.round
  rw [if_neg (not_le.mpr h)]

theorem isDouble_natCast (n : ℕ) (h : n < 9007199254740992) : IsDouble (n : ℚ) := by
  refine ⟨(n : ℤ), 0, ?_, by norm_num, by norm_num, by simp⟩
  rw [abs_of_nonneg (by positivity)]
  norm_num
  exact_mod_cast h

theorem isDouble_two_zpow (k : ℤ) (h0 : -1074 ≤ k) (h1 : k ≤ 971) : IsDouble ((2 : ℚ) ^ k) :=
  ⟨1, k, by norm_num, h0, h1, by simp⟩

theorem ofU64_of_lt (v : ℕ) (h : v < 9007199254740992) : F64.ofU64 v = F64.fin (v : ℚ) :=
  round_of_isDouble (isDouble_natCast v h)

theorem round_zero : F64.round 0 = F64.fin 0 := by
  have : IsDouble (0 : ℚ) := by simpa using isDouble_natCast 0 (by norm_num)
  exact round_of_isDouble this

theorem toU64_natCast (n : ℕ) (h : n < 18446744073709551616) :
    F64.toU64 (F64.fin (n : ℚ)) = some n := by
  have h1 : (-1 : ℚ) < (n : ℚ) := lt_of_lt_of_le (by norm_num) (Nat.cast_nonneg n)
  have h2 : (n : ℚ) < (2 : ℚ) ^ (64 : ℕ) := by
    norm_num
    exact_mod_cast h
  simp only [F64.toU64]
  rw [if_pos ⟨h1, h2⟩]
  simp


/-! ### Ties, and the evaluation of single roundings -/

theorem round_one : F64.round 1 = F64.fin 1 := by
  have : IsDouble (1 : ℚ) := by simpa using isDouble_natCast 1 (by norm_num)
  exact round_of_isDouble this

theorem div_fin_fin (a b : ℚ) (hb : b ≠ 0) :
    F64.div (F64.fin a) (F64.fin b) = F64.round (a / b) := by
  simp only [F64.div]
  rw [if_neg hb]

theorem mul_fin_fin (a b : ℚ) : F64.mul (F64.fin a) (F64.fin b) = F64.round (a * b) := rfl

theorem round_ofNat_lit (n : ℕ) [n.AtLeastTwo] (h : n < 9007199254740992) :
    F64.round (OfNat.ofNat n : ℚ) = F64.fin (OfNat.ofNat n : ℚ) := by
  have := round_of_isDouble (isDouble_natCast n h)
  rw [Nat.cast_eq_ofNat] at this
  exact this

theorem roundHalfEven_of_tie_even (n : ℤ) (h : n % 2 = 0) :
    roundHalfEven ((n : ℚ) + 1 / 2) = n := by
  have hf : ⌊(n : ℚ) + 1 / 2⌋ = n := by
    rw [Int.floor_eq_iff]
    constructor <;> linarith
  unfold roundHalfEven
  rw [hf]
  have e : (n : ℚ) + 1 / 2 - (n : ℚ) = 1 / 2 := by ring
  rw [e, if_neg (lt_irrefl _), if_neg (lt_irrefl _), if_pos h]

theorem roundToGrid_eq_of_tie (x : ℚ) (e n : ℤ) (h0 : (2 : ℚ) ^ e ≤ |x|)
    (h1 : |x| < (2 : ℚ) ^ (e + 1)) (he : -1022 ≤ e)
    (hn : x / (2 : ℚ) ^ (e - 52) = (n : ℚ) + 1 / 2) (hp : n % 2 = 0) :
    roundToGrid x = (n : ℚ) * (2 : ℚ) ^ (e - 52) := by
  unfold roundToGrid
  rw [quantum_of_binade h0 h1, max_eq_left he, hn, roundHalfEven_of_tie_even n hp]

/-- Evaluation of one rounding: `x` lies in the binade of `2^e` and within half a grid step
of `n * 2^(e-52) = r`. -/
theorem round_eq_of_near (x r : ℚ) (e n : ℤ) (h0 : (2 : ℚ) ^ e ≤ |x|)
    (h1 : |x| < (2 : ℚ) ^ (e + 1)) (he : -1022 ≤ e)
    (hn : |x / (2 : ℚ) ^ (e - 52) - (n : ℚ)| < 1 / 2)
    (hr : (n : ℚ) * (2 : ℚ) ^ (e - 52) = r) (hfin : |r| < (2 : ℚ) ^ (1024 : ℕ)) :
    F64.round x = F64.fin r := by
  have := roundToGrid_eq_of_near x e n h0 h1 he hn
  rw [hr] at this
  rw [round_of_lt (by rw [this]; exact hfin), this]

/-- Evaluation of one rounding at a tie: `x` lies half way between `n * 2^(e-52) = r` and the
next double, and `n` is even. -/
theorem round_eq_of_tie (x r : ℚ) (e n : ℤ) (h0 : (2 : ℚ) ^ e ≤ |x|)
    (h1 : |x| < (2 : ℚ) ^ (e + 1)) (he : -1022 ≤ e)
    (hn : x / (2 : ℚ) ^ (e - 52) = (n : ℚ) + 1 / 2) (hp : n % 2 = 0)
    (hr : (n : ℚ) * (2 : ℚ) ^ (e - 52) = r) (hfin : |r| < (2 : ℚ) ^ (1024 : ℕ)) :
    F64.round x = F64.fin r := by
  have := roundToGrid_eq_of_tie x e n h0 h1 he hn hp
  rw [hr] at this
  rw [round_of_lt (by rw [this]; exact hfin), this]

theorem toU64_ofNat_lit (n : ℕ) [n.AtLeastTwo] (h : n < 18446744073709551616) :
    F64.toU64 (F64.fin (OfNat.ofNat n : ℚ)) = some n := by
  have := toU64_natCast n h
  rw [Nat.cast_eq_ofNat] at this
  exact this

theorem ofU64_ofNat_lit (n : ℕ) [n.AtLeastTwo] :
    F64.ofU64 (OfNat.ofNat n) = F64.round (OfNat.ofNat n : ℚ) := by
  unfold F64.ofU64
  rw [Nat.cast_ofNat]


/-! ### Accumulated relative error of a chain of roundings -/

/-- One more rounding: if `x` approximates `y` with relative error `(1+2^-53)^k - 1`
(`k ≤ 8`), the rounded `x` is finite and approximates `y` with relative error
`(1+2^-53)^(k+1) - 1`. -/
theorem round_near {x y : ℚ} (k : ℕ) (hk : k ≤ 8)
    (hy1 : (2 : ℚ) ^ (-200 : ℤ) ≤ y) (hy2 : y ≤ (2 : ℚ) ^ (200 : ℤ))
    (h : |x - y| ≤ ((1 + (2 : ℚ) ^ (-53 : ℤ)) ^ k - 1) * y) :
    ∃ r, F64.round x = F64.fin r
      ∧ |r - y| ≤ ((1 + (2 : ℚ) ^ (-53 : ℤ)) ^ (k + 1) - 1) * y := by
  have hy0 : 0 < y := lt_of_lt_of_le (by positivity) hy1
  have hd1 : (1 : ℚ) ≤ (1 + (2 : ℚ) ^ (-53 : ℤ)) ^ k := one_le_pow₀ (by norm_num)
  have hd2 : (1 + (2 : ℚ) ^ (-53 : ℤ)) ^ k ≤ (1 + (2 : ℚ) ^ (-53 : ℤ)) ^ 8 :=
    pow_le_pow_right₀ (by norm_num) hk
  have hd3 : (1 + (2 : ℚ) ^ (-53 : ℤ)) ^ 8 ≤ 3 / 2 := by norm_num
  set d := (1 + (2 : ℚ) ^ (-53 : ℤ)) ^ k with hd
  have hd4 : d ≤ 3 / 2 := le_trans hd2 hd3
  rw [abs_le] at h
  have hdy : (d - 1) * y ≤ 1 / 2 * y := mul_le_mul_of_nonneg_right (by linarith) (le_of_lt hy0)
  have hx1 : y / 2 ≤ x := by linarith [h.1]
  have hx2 : x ≤ d * y := by linarith [h.2]
  have hx0 : 0 < x := by linarith
  have hnorm : (2 : ℚ) ^ (-1022 : ℤ) ≤ |x| := by
    rw [abs_of_pos hx0]
    have h1 : (2 : ℚ) ^ (-1022 : ℤ) ≤ (2 : ℚ) ^ (-200 : ℤ) / 2 := by norm_num
    exact le_trans h1 (le_trans (div_le_div_of_nonneg_right hy1 (by norm_num)) hx1)
  have hrel := roundToGrid_rel_error hnorm
  rw [abs_of_pos hx0, abs_le] at hrel
  have hε : (0 : ℚ) ≤ (2 : ℚ) ^ (-53 : ℤ) := by positivity
  have hε1 : (2 : ℚ) ^ (-53 : ℤ) ≤ 1 := by norm_num
  have hfin : |roundToGrid x| < (2 : ℚ) ^ (1024 : ℕ) := by
    rw [abs_of_nonneg (roundToGrid_nonneg (le_of_lt hx0))]
    have e0 : x * (2 : ℚ) ^ (-53 : ℤ) ≤ x * 1 := mul_le_mul_of_nonneg_left hε1 (le_of_lt hx0)
    have e1 : roundToGrid x ≤ 2 * x := by linarith [hrel.2]
    have e2 : x ≤ 3 / 2 * (2 : ℚ) ^ (200 : ℤ) :=
      le_trans hx2 (mul_le_mul hd4 hy2 (le_of_lt hy0) (by norm_num))
    have e4 : 2 * (3 / 2 * (2 : ℚ) ^ (200 : ℤ)) < (2 : ℚ) ^ (1024 : ℕ) := by norm_num
    exact lt_of_le_of_lt (le_trans e1 (mul_le_mul_of_nonneg_left e2 (by norm_num))) e4
  refine ⟨roundToGrid x, round_of_lt hfin, ?_⟩
  have he : (1 + (2 : ℚ) ^ (-53 : ℤ)) ^ (k + 1) = d * (1 + (2 : ℚ) ^ (-53 : ℤ)) := by
    rw [pow_succ]
  rw [he, abs_le]
  have hxe : x * (2 : ℚ) ^ (-53 : ℤ) ≤ d * y * (2 : ℚ) ^ (-53 : ℤ) :=
    mul_le_mul_of_nonneg_right hx2 hε
  generalize (2 : ℚ) ^ (-53 : ℤ) = ε at hrel hxe ⊢
  constructor
  · linarith [hrel.1, h.1]
  · linarith [hrel.2, h.2]

theorem div_near {r y c : ℚ} (k : ℕ) (hk : k ≤ 8) (hc : 0 < c)
    (hy1 : (2 : ℚ) ^ (-200 : ℤ) ≤ y / c) (hy2 : y / c ≤ (2 : ℚ) ^ (200 : ℤ))
    (h : |r - y| ≤ ((1 + (2 : ℚ) ^ (-53 : ℤ)) ^ k - 1) * y) :
    ∃ r1, F64.div (F64.fin r) (F64.fin c) = F64.fin r1
      ∧ |r1 - y / c| ≤ ((1 + (2 : ℚ) ^ (-53 : ℤ)) ^ (k + 1) - 1) * (y / c) := by
  have e : F64.div (F64.fin r) (F64.fin c) = F64.round (r / c) := by
    simp [F64.div, ne_of_gt hc]
  rw [e]
  apply round_near k hk hy1 hy2
  have e2 : r / c - y / c = (r - y) / c := by ring
  rw [e2, abs_div, abs_of_pos hc, mul_div_assoc']
  exact div_le_div_of_nonneg_right h (le_of_lt hc)


/-! ### Rounding between two doubles -/

theorem round_between {lo hi x : ℚ} (hlo : IsDouble lo) (hhi : IsDouble hi) (h0 : 0 ≤ lo)
    (h1 : lo ≤ x) (h2 : x ≤ hi) :
    F64.round x = F64.fin (roundToGrid x) ∧ lo ≤ roundToGrid x ∧ roundToGrid x ≤ hi := by
  have a := roundToGrid_mono h0 h1
  have b := roundToGrid_mono (le_trans h0 h1) h2
  rw [roundToGrid_of_isDouble hlo] at a
  rw [roundToGrid_of_isDouble hhi] at b
  refine ⟨round_of_lt ?_, a, b⟩
  rw [abs_of_nonneg (le_trans h0 a)]
  exact lt_of_le_of_lt b (lt_of_le_of_lt (le_abs_self hi) (abs_lt_of_isDouble hhi))

/-- Rounding between a double and a value whose rounding is bounded. -/
theorem round_between_le (lo hi x : ℚ) (hlo : IsDouble lo) (h0 : 0 ≤ lo)
    (h1 : lo ≤ x) (h2 : x ≤ hi) (hhi : roundToGrid hi < (2 : ℚ) ^ (1024 : ℕ)) :
    F64.round x = F64.fin (roundToGrid x) ∧ lo ≤ roundToGrid x
      ∧ roundToGrid x ≤ roundToGrid hi := by
  have a := roundToGrid_mono h0 h1
  have b := roundToGrid_mono (le_trans h0 h1) h2
  rw [roundToGrid_of_isDouble hlo] at a
  refine ⟨round_of_lt ?_, a, b⟩
  rw [abs_of_nonneg (le_trans h0 a)]
  exact lt_of_le_of_lt b hhi

/-- The frequency stored by `GetValue` for a positive `QueryPerformanceFrequency` answer is a
finite positive double between `2^(-30)` and `2^34` ticks per nanosecond. -/
theorem frequency_range (Q : ℤ) (h0 : 0 < Q) (h1 : Q < 9223372036854775808) :
    ∃ a, F64.div (F64.ofI64 Q) (F64.fin 1000000000) = F64.fin a
      ∧ (2 : ℚ) ^ (-64 : ℤ) ≤ a ∧ a ≤ (2 : ℚ) ^ (64 : ℤ) := by
  have hq0 : (1 : ℚ) ≤ (Q : ℚ) := by exact_mod_cast h0
  have hq1 : (Q : ℚ) ≤ (2 : ℚ) ^ (63 : ℤ) := by
    norm_num
    exact_mod_cast (le_of_lt h1)
  have d1 : IsDouble (1 : ℚ) := by simpa using isDouble_two_zpow 0 (by norm_num) (by norm_num)
  obtain ⟨e1, l1, u1⟩ := round_between d1 (isDouble_two_zpow 63 (by norm_num) (by norm_num))
    (by norm_num) hq0 hq1
  have l2 : (2 : ℚ) ^ (-30 : ℤ) ≤ roundToGrid (Q : ℚ) / 1000000000 := by
    rw [le_div_iff₀ (by norm_num)]
    exact le_trans (by norm_num) l1
  have u2 : roundToGrid (Q : ℚ) / 1000000000 ≤ (2 : ℚ) ^ (34 : ℤ) := by
    rw [div_le_iff₀ (by norm_num)]
    exact le_trans u1 (by norm_num)
  obtain ⟨e2, l3, u3⟩ := round_between (isDouble_two_zpow (-30) (by norm_num) (by norm_num))
    (isDouble_two_zpow 34 (by norm_num) (by norm_num)) (by positivity) l2 u2
  refine ⟨roundToGrid (roundToGrid (Q : ℚ) / 1000000000), ?_, ?_, ?_⟩
  · unfold F64.ofI64
    rw [e1]
    simp only [F64.div]
    rw [if_neg (by norm_num), e2]
  · exact le_trans (zpow_le_zpow_right₀ (by norm_num) (by norm_num)) l3
  · exact le_trans u3 (zpow_le_zpow_right₀ (by norm_num) (by norm_num))


/-! ### Tick counts as doubles -/

theorem isDouble_natCast_le (n : ℕ) (h : n ≤ 9007199254740992) : IsDouble (n : ℚ) := by
  rcases Nat.lt_or_ge n 9007199254740992 with h1 | h1
  · exact isDouble_natCast n h1
  · have e : n = 9007199254740992 := by omega
    subst e
    have := isDouble_two_zpow 53 (by norm_num) (by norm_num)
    norm_num at this ⊢
    exact this

theorem isDouble_even_natCast (m : ℕ) (h : m ≤ 9007199254740992) :
    IsDouble (((2 * m : ℕ) : ℚ)) := by
  rcases Nat.lt_or_ge m 9007199254740992 with h1 | h1
  · refine ⟨(m : ℤ), 1, ?_, by norm_num, by norm_num, ?_⟩
    · rw [abs_of_nonneg (by positivity)]
      norm_num
      exact_mod_cast h1
    · push_cast
      ring
  · have e : m = 9007199254740992 := by omega
    subst e
    have := isDouble_two_zpow 54 (by norm_num) (by norm_num)
    norm_num at this ⊢
    exact this

/-- The conversion to double of a tick count up to `2^53`, which is exact. -/
theorem ofU64_of_le (v : ℕ) (h : v ≤ 9007199254740992) : F64.ofU64 v = F64.fin (v : ℚ) :=
  round_of_isDouble (isDouble_natCast_le v h)

/-- A tick count between `2^53` and `2^54` converts to an even integer at most one away. -/
theorem roundToGrid_natCast_binade53 (v : ℕ) (h1 : 9007199254740992 ≤ v)
    (h2 : v < 18014398509481984) :
    ∃ m : ℕ, roundToGrid (v : ℚ) = ((2 * m : ℕ) : ℚ) ∧ 2 * m ≤ v + 1 ∧ v ≤ 2 * m + 1 := by
  have hv1 : (2 : ℚ) ^ (53 : ℤ) ≤ |(v : ℚ)| := by
    rw [abs_of_nonneg (Nat.cast_nonneg v)]
    norm_num
    exact_mod_cast h1
  have hv2 : |(v : ℚ)| < (2 : ℚ) ^ ((53 : ℤ) + 1) := by
    rw [abs_of_nonneg (Nat.cast_nonneg v)]
    norm_num
    exact_mod_cast h2
  have hq : quantum (v : ℚ) = 2 := by
    rw [quantum_of_binade hv1 hv2]
    norm_num
  have hr := roundHalfEven_abs_sub_le ((v : ℚ) / 2)
  rw [abs_le] at hr
  generalize hk : roundHalfEven ((v : ℚ) / 2) = k at hr
  have a1 : ((2 * k : ℤ) : ℚ) ≤ (((v + 1 : ℕ) : ℤ) : ℚ) := by push_cast; linarith [hr.2]
  have a2 : (((v : ℕ) : ℤ) : ℚ) ≤ ((2 * k + 1 : ℤ) : ℚ) := by push_cast; linarith [hr.1]
  have b1 : 2 * k ≤ ((v + 1 : ℕ) : ℤ) := by exact_mod_cast a1
  have b2 : ((v : ℕ) : ℤ) ≤ 2 * k + 1 := by exact_mod_cast a2
  have k0 : 0 ≤ k := by omega
  have hkn : ((k.toNat : ℕ) : ℤ) = k := Int.toNat_of_nonneg k0
  refine ⟨k.toNat, ?_, by omega, by omega⟩
  unfold roundToGrid
  rw [hq, hk]
  have : (k : ℚ) = ((k.toNat : ℕ) : ℚ) := by
    rw [← Int.cast_natCast, hkn]
  rw [this]
  push_cast
  ring

/-- The conversion to double of a tick count between `2^53` and `2^54`: an even integer at
most one away. -/
theorem ofU64_binade53 (v : ℕ) (h1 : 9007199254740992 ≤ v) (h2 : v < 18014398509481984) :
    ∃ m : ℕ, F64.ofU64 v = F64.fin ((2 * m : ℕ) : ℚ) ∧ 2 * m ≤ v + 1 ∧ v ≤ 2 * m + 1 := by
  obtain ⟨m, em, m1, m2⟩ := roundToGrid_natCast_binade53 v h1 h2
  refine ⟨m, ?_, m1, m2⟩
  unfold F64.ofU64
  have hd := isDouble_even_natCast m (by omega)
  rw [round_of_lt (by rw [em]; exact abs_lt_of_isDouble hd), em]

theorem ofU64_two_pow_54 : F64.ofU64 18014398509481984 = F64.fin 18014398509481984 := by
  unfold F64.ofU64
  have := round_of_isDouble (isDouble_two_zpow 54 (by norm_num) (by norm_num))
  norm_num at this ⊢
  exact this

theorem ofU64_two_pow_54_succ : F64.ofU64 18014398509481985 = F64.fin 18014398509481984 := by
  unfold F64.ofU64
  have r : roundToGrid ((18014398509481985 : ℕ) : ℚ) = 18014398509481984 := by
    have := roundToGrid_eq_of_near ((18014398509481985 : ℕ) : ℚ) 54 4503599627370496
      (by norm_num) (by norm_num) (by norm_num) (by norm_num [abs_lt])
    rw [this]
    norm_num
  rw [round_of_lt (by rw [r]; norm_num), r]

theorem toU64_two_pow_54 : F64.toU64 (F64.fin 18014398509481984) = some 18014398509481984 := by
  have := toU64_natCast 18014398509481984 (by norm_num)
  rw [Nat.cast_ofNat] at this
  exact this

theorem toU64_between {y : ℚ} (v : ℕ) (hv1 : 1 ≤ v) (hv2 : v + 1 < 18446744073709551616)
    (h1 : (v : ℚ) - 1 ≤ y) (h2 : y ≤ (v : ℚ) + 1) :
    ∃ n, F64.toU64 (F64.fin y) = some n ∧ n ≤ v + 1 ∧ v ≤ n + 1 := by
  have hv0 : (1 : ℚ) ≤ (v : ℚ) := by exact_mod_cast hv1
  have hc1 : (-1 : ℚ) < y := by linarith
  have hc2 : y < (2 : ℚ) ^ (64 : ℕ) := by
    have : ((v + 1 : ℕ) : ℚ) < (18446744073709551616 : ℚ) := by exact_mod_cast hv2
    push_cast at this
    norm_num
    linarith
  refine ⟨⌊y⌋.toNat, ?_, ?_⟩
  · simp only [F64.toU64]
    rw [if_pos ⟨hc1, hc2⟩]
  · have f1 : ((v : ℤ) - 1) ≤ ⌊y⌋ := Int.le_floor.mpr (by push_cast; linarith)
    have f2 : ⌊y⌋ ≤ (v : ℤ) + 1 := by
      have := Int.floor_le y
      have h3 : ((⌊y⌋ : ℤ) : ℚ) ≤ (((v : ℤ) + 1 : ℤ) : ℚ) := by push_cast; linarith
      exact_mod_cast h3
    omega

theorem roundToGrid_two_pow_53_succ :
    roundToGrid (9007199254740993 : ℚ) = 9007199254740992 := by
  have := roundToGrid_eq_of_tie (9007199254740993 : ℚ) 53 4503599627370496
    (by norm_num) (by norm_num) (by norm_num) (by norm_num) (by norm_num)
  rw [this]
  norm_num

/-- The rounding of `v + 1` is at most `v + 1` for every tick count `v ≤ 2^53`. -/
theorem roundToGrid_succ_le (v : ℕ) (h : v ≤ 9007199254740992) :
    roundToGrid ((v : ℚ) + 1) ≤ (v : ℚ) + 1 := by
  rcases Nat.lt_or_ge v 9007199254740992 with h1 | h1
  · have := roundToGrid_of_isDouble (isDouble_natCast_le (v + 1) (by omega))
    push_cast at this
    rw [this]
  · have e : v = 9007199254740992 := by omega
    subst e
    have := roundToGrid_two_pow_53_succ
    norm_num at this ⊢
    rw [this]
    norm_num


/-! ### Round trips through the unit conversions -/

theorem zpow_range_div {y c : ℚ} {p q r s : ℤ} (hy1 : (2 : ℚ) ^ p ≤ y) (hy2 : y ≤ (2 : ℚ) ^ q)
    (hc1 : (2 : ℚ) ^ r ≤ c) (hc2 : c ≤ (2 : ℚ) ^ s) (hlo : -200 ≤ p - s) (hhi : q - r ≤ 200) :
    (2 : ℚ) ^ (-200 : ℤ) ≤ y / c ∧ y / c ≤ (2 : ℚ) ^ (200 : ℤ) := by
  have hc0 : 0 < c := lt_of_lt_of_le (by positivity) hc1
  have hy0 : 0 < y := lt_of_lt_of_le (by positivity) hy1
  constructor
  · calc (2 : ℚ) ^ (-200 : ℤ) ≤ (2 : ℚ) ^ (p - s) := zpow_le_zpow_right₀ (by norm_num) hlo
      _ = (2 : ℚ) ^ p / (2 : ℚ) ^ s := zpow_sub₀ (by norm_num) p s
      _ ≤ y / c := div_le_div₀ (le_of_lt hy0) hy1 hc0 hc2
  · calc y / c ≤ (2 : ℚ) ^ q / (2 : ℚ) ^ r :=
          div_le_div₀ (by positivity) hy2 (by positivity) hc1
      _ = (2 : ℚ) ^ (q - r) := (zpow_sub₀ (by norm_num) q r).symm
      _ ≤ (2 : ℚ) ^ (200 : ℤ) := zpow_le_zpow_right₀ (by norm_num) hhi

theorem natCast_range53 (v : ℕ) (hv1 : 1 ≤ v) (hv2 : v ≤ 9007199254740992) :
    (2 : ℚ) ^ (0 : ℤ) ≤ (v : ℚ) ∧ (v : ℚ) ≤ (2 : ℚ) ^ (53 : ℤ) := by
  constructor
  · norm_num
    exact_mod_cast hv1
  · norm_num
    exact_mod_cast hv2

/-- The last step of a round trip: if the exact product `r * a` is within one of the tick
count `v ≤ 2^53`, the rounded product converts to a tick count at most one away from `v`
(the integers next to `v` are doubles and rounding is monotone). -/
theorem mul_back_within_one {r a : ℚ} (v : ℕ) (hv1 : 1 ≤ v) (hv2 : v ≤ 9007199254740992)
    (h : |r * a - (v : ℚ)| ≤ 1) :
    ∃ n, F64.toU64 (F64.mul (F64.fin r) (F64.fin a)) = some n ∧ n ≤ v + 1 ∧ v ≤ n + 1 := by
  rw [abs_le] at h
  have hv0 : (1 : ℚ) ≤ (v : ℚ) := by exact_mod_cast hv1
  have hlo : IsDouble (((v - 1 : ℕ) : ℚ)) := isDouble_natCast_le (v - 1) (by omega)
  have elo : (((v - 1 : ℕ) : ℚ)) = (v : ℚ) - 1 := by
    rw [Nat.cast_sub hv1]
    norm_num
  rw [elo] at hlo
  have hs := roundToGrid_succ_le v hv2
  have hvq : (v : ℚ) ≤ 9007199254740992 := by exact_mod_cast hv2
  obtain ⟨e1, l1, u1⟩ := round_between_le ((v : ℚ) - 1) ((v : ℚ) + 1) (r * a) hlo
    (by linarith)
    (by linarith [h.1]) (by linarith [h.2])
    (lt_of_le_of_lt hs (by
      have : (9007199254740992 : ℚ) + 1 < (2 : ℚ) ^ (1024 : ℕ) := by norm_num
      linarith))
  rw [mul_fin_fin, e1]
  exact toU64_between v hv1 (by omega) l1 (le_trans u1 hs)

/-- Dividing a tick count `v ≤ 2^53` by `c` and multiplying the result by `c` (two
roundings) gives a tick count at most one away from `v`. -/
theorem roundtrip_two_le (v : ℕ) (c : ℚ) (hv2 : v ≤ 9007199254740992)
    (hc1 : (2 : ℚ) ^ (-64 : ℤ) ≤ c) (hc2 : c ≤ (2 : ℚ) ^ (64 : ℤ)) :
    ∃ n, F64.toU64 (F64.mul (F64.div (F64.fin (v : ℚ)) (F64.fin c)) (F64.fin c)) = some n
      ∧ n ≤ v + 1 ∧ v ≤ n + 1 := by
  have hc0 : 0 < c := lt_of_lt_of_le (by positivity) hc1
  rcases Nat.eq_zero_or_pos v with h0 | hv1
  · subst h0
    refine ⟨0, ?_, by omega, by omega⟩
    simp [F64.div, F64.mul, ne_of_gt hc0, round_zero, F64.toU64]
  have hv := natCast_range53 v hv1 hv2
  have R1 := zpow_range_div hv.1 hv.2 hc1 hc2 (by norm_num) (by norm_num)
  obtain ⟨r1, e1, b1⟩ := div_near (r := (v : ℚ)) (y := (v : ℚ)) 0 (by norm_num) hc0 R1.1 R1.2
    (by simp)
  rw [e1]
  apply mul_back_within_one v hv1 hv2
  have hv0 : (0 : ℚ) ≤ (v : ℚ) := Nat.cast_nonneg v
  have e3 : r1 * c - (v : ℚ) = (r1 - (v : ℚ) / c) * c := by
    field_simp
  rw [e3, abs_mul, abs_of_pos hc0]
  calc |r1 - (v : ℚ) / c| * c
      ≤ ((1 + (2 : ℚ) ^ (-53 : ℤ)) ^ (0 + 1) - 1) * ((v : ℚ) / c) * c :=
        mul_le_mul_of_nonneg_right b1 (le_of_lt hc0)
    _ = (2 : ℚ) ^ (-53 : ℤ) * (v : ℚ) := by
        rw [mul_assoc, div_mul_cancel₀ _ (ne_of_gt hc0)]
        norm_num
    _ ≤ (2 : ℚ) ^ (-53 : ℤ) * (2 : ℚ) ^ (53 : ℤ) :=
        mul_le_mul_of_nonneg_left hv.2 (by positivity)
    _ = 1 := by norm_num

/-- Grid form of the rounding of a positive number `w` in the normal range: it is
`k * 2^(e-52)` with `2^52 ≤ k < 2^53`, and it is at most `2^(e-53)` away from `w`. -/
theorem roundToGrid_grid_form {w : ℚ} (hn : (2 : ℚ) ^ (-1022 : ℤ) ≤ w) :
    ∃ e k : ℤ, Int.log 2 w ≤ e ∧ e ≤ Int.log 2 w + 1
      ∧ 4503599627370496 ≤ k ∧ k < 9007199254740992
      ∧ roundToGrid w = (k : ℚ) * (2 : ℚ) ^ (e - 52)
      ∧ |roundToGrid w - w| ≤ (2 : ℚ) ^ (e - 53) := by
  have hw : 0 < w := lt_of_lt_of_le (by positivity) hn
  have hl : (-1022 : ℤ) ≤ Int.log 2 w :=
    (Int.zpow_le_iff_le_log (by norm_num) hw).mp (by simpa using hn)
  have h0 := zpow_int_log_le hw
  have h1 := lt_zpow_int_log_succ w
  generalize hE : Int.log 2 w = E at hl h0 h1
  have hq : quantum w = (2 : ℚ) ^ (E - 52) := by
    rw [quantum_of_binade (e := E) (by rw [abs_of_pos hw]; exact h0)
      (by rw [abs_of_pos hw]; exact h1), max_eq_left hl]
  have hu : (0 : ℚ) < (2 : ℚ) ^ (E - 52) := by positivity
  have e52 : (2 : ℚ) ^ E = 4503599627370496 * (2 : ℚ) ^ (E - 52) := by
    rw [show E = 52 + (E - 52) by ring, zpow_add₀ (by norm_num : (2 : ℚ) ≠ 0)]
    norm_num
  have e53 : (2 : ℚ) ^ (E + 1) = 9007199254740992 * (2 : ℚ) ^ (E - 52) := by
    rw [show E + 1 = 53 + (E - 52) by ring, zpow_add₀ (by norm_num : (2 : ℚ) ≠ 0)]
    norm_num
  have ehalf : (2 : ℚ) ^ (E - 52) / 2 = (2 : ℚ) ^ (E - 53) := by
    rw [show E - 52 = (E - 53) + 1 by ring, zpow_add₀ (by norm_num : (2 : ℚ) ≠ 0)]
    norm_num
  have hr := roundToGrid_abs_sub_le w
  rw [hq, ehalf] at hr
  have k1 : (4503599627370496 : ℤ) ≤ roundHalfEven (w / (2 : ℚ) ^ (E - 52)) := by
    apply le_roundHalfEven
    rw [le_div_iff₀ hu]
    push_cast
    rw [← e52]
    exact h0
  have k2 : roundHalfEven (w / (2 : ℚ) ^ (E - 52)) ≤ (9007199254740992 : ℤ) := by
    apply roundHalfEven_le
    rw [div_le_iff₀ hu]
    push_cast
    rw [← e53]
    exact le_of_lt h1
  have hx : roundToGrid w
      = (roundHalfEven (w / (2 : ℚ) ^ (E - 52)) : ℚ) * (2 : ℚ) ^ (E - 52) := by
    unfold roundToGrid
    rw [hq]
  generalize roundHalfEven (w / (2 : ℚ) ^ (E - 52)) = n at k1 k2 hx
  rcases lt_or_eq_of_le k2 with k3 | k3
  · exact ⟨E, n, le_refl _, by omega, k1, k3, hx, hr⟩
  · refine ⟨E + 1, 4503599627370496, by omega, le_refl _, le_refl _, by norm_num, ?_, ?_⟩
    · rw [hx, k3, show E + 1 - 52 = 1 + (E - 52) by ring,
        zpow_add₀ (by norm_num : (2 : ℚ) ≠ 0)]
      push_cast
      ring
    · refine le_trans hr (zpow_le_zpow_right₀ (by norm_num) (by omega))

/-- A multiple `k * 2^j` of a power of two with `|k| ≤ 2^53` is a double. -/
theorem isDouble_grid (k j : ℤ) (hk : |k| ≤ 9007199254740992) (h0 : -1074 ≤ j) (h1 : j ≤ 900) :
    IsDouble ((k : ℚ) * (2 : ℚ) ^ j) := by
  rcases lt_or_eq_of_le hk with h | h
  · exact ⟨k, j, by norm_num; exact h, h0, by omega, rfl⟩
  · rcases abs_eq (by norm_num : (0 : ℤ) ≤ 9007199254740992) |>.mp h with e | e
    · refine ⟨1, j + 53, by norm_num, by omega, by omega, ?_⟩
      rw [e, zpow_add₀ (by norm_num : (2 : ℚ) ≠ 0)]
      push_cast
      norm_num
      ring
    · refine ⟨-1, j + 53, by norm_num, by omega, by omega, ?_⟩
      rw [e, zpow_add₀ (by norm_num : (2 : ℚ) ≠ 0)]
      push_cast
      norm_num
      ring

/-- Rounding commutes with scaling by a power of two, in the normal range. -/
theorem roundToGrid_two_zpow_mul (j : ℤ) {x : ℚ} (hx : (2 : ℚ) ^ (-1022 : ℤ) ≤ |x|)
    (hjx : (2 : ℚ) ^ (-1022 : ℤ) ≤ |(2 : ℚ) ^ j * x|) :
    roundToGrid ((2 : ℚ) ^ j * x) = (2 : ℚ) ^ j * roundToGrid x := by
  have two : (2 : ℚ) ≠ 0 := by norm_num
  have hj : (0 : ℚ) < (2 : ℚ) ^ j := by positivity
  have hx0 : 0 < |x| := lt_of_lt_of_le (by positivity) hx
  have h0 := zpow_int_log_le hx0
  have h1 := lt_zpow_int_log_succ |x|
  have hl : (-1022 : ℤ) ≤ Int.log 2 |x| :=
    (Int.zpow_le_iff_le_log (by norm_num) hx0).mp (by simpa using hx)
  generalize Int.log 2 |x| = E at h0 h1 hl
  have habs : |(2 : ℚ) ^ j * x| = (2 : ℚ) ^ j * |x| := by
    rw [abs_mul, abs_of_pos hj]
  have g0 : (2 : ℚ) ^ (E + j) ≤ |(2 : ℚ) ^ j * x| := by
    rw [habs, add_comm, zpow_add₀ two]
    exact mul_le_mul_of_nonneg_left h0 (le_of_lt hj)
  have g1 : |(2 : ℚ) ^ j * x| < (2 : ℚ) ^ (E + j + 1) := by
    rw [habs, show E + j + 1 = j + (E + 1) by ring, zpow_add₀ two]
    exact mul_lt_mul_of_pos_left h1 hj
  have hlj : (-1022 : ℤ) ≤ E + j := by
    have := lt_of_le_of_lt hjx g1
    have := (zpow_lt_zpow_iff_right₀ (by norm_num : (1 : ℚ) < 2)).mp this
    omega
  have q1 : quantum x = (2 : ℚ) ^ (E - 52) := by
    rw [quantum_of_binade h0 h1, max_eq_left hl]
  have q2 : quantum ((2 : ℚ) ^ j * x) = (2 : ℚ) ^ j * (2 : ℚ) ^ (E - 52) := by
    rw [quantum_of_binade g0 g1, max_eq_left hlj, ← zpow_add₀ two]
    congr 1
    ring
  unfold roundToGrid
  rw [q2, q1, mul_div_mul_left _ _ (ne_of_gt hj)]
  ring

/-- Dividing a rounded positive number by a constant `c` with `2^s < c < 2^(s+1)` and
multiplying the quotient by `c` (three roundings in all, the first being that of `w`).  With
`U = 2^(e-53)` half the spacing of the doubles at the rounded `w`: either the quotient lies in
the binade of `2^(e-s)`, then `w` is at least `(c / 2^s * 2^53 - 1) U` and the result is at
most `3 U` away from `w`; or the quotient lies in the binade below, then the product rounds
back to the rounded `w` and the result is at most `U` away from `w`.  The hypothesis `hP`
says that `2^53 / c`, rounded and multiplied by `c`, is less than `1/2` below `2^53`. -/
theorem inner_roundtrip_cases {w c : ℚ} (s : ℤ)
    (hw1 : (2 : ℚ) ^ (-200 : ℤ) ≤ w) (hw2 : w ≤ (2 : ℚ) ^ (200 : ℤ))
    (hs1 : -100 ≤ s) (hs2 : s ≤ 100)
    (hc1 : (2 : ℚ) ^ s < c) (hc2 : c < (2 : ℚ) ^ (s + 1))
    (hP : 9007199254740992 - 1 / 2 < roundToGrid (9007199254740992 / c) * c) :
    ∃ y U, 0 < U
      ∧ F64.mul (F64.div (F64.fin (roundToGrid w)) (F64.fin c)) (F64.fin c) = F64.fin y
      ∧ ((|y - w| ≤ 3 * U ∧ (c / (2 : ℚ) ^ s * 9007199254740992 - 1) * U ≤ w)
        ∨ (|y - w| ≤ U ∧ 9007199254740991 * U ≤ w)) := by
  have hw : 0 < w := lt_of_lt_of_le (by positivity) hw1
  have hS : (0 : ℚ) < (2 : ℚ) ^ s := by positivity
  have hc0 : 0 < c := lt_trans hS hc1
  have hl1 : (-200 : ℤ) ≤ Int.log 2 w :=
    (Int.zpow_le_iff_le_log (by norm_num) hw).mp (by simpa using hw1)
  have hl2 : Int.log 2 w < 201 :=
    (Int.lt_zpow_iff_log_lt (by norm_num) hw).mp
      (lt_of_le_of_lt hw2 (by norm_num))
  obtain ⟨e, k, he1, he2, hk1, hk2, hx, hxw⟩ := roundToGrid_grid_form
    (le_trans (zpow_le_zpow_right₀ (by norm_num) (by norm_num)) hw1)
  generalize roundToGrid w = x at hx hxw ⊢
  have hkq1 : (4503599627370496 : ℚ) ≤ (k : ℚ) := by exact_mod_cast hk1
  have hkq2 : (k : ℚ) ≤ 9007199254740991 := by
    have : k ≤ 9007199254740991 := by omega
    exact_mod_cast this
  -- powers of two in terms of U = 2^(e-53), V = 2^(e-s-54), S = 2^s
  have two : (2 : ℚ) ≠ 0 := by norm_num
  have i52 : (2 : ℚ) ^ (e - 52) = 2 * (2 : ℚ) ^ (e - 53) := by
    rw [show e - 52 = 1 + (e - 53) by ring, zpow_add₀ two, zpow_one]
  have iE : (2 : ℚ) ^ e = 9007199254740992 * (2 : ℚ) ^ (e - 53) := by
    rw [show e = 53 + (e - 53) by ring, zpow_add₀ two, show 53 + (e - 53) - 53 = e - 53 by ring]
    norm_num
  have iE0 : (2 : ℚ) ^ (e - 1) = 4503599627370496 * (2 : ℚ) ^ (e - 53) := by
    rw [show e - 1 = 52 + (e - 53) by ring, zpow_add₀ two]
    norm_num
  have iE1 : (2 : ℚ) ^ (e + 1) = 18014398509481984 * (2 : ℚ) ^ (e - 53) := by
    rw [show e + 1 = 54 + (e - 53) by ring, zpow_add₀ two]
    norm_num
  have iUV : (2 : ℚ) ^ (e - 53) = 2 * (2 : ℚ) ^ (e - s - 54) * (2 : ℚ) ^ s := by
    rw [show e - 53 = 1 + (e - s - 54) + s by ring, zpow_add₀ two, zpow_add₀ two, zpow_one]
  have iS1 : (2 : ℚ) ^ (s + 1) = 2 * (2 : ℚ) ^ s := by
    rw [zpow_add₀ two, zpow_one]
    ring
  have j0 : (2 : ℚ) ^ (e - s - 1) = 9007199254740992 * (2 : ℚ) ^ (e - s - 54) := by
    rw [show e - s - 1 = 53 + (e - s - 54) by ring, zpow_add₀ two]
    norm_num
  have j1 : (2 : ℚ) ^ (e - s) = 18014398509481984 * (2 : ℚ) ^ (e - s - 54) := by
    rw [show e - s = 54 + (e - s - 54) by ring, zpow_add₀ two]
    norm_num
  have j2 : (2 : ℚ) ^ (e - s + 1) = 36028797018963968 * (2 : ℚ) ^ (e - s - 54) := by
    rw [show e - s + 1 = 55 + (e - s - 54) by ring, zpow_add₀ two]
    norm_num
  have j3 : (2 : ℚ) ^ (e - s - 52) = 4 * (2 : ℚ) ^ (e - s - 54) := by
    rw [show e - s - 52 = 2 + (e - s - 54) by ring, zpow_add₀ two]
    norm_num
  have j4 : (2 : ℚ) ^ (e - s - 1 - 52) = 2 * (2 : ℚ) ^ (e - s - 54) := by
    rw [show e - s - 1 - 52 = 1 + (e - s - 54) by ring, zpow_add₀ two, zpow_one]
  have hU : (0 : ℚ) < (2 : ℚ) ^ (e - 53) := by positivity
  have hV : (0 : ℚ) < (2 : ℚ) ^ (e - s - 54) := by positivity
  rw [iS1] at hc2
  rw [i52] at hx
  -- the quotient
  have hqc : x / c * c = x := div_mul_cancel₀ _ (ne_of_gt hc0)
  have hVc1 : (2 : ℚ) ^ (e - s - 54) * c < (2 : ℚ) ^ (e - 53) / 1 := by
    rw [div_one, iUV]
    have := mul_lt_mul_of_pos_left hc2 hV
    linarith only [this]
  have hVc2 : (2 : ℚ) ^ (e - 53) / 2 < (2 : ℚ) ^ (e - s - 54) * c := by
    rw [iUV]
    have := mul_lt_mul_of_pos_left hc1 hV
    linarith only [this]
  have hx1 : 9007199254740992 * (2 : ℚ) ^ (e - 53) ≤ x := by
    rw [hx]
    have := mul_le_mul_of_nonneg_right hkq1 (le_of_lt hU)
    linarith only [this]
  have hx2 : x ≤ 18014398509481982 * (2 : ℚ) ^ (e - 53) := by
    rw [hx]
    have := mul_le_mul_of_nonneg_right hkq2 (le_of_lt hU)
    linarith only [this]
  have hq1 : (2 : ℚ) ^ (e - s - 1) ≤ x / c := by
    rw [le_div_iff₀ hc0, j0]
    linarith only [hVc1, hx1]
  have hq2 : x / c < (2 : ℚ) ^ (e - s + 1) := by
    rw [div_lt_iff₀ hc0, j2]
    linarith only [hVc2, hx2, hU]
  have hq0 : 0 < x / c := lt_of_lt_of_le (by positivity) hq1
  obtain ⟨ex2, -, -⟩ := round_between
    (isDouble_two_zpow (e - s - 1) (by omega) (by omega))
    (isDouble_two_zpow (e - s + 1) (by omega) (by omega)) (by positivity) hq1 (le_of_lt hq2)
  rw [div_fin_fin _ _ (ne_of_gt hc0), ex2, mul_fin_fin]
  have hr := roundToGrid_abs_sub_le (x / c)
  have hdiff : ∀ x2 : ℚ, x2 * c - x = (x2 - x / c) * c := by
    intro x2
    rw [sub_mul, hqc]
  have hfin : |x| < (2 : ℚ) ^ (1024 : ℕ) := by
    rw [abs_of_pos (by linarith only [hx1, hU])]
    have : (2 : ℚ) ^ (e + 1) ≤ (2 : ℚ) ^ (202 : ℤ) :=
      zpow_le_zpow_right₀ (by norm_num) (by omega)
    rw [iE1] at this
    have h3 : (2 : ℚ) ^ (202 : ℤ) < (2 : ℚ) ^ (1024 : ℕ) := by norm_num
    linarith only [this, h3, hx2, hU]
  rw [abs_le] at hxw
  rcases le_or_lt ((2 : ℚ) ^ (e - s)) (x / c) with hA | hB
  · -- the quotient lies in the binade of 2^(e-s): the product is within 2^(e-52) of x
    have hqA : quantum (x / c) = (2 : ℚ) ^ (e - s - 52) := by
      rw [quantum_of_binade (e := e - s) (by rw [abs_of_pos hq0]; exact hA)
        (by rw [abs_of_pos hq0]; exact hq2), max_eq_left (by omega)]
    rw [hqA, j3] at hr
    generalize roundToGrid (x / c) = x2 at hr ⊢
    have hp : |x2 * c - x| ≤ 2 * (2 : ℚ) ^ (e - 53) := by
      rw [hdiff, abs_mul, abs_of_pos hc0]
      have := mul_le_mul_of_nonneg_right hr (le_of_lt hc0)
      linarith only [this, hVc1]
    rw [abs_le] at hp
    have dlo : IsDouble (((k - 1 : ℤ) : ℚ) * (2 : ℚ) ^ (e - 52)) :=
      isDouble_grid (k - 1) (e - 52) (by rw [abs_le]; constructor <;> omega) (by omega)
        (by omega)
    have dhi : IsDouble (((k + 1 : ℤ) : ℚ) * (2 : ℚ) ^ (e - 52)) :=
      isDouble_grid (k + 1) (e - 52) (by rw [abs_le]; constructor <;> omega) (by omega)
        (by omega)
    have hk0 : (0 : ℚ) ≤ ((k - 1 : ℤ) : ℚ) := by
      have : (0 : ℤ) ≤ k - 1 := by omega
      exact_mod_cast this
    obtain ⟨e3, l3, u3⟩ := round_between (x := x2 * c) dlo dhi
      (mul_nonneg hk0 (by positivity))
      (by rw [i52]; push_cast; linarith only [hp.1, hx])
      (by rw [i52]; push_cast; linarith only [hp.2, hx])
    refine ⟨_, (2 : ℚ) ^ (e - 53), hU, e3, Or.inl ⟨?_, ?_⟩⟩
    · rw [i52] at l3 u3
      push_cast at l3 u3
      rw [abs_le]
      constructor <;> linarith only [hxw.1, hxw.2, l3, u3, hx]
    · have hxA : (2 : ℚ) ^ (e - s) * c ≤ x := by
        rw [← hqc]
        exact mul_le_mul_of_nonneg_right hA (le_of_lt hc0)
      have id1 : (2 : ℚ) ^ (e - s) * c
          = c / (2 : ℚ) ^ s * 9007199254740992 * (2 : ℚ) ^ (e - 53) := by
        rw [show e - s = (e - 53) + 53 - s by ring, zpow_sub₀ two, zpow_add₀ two]
        norm_num
        ring
      rw [id1] at hxA
      linarith only [hxA, hxw.2]
  · -- the quotient lies in the binade below: the product is less than 2^(e-53) away from x
    have hqB : quantum (x / c) = (2 : ℚ) ^ (e - s - 1 - 52) := by
      rw [quantum_of_binade (e := e - s - 1) (by rw [abs_of_pos hq0]; exact hq1)
        (by rw [abs_of_pos hq0, sub_add_cancel]; exact hB), max_eq_left (by omega)]
    rw [hqB, j4] at hr
    have hp : |roundToGrid (x / c) * c - x| < (2 : ℚ) ^ (e - 53) := by
      rw [hdiff, abs_mul, abs_of_pos hc0]
      have := mul_le_mul_of_nonneg_right hr (le_of_lt hc0)
      linarith only [this, hVc1]
    rw [abs_lt] at hp
    have hback : roundToGrid (roundToGrid (x / c) * c) = x := by
      rcases le_or_lt ((2 : ℚ) ^ e) (roundToGrid (x / c) * c) with hB1 | hB2
      · -- the product stays in the binade of x
        have hp0 : 0 < roundToGrid (x / c) * c := lt_of_lt_of_le (by positivity) hB1
        have hnear := roundToGrid_eq_of_near (roundToGrid (x / c) * c) e k
          (by rw [abs_of_pos hp0]; exact hB1)
          (by rw [abs_of_pos hp0, iE1]; linarith only [hp.2, hx2, hU])
          (by omega)
          (by
            rw [i52, abs_lt]
            have h2U : (0 : ℚ) < 2 * (2 : ℚ) ^ (e - 53) := by positivity
            constructor
            · rw [lt_sub_iff_add_lt, lt_div_iff₀ h2U]
              linarith only [hp.1, hx]
            · rw [sub_lt_iff_lt_add, div_lt_iff₀ h2U]
              linarith only [hp.2, hx])
        rw [i52, ← hx] at hnear
        exact hnear
      · -- the product fell below 2^e: x is 2^e itself, and the product is a scaled copy of
        -- the product for 2^53
        rw [iE] at hB2
        have hk : k = 4503599627370496 := by
          have h1 : (k : ℚ) < 4503599627370496 + 1 := by
            by_contra hcon
            rw [not_lt] at hcon
            have := mul_le_mul_of_nonneg_right hcon (le_of_lt hU)
            linarith only [hp.1, hx, this, hB2, hU]
          have h2 : k < 4503599627370496 + 1 := by exact_mod_cast h1
          omega
        rw [hk] at hx
        push_cast at hx
        have hxe : x / c = (2 : ℚ) ^ (e - 53) * (9007199254740992 / c) := by
          rw [hx]
          ring
        have hbase1 : (2 : ℚ) ^ (52 - s) ≤ |(9007199254740992 : ℚ) / c| := by
          rw [abs_of_pos (by positivity), le_div_iff₀ hc0,
            show (9007199254740992 : ℚ) = (2 : ℚ) ^ (52 - s) * (2 * (2 : ℚ) ^ s) by
              rw [← iS1, ← zpow_add₀ two, show 52 - s + (s + 1) = 53 by ring]
              norm_num]
          exact mul_le_mul_of_nonneg_left (le_of_lt hc2) (by positivity)
        have hscale := roundToGrid_two_zpow_mul (e - 53) (x := 9007199254740992 / c)
          (le_trans (zpow_le_zpow_right₀ (by norm_num) (by omega)) hbase1)
          (by
            rw [← hxe, abs_of_pos hq0]
            exact le_trans (zpow_le_zpow_right₀ (by norm_num) (by omega)) hq1)
        rw [← hxe] at hscale
        rw [hscale, mul_assoc] at hB2 hp ⊢
        have hPU := mul_lt_mul_of_pos_left hP hU
        generalize roundToGrid (9007199254740992 / c) * c = P at hB2 hp hPU ⊢
        have hp0 : 0 < (2 : ℚ) ^ (e - 53) * P := by
          linarith only [hPU, hU]
        have hnear := roundToGrid_eq_of_near ((2 : ℚ) ^ (e - 53) * P) (e - 1)
          9007199254740992
          (by rw [abs_of_pos hp0, iE0]; linarith only [hPU, hU])
          (by rw [abs_of_pos hp0, sub_add_cancel, iE]; exact hB2)
          (by omega)
          (by
            rw [show e - 1 - 52 = e - 53 by ring, abs_lt]
            constructor
            · rw [lt_sub_iff_add_lt, lt_div_iff₀ hU]
              push_cast
              linarith only [hPU]
            · rw [sub_lt_iff_lt_add, div_lt_iff₀ hU]
              push_cast
              linarith only [hB2, hU])
        rw [hnear, hx, show e - 1 - 52 = e - 53 by ring]
        push_cast
        ring
    refine ⟨x, (2 : ℚ) ^ (e - 53), hU, ?_, Or.inr ⟨?_, ?_⟩⟩
    · rw [round_of_lt (by rw [hback]; exact hfin), hback]
    · rw [abs_le]
      exact hxw
    · linarith only [hxw.2, hx1]

/-- The last step of a round trip, for a large tick count: if the exact product `r * a` lies
in `[2^52, 2^53)`, where the doubles are the integers, and is less than `3/2` away from the
tick count `v`, the rounded product is an integer at most one away from `v`. -/
theorem mul_back_within_one_large {r a : ℚ} (v : ℕ)
    (hz1 : 4503599627370496 ≤ r * a) (hz2 : r * a < 9007199254740992)
    (h : |r * a - (v : ℚ)| < 3 / 2) :
    ∃ n, F64.toU64 (F64.mul (F64.fin r) (F64.fin a)) = some n ∧ n ≤ v + 1 ∧ v ≤ n + 1 := by
  rw [mul_fin_fin]
  generalize r * a = z at hz1 hz2 h
  have hz0 : 0 < z := lt_of_lt_of_le (by norm_num) hz1
  have hq : quantum z = 1 := by
    rw [quantum_of_binade (e := 52) (by rw [abs_of_pos hz0]; norm_num; exact hz1)
      (by rw [abs_of_pos hz0]; norm_num; exact hz2)]
    norm_num
  have hrt : roundToGrid z = (roundHalfEven z : ℚ) := by
    unfold roundToGrid
    rw [hq, div_one, mul_one]
  have hr := roundHalfEven_abs_sub_le z
  have hm0 : (4503599627370496 : ℤ) ≤ roundHalfEven z :=
    le_roundHalfEven z 4503599627370496 (by push_cast; exact hz1)
  have hm1 : roundHalfEven z ≤ (9007199254740992 : ℤ) :=
    roundHalfEven_le z 9007199254740992 (by push_cast; exact le_of_lt hz2)
  generalize roundHalfEven z = m at hrt hr hm0 hm1
  rw [abs_le] at hr
  rw [abs_lt] at h
  have a1 : ((m : ℤ) : ℚ) < (((v : ℤ) + 2 : ℤ) : ℚ) := by
    push_cast
    linarith only [hr.2, h.2]
  have a2 : (((v : ℤ) - 2 : ℤ) : ℚ) < ((m : ℤ) : ℚ) := by
    push_cast
    linarith only [hr.1, h.1]
  have b1 : m < (v : ℤ) + 2 := by exact_mod_cast a1
  have b2 : (v : ℤ) - 2 < m := by exact_mod_cast a2
  have hmn : ((m.toNat : ℕ) : ℤ) = m := Int.toNat_of_nonneg (by omega)
  have hmq : (m : ℚ) = ((m.toNat : ℕ) : ℚ) := by
    rw [← Int.cast_natCast, hmn]
  have hd : IsDouble (m : ℚ) := by
    rw [hmq]
    exact isDouble_natCast_le _ (by omega)
  refine ⟨m.toNat, ?_, by omega, by omega⟩
  rw [round_of_lt (by rw [hrt]; exact abs_lt_of_isDouble hd), hrt, hmq]
  exact toU64_natCast _ (by omega)

/-- Dividing a tick count `v < B` by `a`, then by a constant `c` with `2^s < c < 2^(s+1)`,
and multiplying the result by `c`, then by `a` (four roundings) gives a tick count at most
one away from `v`; here `B = c * 2^(52-s)`, between `3/4 * 2^53` and `2^53`. -/
theorem roundtrip_four_lt (v : ℕ) (a c : ℚ) (s : ℤ) (B : ℕ)
    (hB : (B : ℚ) = c / (2 : ℚ) ^ s * 4503599627370496)
    (hB1 : 6755399441055748 ≤ B) (hB2 : B ≤ 9007199254740990) (hv2 : v < B)
    (ha1 : (2 : ℚ) ^ (-64 : ℤ) ≤ a) (ha2 : a ≤ (2 : ℚ) ^ (64 : ℤ))
    (hs1 : -100 ≤ s) (hs2 : s ≤ 100)
    (hc1 : (2 : ℚ) ^ s < c) (hc2 : c < (2 : ℚ) ^ (s + 1))
    (hP : 9007199254740992 - 1 / 2 < roundToGrid (9007199254740992 / c) * c) :
    ∃ n, F64.toU64 (F64.mul (F64.mul
          (F64.div (F64.div (F64.fin (v : ℚ)) (F64.fin a)) (F64.fin c)) (F64.fin c))
          (F64.fin a)) = some n
      ∧ n ≤ v + 1 ∧ v ≤ n + 1 := by
  have ha0 : 0 < a := lt_of_lt_of_le (by positivity) ha1
  have hc0 : 0 < c := lt_trans (by positivity) hc1
  rcases Nat.eq_zero_or_pos v with h0 | hv1
  · subst h0
    refine ⟨0, ?_, by omega, by omega⟩
    simp [F64.div, F64.mul, ne_of_gt hc0, ne_of_gt ha0, round_zero, F64.toU64]
  have hv := natCast_range53 v hv1 (by omega)
  have hvB : (v : ℚ) ≤ (B : ℚ) - 1 := by
    have : v + 1 ≤ B := hv2
    have h2 : ((v + 1 : ℕ) : ℚ) ≤ (B : ℚ) := by exact_mod_cast this
    push_cast at h2
    linarith only [h2]
  have hBq1 : (6755399441055748 : ℚ) ≤ (B : ℚ) := by exact_mod_cast hB1
  have hBq2 : (B : ℚ) ≤ 9007199254740990 := by exact_mod_cast hB2
  have R : (2 : ℚ) ^ (0 - 64 : ℤ) ≤ (v : ℚ) / a ∧ (v : ℚ) / a ≤ (2 : ℚ) ^ (53 - (-64) : ℤ) := by
    constructor
    · rw [zpow_sub₀ (by norm_num : (2 : ℚ) ≠ 0)]
      exact div_le_div₀ (by positivity) hv.1 ha0 ha2
    · rw [zpow_sub₀ (by norm_num : (2 : ℚ) ≠ 0)]
      exact div_le_div₀ (by positivity) hv.2 (by positivity) ha1
  obtain ⟨e1, -, -⟩ := round_between (isDouble_two_zpow (0 - 64) (by norm_num) (by norm_num))
    (isDouble_two_zpow (53 - (-64)) (by norm_num) (by norm_num)) (by positivity) R.1 R.2
  obtain ⟨y, U, hU, ey, hy⟩ := inner_roundtrip_cases (w := (v : ℚ) / a) (c := c) s
    (le_trans (zpow_le_zpow_right₀ (by norm_num) (by norm_num)) R.1)
    (le_trans R.2 (zpow_le_zpow_right₀ (by norm_num) (by norm_num))) hs1 hs2 hc1 hc2 hP
  rw [div_fin_fin _ _ (ne_of_gt ha0), e1, ey]
  have hwa : (v : ℚ) / a * a = (v : ℚ) := div_mul_cancel₀ _ (ne_of_gt ha0)
  have e5 : y * a - (v : ℚ) = (y - (v : ℚ) / a) * a := by
    rw [sub_mul, hwa]
  have hW : 0 < U * a := mul_pos hU ha0
  have e2B : c / (2 : ℚ) ^ s * 9007199254740992 = 2 * (B : ℚ) := by
    rw [hB]
    ring
  rcases hy with ⟨h1, h2⟩ | ⟨h1, h2⟩
  · -- the inner round trip moved by at most 3 U
    rw [e2B] at h2
    have k1 : |y * a - (v : ℚ)| ≤ 3 * (U * a) := by
      rw [e5, abs_mul, abs_of_pos ha0]
      have := mul_le_mul_of_nonneg_right h1 (le_of_lt ha0)
      linarith only [this]
    have k2 : (2 * (B : ℚ) - 1) * (U * a) ≤ (v : ℚ) := by
      have := mul_le_mul_of_nonneg_right h2 (le_of_lt ha0)
      rw [hwa] at this
      linarith only [this]
    generalize U * a = W at hW k1 k2
    have hb0 : (0 : ℚ) < 2 * (B : ℚ) - 1 := by linarith only [hBq1]
    rcases le_or_lt (3 * W) 1 with hsmall | hlarge
    · exact mul_back_within_one v hv1 (by omega) (le_trans k1 hsmall)
    · have hWhalf : W < 1 / 2 := by
        by_contra hcon
        rw [not_lt] at hcon
        have := mul_le_mul_of_nonneg_left hcon (le_of_lt hb0)
        linarith only [this, k2, hvB]
      have hvbig : (2 * (B : ℚ) - 1) * (1 / 3) < (v : ℚ) := by
        have := mul_lt_mul_of_pos_left (show (1 : ℚ) / 3 < W by linarith only [hlarge]) hb0
        linarith only [this, k2]
      rw [abs_le] at k1
      apply mul_back_within_one_large v
      · linarith only [k1.1, hWhalf, hvbig, hBq1]
      · linarith only [k1.2, hWhalf, hvB, hBq2]
      · rw [abs_lt]
        constructor
        · linarith only [k1.1, hWhalf]
        · linarith only [k1.2, hWhalf]
  · -- the inner round trip returned the rounded quotient
    have k1 : |y * a - (v : ℚ)| ≤ U * a := by
      rw [e5, abs_mul, abs_of_pos ha0]
      exact mul_le_mul_of_nonneg_right h1 (le_of_lt ha0)
    have k2 : 9007199254740991 * (U * a) ≤ (v : ℚ) := by
      have := mul_le_mul_of_nonneg_right h2 (le_of_lt ha0)
      rw [hwa] at this
      linarith only [this]
    generalize U * a = W at hW k1 k2
    exact mul_back_within_one v hv1 (by omega)
      (le_trans k1 (by linarith only [k2, hvB, hBq2]))

/-- The double nearest to `2^53 / 10^6`, times `10^6`, is less than `1/2` below `2^53`. -/
theorem roundToGrid_base_ms :
    (9007199254740992 : ℚ) - 1 / 2 < roundToGrid (9007199254740992 / 1000000) * 1000000 := by
  have e1 : roundToGrid ((9007199254740992 : ℚ) / 1000000) = 4722366482869645 / 524288 := by
    have := roundToGrid_eq_of_near ((9007199254740992 : ℚ) / 1000000) 33 4722366482869645
      (by norm_num [abs_of_pos]) (by norm_num [abs_of_pos]) (by norm_num)
      (by norm_num [abs_lt])
    rw [this]
    norm_num
  rw [e1]
  norm_num

/-- The double nearest to `2^53 / 10^9`, times `10^9`, is not below `2^53`. -/
theorem roundToGrid_base_s :
    (9007199254740992 : ℚ) - 1 / 2
      < roundToGrid (9007199254740992 / 1000000000) * 1000000000 := by
  have e1 : roundToGrid ((9007199254740992 : ℚ) / 1000000000)
      = 4835703278458517 / 536870912 := by
    have := roundToGrid_eq_of_near ((9007199254740992 : ℚ) / 1000000000) 23
      4835703278458517
      (by norm_num [abs_of_pos]) (by norm_num [abs_of_pos]) (by norm_num)
      (by norm_num [abs_lt])
    rw [this]
    norm_num
  rw [e1]
  norm_num

/-- The Windows millisecond round trip for a tick count below `2^33 * 10^6`. -/
theorem win32_ms_roundtrip (v : ℕ) (a : ℚ) (hv : v < 8589934592000000)
    (ha1 : (2 : ℚ) ^ (-64 : ℤ) ≤ a) (ha2 : a ≤ (2 : ℚ) ^ (64 : ℤ)) :
    ∃ n, F64.toU64 (F64.mul (F64.mul
          (F64.div (F64.div (F64.fin (v : ℚ)) (F64.fin a)) (F64.fin 1000000)) (F64.fin 1000000))
          (F64.fin a)) = some n
      ∧ n ≤ v + 1 ∧ v ≤ n + 1 :=
  roundtrip_four_lt v a 1000000 19 8589934592000000 (by norm_num) (by norm_num) (by norm_num)
    hv ha1 ha2 (by norm_num) (by norm_num) (by norm_num) (by norm_num) roundToGrid_base_ms

/-- The Windows second round trip for a tick count below `2^23 * 10^9`. -/
theorem win32_s_roundtrip (v : ℕ) (a : ℚ) (hv : v < 8388608000000000)
    (ha1 : (2 : ℚ) ^ (-64 : ℤ) ≤ a) (ha2 : a ≤ (2 : ℚ) ^ (64 : ℤ)) :
    ∃ n, F64.toU64 (F64.mul (F64.mul
          (F64.div (F64.div (F64.fin (v : ℚ)) (F64.fin a)) (F64.fin 1000000000))
          (F64.fin 1000000000)) (F64.fin a)) = some n
      ∧ n ≤ v + 1 ∧ v ≤ n + 1 :=
  roundtrip_four_lt v a 1000000000 29 8388608000000000 (by norm_num) (by norm_num)
    (by norm_num) hv ha1 ha2 (by norm_num) (by norm_num) (by norm_num) (by norm_num)
    roundToGrid_base_s

/-- The nanosecond round trip on the POSIX path for a tick count up to `2^54 + 1`. -/
theorem posix_ns_roundtrip (v : ℕ) (hv : v < 18014398509481986) :
    ∃ n, F64.toU64 (F64.ofU64 v) = some n ∧ n ≤ v + 1 ∧ v ≤ n + 1 := by
  rcases Nat.lt_or_ge v 9007199254740992 with h1 | h1
  · rw [ofU64_of_lt v h1]
    exact ⟨v, toU64_natCast v (by omega), by omega, by omega⟩
  rcases Nat.lt_or_ge v 18014398509481984 with h2 | h2
  · obtain ⟨m, em, m1, m2⟩ := ofU64_binade53 v h1 h2
    rw [em]
    exact ⟨2 * m, toU64_natCast _ (by omega), m1, m2⟩
  · have e : v = 18014398509481984 ∨ v = 18014398509481985 := by omega
    rcases e with e | e
    · subst e
      rw [ofU64_two_pow_54]
      exact ⟨_, toU64_two_pow_54, by norm_num, by norm_num⟩
    · subst e
      rw [ofU64_two_pow_54_succ]
      exact ⟨_, toU64_two_pow_54, by norm_num, by norm_num⟩

/-- Dividing a tick count between `2^53` and `B + 1`, where `B = 2^j * c < 2^54`, by the
constant `c` and multiplying the result by `c` gives the double nearest to the tick count:
the quotient lies below `2^j`, where doubles are `2^(j-53)` apart, so the product is less
than one away from the even integer the tick count was converted to. -/
theorem roundtrip_two_binade53 (c : ℚ) (j : ℤ) (B v : ℕ) (hc : 0 < c)
    (hB : (B : ℚ) = (2 : ℚ) ^ j * c) (hB1 : roundToGrid ((B : ℚ) + 1) = (B : ℚ))
    (hB2 : B + 1 < 18014398509481984)
    (hj : (2 : ℚ) ^ (j - 1) * c ≤ 9007199254740992) (hj1 : -1021 ≤ j) (hj2 : j ≤ 971)
    (herr : (2 : ℚ) ^ (j - 54) * c < 1)
    (hbase : roundToGrid (roundToGrid (9007199254740992 / c) * c) = 9007199254740992)
    (h1 : 9007199254740992 ≤ v) (h2 : v ≤ B + 1) :
    ∃ n, F64.toU64 (F64.mul (F64.div (F64.ofU64 v) (F64.fin c)) (F64.fin c)) = some n
      ∧ n ≤ v + 1 ∧ v ≤ n + 1 := by
  obtain ⟨m, hv, m1, m2⟩ := roundToGrid_natCast_binade53 v h1 (by omega)
  have hrt : roundToGrid (((2 * m : ℕ) : ℚ)) = ((2 * m : ℕ) : ℚ) :=
    roundToGrid_of_isDouble (isDouble_even_natCast m (by omega))
  have em : F64.ofU64 v = F64.fin ((2 * m : ℕ) : ℚ) := by
    unfold F64.ofU64
    rw [round_of_lt (by
      rw [hv]
      exact abs_lt_of_isDouble (isDouble_even_natCast m (by omega))), hv]
  have lo : (9007199254740992 : ℚ) ≤ ((2 * m : ℕ) : ℚ) := by
    have a := roundToGrid_mono (x := (9007199254740992 : ℚ)) (y := (v : ℚ)) (by norm_num)
      (by exact_mod_cast h1)
    have b := roundToGrid_of_isDouble (isDouble_natCast_le 9007199254740992 (le_refl _))
    rw [Nat.cast_ofNat] at b
    rw [b, hv] at a
    exact a
  have hi : ((2 * m : ℕ) : ℚ) ≤ (B : ℚ) := by
    have a := roundToGrid_mono (x := (v : ℚ)) (y := (B : ℚ) + 1) (Nat.cast_nonneg v)
      (by exact_mod_cast h2)
    rw [hB1, hv] at a
    exact a
  rw [em, div_fin_fin _ _ (ne_of_gt hc)]
  refine ⟨2 * m, ?_, m1, m2⟩
  have hgoal : ∀ z : ℚ, roundToGrid z = ((2 * m : ℕ) : ℚ) →
      F64.toU64 (F64.round z) = some (2 * m) := by
    intro z hz
    rw [round_of_lt (by rw [hz]; exact abs_lt_of_isDouble (isDouble_even_natCast m (by omega))),
      hz]
    exact toU64_natCast _ (by omega)
  rcases eq_or_lt_of_le hi with heq | hlt
  · -- the converted tick count is B: the quotient is 2^j, exactly
    have e1 : ((2 * m : ℕ) : ℚ) / c = (2 : ℚ) ^ j := by
      rw [heq, hB]
      field_simp
    rw [e1, round_of_isDouble (isDouble_two_zpow j (by omega) hj2), mul_fin_fin, ← hB, ← heq]
    exact hgoal _ hrt
  · -- the quotient lies in the binade below 2^j
    have q1 : (2 : ℚ) ^ (j - 1) ≤ ((2 * m : ℕ) : ℚ) / c := by
      rw [le_div_iff₀ hc]
      exact le_trans hj lo
    have q2 : ((2 * m : ℕ) : ℚ) / c < (2 : ℚ) ^ (j - 1 + 1) := by
      rw [div_lt_iff₀ hc, sub_add_cancel, ← hB]
      exact hlt
    have q0 : 0 < ((2 * m : ℕ) : ℚ) / c := lt_of_lt_of_le (by positivity) q1
    have hq : quantum (((2 * m : ℕ) : ℚ) / c) = (2 : ℚ) ^ (j - 53) := by
      rw [quantum_of_binade (by rw [abs_of_pos q0]; exact q1) (by rw [abs_of_pos q0]; exact q2),
        max_eq_left (by omega)]
      congr 1
      ring
    have hx := roundToGrid_abs_sub_le (((2 * m : ℕ) : ℚ) / c)
    rw [hq] at hx
    obtain ⟨ex, lx, ux⟩ := round_between (isDouble_two_zpow (j - 1) (by omega) (by omega))
      (isDouble_two_zpow j (by omega) hj2) (by positivity) q1
      (by rw [sub_add_cancel] at q2; exact le_of_lt q2)
    rw [ex, mul_fin_fin]
    apply hgoal
    generalize hxx : roundToGrid (((2 * m : ℕ) : ℚ) / c) = x at hx lx ux
    -- the product is less than one away from the converted tick count
    have hz : |x * c - ((2 * m : ℕ) : ℚ)| < 1 := by
      have e : x * c - ((2 * m : ℕ) : ℚ) = (x - ((2 * m : ℕ) : ℚ) / c) * c := by
        field_simp
      rw [e, abs_mul, abs_of_pos hc]
      have e2 : (2 : ℚ) ^ (j - 53) / 2 = (2 : ℚ) ^ (j - 54) := by
        rw [show j - 53 = (j - 54) + 1 by ring, zpow_add₀ (by norm_num : (2 : ℚ) ≠ 0)]
        norm_num
      rw [e2] at hx
      exact lt_of_le_of_lt (mul_le_mul_of_nonneg_right hx (le_of_lt hc)) herr
    rw [abs_lt] at hz
    rcases le_or_lt (9007199254740992 : ℚ) (x * c) with hz1 | hz1
    · have hz2 : x * c < 18014398509481984 := by
        have : ((B + 1 : ℕ) : ℚ) < ((18014398509481984 : ℕ) : ℚ) := by exact_mod_cast hB2
        push_cast at this
        linarith [hz.2]
      have hz0 : 0 < x * c := lt_of_lt_of_le (by norm_num) hz1
      have := roundToGrid_eq_of_near (x * c) 53 (m : ℤ)
        (by rw [abs_of_pos hz0]; norm_num; exact hz1)
        (by rw [abs_of_pos hz0]; norm_num; exact hz2) (by norm_num)
        (by
          rw [abs_lt]
          push_cast at hz
          norm_num
          constructor <;> linarith [hz.1, hz.2])
      rw [this]
      push_cast
      norm_num
      ring
    · -- the product fell below 2^53: the converted tick count is 2^53 itself
      have hm : 2 * m = 9007199254740992 := by
        have a : ((2 * m : ℕ) : ℚ) < ((9007199254740992 + 1 : ℕ) : ℚ) := by
          push_cast
          push_cast at hz
          linarith [hz.1]
        have b : 2 * m < 9007199254740992 + 1 := by exact_mod_cast a
        have c : 9007199254740992 ≤ 2 * m := by exact_mod_cast lo
        omega
      rw [hm, Nat.cast_ofNat] at hxx
      rw [← hxx, hbase, hm, Nat.cast_ofNat]

/-- The millisecond round trip on the POSIX path for a tick count up to `2^34 * 10^6 + 1`. -/
theorem posix_ms_roundtrip (v : ℕ) (hv : v < 17179869184000002) :
    ∃ n, Posix.ConvertMillisecondsToValue (Posix.ConvertValueToMilliseconds v) = some n
      ∧ n ≤ v + 1 ∧ v ≤ n + 1 := by
  unfold Posix.ConvertMillisecondsToValue Posix.ConvertValueToMilliseconds
  rcases Nat.lt_or_ge v 9007199254740992 with h1 | h1
  · rw [ofU64_of_lt v h1]
    exact roundtrip_two_le v 1000000 (by omega) (by norm_num) (by norm_num)
  · have hB1 : roundToGrid (((17179869184000000 : ℕ) : ℚ) + 1)
        = ((17179869184000000 : ℕ) : ℚ) := by
      have := roundToGrid_eq_of_tie (((17179869184000000 : ℕ) : ℚ) + 1) 53 8589934592000000
        (by norm_num) (by norm_num) (by norm_num) (by norm_num) (by norm_num)
      rw [this]
      norm_num
    have hbase : roundToGrid (roundToGrid (9007199254740992 / 1000000) * 1000000)
        = 9007199254740992 := by
      have e1 : roundToGrid ((9007199254740992 : ℚ) / 1000000) = 4722366482869645 / 524288 := by
        have := roundToGrid_eq_of_near ((9007199254740992 : ℚ) / 1000000) 33 4722366482869645
          (by norm_num [abs_of_pos]) (by norm_num [abs_of_pos]) (by norm_num)
          (by norm_num [abs_lt])
        rw [this]
        norm_num
      have e2 : roundToGrid ((4722366482869645 : ℚ) / 524288 * 1000000)
          = 9007199254740992 := by
        have := roundToGrid_eq_of_near ((4722366482869645 : ℚ) / 524288 * 1000000) 52
          9007199254740992
          (by norm_num [abs_of_pos]) (by norm_num [abs_of_pos]) (by norm_num)
          (by norm_num [abs_lt])
        rw [this]
        norm_num
      rw [e1, e2]
    exact roundtrip_two_binade53 1000000 34 17179869184000000 v (by norm_num) (by norm_num)
      hB1 (by norm_num) (by norm_num) (by norm_num) (by norm_num) (by norm_num) hbase h1
      (by omega)

/-- The second round trip on the POSIX path for a tick count up to `2^24 * 10^9 + 1`. -/
theorem posix_s_roundtrip (v : ℕ) (hv : v < 16777216000000002) :
    ∃ n, Posix.ConvertSecondsToValue (Posix.ConvertValueToSeconds v) = some n
      ∧ n ≤ v + 1 ∧ v ≤ n + 1 := by
  unfold Posix.ConvertSecondsToValue Posix.ConvertValueToSeconds
  rcases Nat.lt_or_ge v 9007199254740992 with h1 | h1
  · rw [ofU64_of_lt v h1]
    exact roundtrip_two_le v 1000000000 (by omega) (by norm_num) (by norm_num)
  · have hB1 : roundToGrid (((16777216000000000 : ℕ) : ℚ) + 1)
        = ((16777216000000000 : ℕ) : ℚ) := by
      have := roundToGrid_eq_of_tie (((16777216000000000 : ℕ) : ℚ) + 1) 53 8388608000000000
        (by norm_num) (by norm_num) (by norm_num) (by norm_num) (by norm_num)
      rw [this]
      norm_num
    have hbase : roundToGrid (roundToGrid (9007199254740992 / 1000000000) * 1000000000)
        = 9007199254740992 := by
      have e1 : roundToGrid ((9007199254740992 : ℚ) / 1000000000)
          = 4835703278458517 / 536870912 := by
        have := roundToGrid_eq_of_near ((9007199254740992 : ℚ) / 1000000000) 23
          4835703278458517
          (by norm_num [abs_of_pos]) (by norm_num [abs_of_pos]) (by norm_num)
          (by norm_num [abs_lt])
        rw [this]
        norm_num
      have e2 : roundToGrid ((4835703278458517 : ℚ) / 536870912 * 1000000000)
          = 9007199254740992 := by
        have := roundToGrid_eq_of_near ((4835703278458517 : ℚ) / 536870912 * 1000000000) 53
          4503599627370496
          (by norm_num [abs_of_pos]) (by norm_num [abs_of_pos]) (by norm_num)
          (by norm_num [abs_lt])
        rw [this]
        norm_num
      rw [e1, e2]
    exact roundtrip_two_binade53 1000000000 24 16777216000000000 v (by norm_num) (by norm_num)
      hB1 (by norm_num) (by norm_num) (by norm_num) (by norm_num) (by norm_num) hbase h1
      (by omega)


/-! ### The frequency stored by the first clock read -/

theorem win32_GetValue_first_frequency (env : Win32.Env) (s : Win32.State)
    (h : s.s_counter_initialized = false) :
    (Win32.GetValue env s).2.s_counter_frequency
      = F64.div (F64.ofI64 (wrapI64 (env.QueryPerformanceFrequency s.log)))
          (F64.fin 1000000000) := by
  unfold Win32.GetValue Win32.initCounterFrequency
  rw [if_neg (by rw [h]; exact Bool.false_ne_true)]
  rfl

theorem win32_tenMHz_frequency_eq :
    Win32.State.tenMHz.s_counter_frequency
      = F64.div (F64.ofI64 10000000) (F64.fin 1000000000) := by
  unfold Win32.State.tenMHz
  rw [win32_GetValue_first_frequency _ _ rfl]
  simp only [Win32.constEnv]
  rw [wrapI64_of_range _ (by norm_num) (by norm_num)]

theorem win32_atFrequency_frequency_eq (Q : ℤ) (h0 : -9223372036854775808 ≤ Q)
    (h1 : Q < 9223372036854775808) :
    (Win32.State.atFrequency Q).s_counter_frequency
      = F64.div (F64.ofI64 Q) (F64.fin 1000000000) := by
  unfold Win32.State.atFrequency
  rw [win32_GetValue_first_frequency _ _ rfl]
  simp only [Win32.constEnv]
  rw [wrapI64_of_range _ h0 h1]


/-! ### C4: round trip of the unit conversions -/

/-- On the POSIX path the nanosecond round trip of `2^54 + 2` is two ticks off. -/
theorem posix_ns_roundtrip_off :
    Posix.ConvertNanosecondsToValue (Posix.ConvertValueToNanoseconds 18014398509481986)
      = some 18014398509481984 := by
  unfold Posix.ConvertNanosecondsToValue Posix.ConvertValueToNanoseconds
  rw [ofU64_ofNat_lit,
    round_eq_of_tie 18014398509481986 18014398509481984 54 4503599627370496
      (by norm_num) (by norm_num) (by norm_num) (by norm_num) (by norm_num) (by norm_num)
      (by norm_num)]
  exact toU64_ofNat_lit _ (by norm_num)

/-- On the POSIX path the millisecond round trip of `2^34 * 10^6 + 2` is two ticks off. -/
theorem posix_ms_roundtrip_off :
    Posix.ConvertMillisecondsToValue (Posix.ConvertValueToMilliseconds 17179869184000002)
      = some 17179869184000004 := by
  unfold Posix.ConvertMillisecondsToValue Posix.ConvertValueToMilliseconds
  rw [ofU64_ofNat_lit,
    round_eq_of_near 17179869184000002 17179869184000002 53 8589934592000001
      (by norm_num) (by norm_num) (by norm_num) (by norm_num) (by norm_num) (by norm_num),
    div_fin_fin _ _ (by norm_num),
    round_eq_of_near (17179869184000002 / 1000000) (4503599627370497 / 262144) 34
      4503599627370497
      (by norm_num [abs_of_pos]) (by norm_num [abs_of_pos]) (by norm_num)
      (by norm_num [abs_lt]) (by norm_num) (by norm_num [abs_of_pos]),
    mul_fin_fin,
    round_eq_of_near (4503599627370497 / 262144 * 1000000) 17179869184000004 53
      8589934592000002
      (by norm_num [abs_of_pos]) (by norm_num [abs_of_pos]) (by norm_num)
      (by norm_num [abs_lt]) (by norm_num) (by norm_num)]
  exact toU64_ofNat_lit _ (by norm_num)

/-- On the POSIX path the second round trip of `2^24 * 10^9 + 2` is two ticks off. -/
theorem posix_s_roundtrip_off :
    Posix.ConvertSecondsToValue (Posix.ConvertValueToSeconds 16777216000000002)
      = some 16777216000000004 := by
  unfold Posix.ConvertSecondsToValue Posix.ConvertValueToSeconds
  rw [ofU64_ofNat_lit,
    round_eq_of_near 16777216000000002 16777216000000002 53 8388608000000001
      (by norm_num) (by norm_num) (by norm_num) (by norm_num) (by norm_num) (by norm_num),
    div_fin_fin _ _ (by norm_num),
    round_eq_of_near (16777216000000002 / 1000000000) (4503599627370497 / 268435456) 24
      4503599627370497
      (by norm_num [abs_of_pos]) (by norm_num [abs_of_pos]) (by norm_num)
      (by norm_num [abs_lt]) (by norm_num) (by norm_num [abs_of_pos]),
    mul_fin_fin,
    round_eq_of_near (4503599627370497 / 268435456 * 1000000000) 16777216000000004 53
      8388608000000002
      (by norm_num [abs_of_pos]) (by norm_num [abs_of_pos]) (by norm_num)
      (by norm_num [abs_lt]) (by norm_num) (by norm_num)]
  exact toU64_ofNat_lit _ (by norm_num)

/-- The frequency stored for `QueryPerformanceFrequency` = 1 Hz: the double nearest to
`10^(-9)`. -/
theorem win32_oneHz_frequency :
    (Win32.State.atFrequency 1).s_counter_frequency
      = F64.fin (4835703278458517 / 4835703278458516698824704) := by
  have e1 : F64.ofI64 1 = F64.fin 1 := by
    unfold F64.ofI64
    rw [Int.cast_one]
    exact round_one
  rw [win32_atFrequency_frequency_eq 1 (by norm_num) (by norm_num), e1,
    div_fin_fin _ _ (by norm_num),
    round_eq_of_near (1 / 1000000000) (4835703278458517 / 4835703278458516698824704) (-30)
      4835703278458517
      (by norm_num [abs_of_pos]) (by norm_num [abs_of_pos]) (by norm_num)
      (by norm_num [abs_lt]) (by norm_num) (by norm_num [abs_of_pos])]

/-- On the Windows path at 1 Hz the nanosecond round trip of `2^53 + 1` is two ticks off. -/
theorem win32_ns_roundtrip_off :
    Win32.ConvertNanosecondsToValue (Win32.State.atFrequency 1)
        (Win32.ConvertValueToNanoseconds (Win32.State.atFrequency 1) 9007199254740993)
      = some 9007199254740991 := by
  unfold Win32.ConvertNanosecondsToValue Win32.ConvertValueToNanoseconds
  rw [win32_oneHz_frequency, ofU64_ofNat_lit,
    round_eq_of_tie 9007199254740993 9007199254740992 53 4503599627370496
      (by norm_num) (by norm_num) (by norm_num) (by norm_num) (by norm_num) (by norm_num)
      (by norm_num),
    div_fin_fin _ _ (by norm_num),
    round_eq_of_near
      (9007199254740992 / (4835703278458517 / 4835703278458516698824704))
      9007199254740990926258176 82 8388607999999999
      (by norm_num [abs_of_pos]) (by norm_num [abs_of_pos]) (by norm_num)
      (by norm_num [abs_lt]) (by norm_num) (by norm_num),
    mul_fin_fin,
    round_eq_of_near
      (9007199254740990926258176 * (4835703278458517 / 4835703278458516698824704))
      9007199254740991 52 9007199254740991
      (by norm_num [abs_of_pos]) (by norm_num [abs_of_pos]) (by norm_num)
      (by norm_num [abs_lt]) (by norm_num) (by norm_num)]
  exact toU64_ofNat_lit _ (by norm_num)

/-- The frequency stored for `QueryPerformanceFrequency` = 7817279 Hz. -/
theorem win32_7817279Hz_frequency :
    (Win32.State.atFrequency 7817279).s_counter_frequency
      = F64.fin (2253177266652877 / 288230376151711744) := by
  have e1 : F64.ofI64 7817279 = F64.fin 7817279 := by
    unfold F64.ofI64
    rw [Int.cast_ofNat]
    exact round_ofNat_lit _ (by norm_num)
  rw [win32_atFrequency_frequency_eq 7817279 (by norm_num) (by norm_num), e1,
    div_fin_fin _ _ (by norm_num),
    round_eq_of_near (7817279 / 1000000000) (2253177266652877 / 288230376151711744) (-7)
      4506354533305754
      (by norm_num [abs_of_pos]) (by norm_num [abs_of_pos]) (by norm_num)
      (by norm_num [abs_lt]) (by norm_num) (by norm_num [abs_of_pos])]

/-- On the Windows path at 7817279 Hz the millisecond round trip of 8596642980084212, less
than a thousandth above `2^33 * 10^6`, is two ticks off. -/
theorem win32_ms_roundtrip_off :
    Win32.ConvertMillisecondsToValue (Win32.State.atFrequency 7817279)
        (Win32.ConvertValueToMilliseconds (Win32.State.atFrequency 7817279) 8596642980084212)
      = some 8596642980084214 := by
  unfold Win32.ConvertMillisecondsToValue Win32.ConvertValueToMilliseconds
  rw [win32_7817279Hz_frequency, ofU64_ofNat_lit,
    round_ofNat_lit 8596642980084212 (by norm_num),
    div_fin_fin _ _ (by norm_num),
    round_eq_of_near
      (8596642980084212 / (2253177266652877 / 288230376151711744))
      1099697603230511872 59 8591387525238374
      (by norm_num [abs_of_pos]) (by norm_num [abs_of_pos]) (by norm_num)
      (by norm_num [abs_lt]) (by norm_num) (by norm_num),
    div_fin_fin _ _ (by norm_num),
    round_eq_of_near (1099697603230511872 / 1000000) (4504361382832177 / 4096) 40
      4504361382832177
      (by norm_num [abs_of_pos]) (by norm_num [abs_of_pos]) (by norm_num)
      (by norm_num [abs_lt]) (by norm_num) (by norm_num [abs_of_pos]),
    mul_fin_fin,
    round_eq_of_near (4504361382832177 / 4096 * 1000000) 1099697603230512000 59
      8591387525238375
      (by norm_num [abs_of_pos]) (by norm_num [abs_of_pos]) (by norm_num)
      (by norm_num [abs_lt]) (by norm_num) (by norm_num),
    mul_fin_fin,
    round_eq_of_near
      (1099697603230512000 * (2253177266652877 / 288230376151711744))
      8596642980084214 52 8596642980084214
      (by norm_num [abs_of_pos]) (by norm_num [abs_of_pos]) (by norm_num)
      (by norm_num [abs_lt]) (by norm_num) (by norm_num)]
  exact toU64_ofNat_lit _ (by norm_num)

/-- The frequency stored for `QueryPerformanceFrequency` = 488518 Hz. -/
theorem win32_488518Hz_frequency :
    (Win32.State.atFrequency 488518).s_counter_frequency
      = F64.fin (4505783260700221 / 9223372036854775808) := by
  have e1 : F64.ofI64 488518 = F64.fin 488518 := by
    unfold F64.ofI64
    rw [Int.cast_ofNat]
    exact round_ofNat_lit _ (by norm_num)
  rw [win32_atFrequency_frequency_eq 488518 (by norm_num) (by norm_num), e1,
    div_fin_fin _ _ (by norm_num),
    round_eq_of_near (488518 / 1000000000) (4505783260700221 / 9223372036854775808) (-11)
      4505783260700221
      (by norm_num [abs_of_pos]) (by norm_num [abs_of_pos]) (by norm_num)
      (by norm_num [abs_lt]) (by norm_num) (by norm_num [abs_of_pos])]

/-- On the Windows path at 488518 Hz the second round trip of 8393175325686369, less than a
thousandth above `2^23 * 10^9`, is two ticks off. -/
theorem win32_s_roundtrip_off :
    Win32.ConvertSecondsToValue (Win32.State.atFrequency 488518)
        (Win32.ConvertValueToSeconds (Win32.State.atFrequency 488518) 8393175325686369)
      = some 8393175325686371 := by
  unfold Win32.ConvertSecondsToValue Win32.ConvertValueToSeconds
  rw [win32_488518Hz_frequency, ofU64_ofNat_lit,
    round_ofNat_lit 8393175325686369 (by norm_num),
    div_fin_fin _ _ (by norm_num),
    round_eq_of_near
      (8393175325686369 / (4505783260700221 / 9223372036854775808))
      17180892670661818368 63 8389107749346591
      (by norm_num [abs_of_pos]) (by norm_num [abs_of_pos]) (by norm_num)
      (by norm_num [abs_lt]) (by norm_num) (by norm_num),
    div_fin_fin _ _ (by norm_num),
    round_eq_of_near (17180892670661818368 / 1000000000) (1125966982064493 / 65536) 34
      4503867928257972
      (by norm_num [abs_of_pos]) (by norm_num [abs_of_pos]) (by norm_num)
      (by norm_num [abs_lt]) (by norm_num) (by norm_num [abs_of_pos]),
    mul_fin_fin,
    round_eq_of_near (1125966982064493 / 65536 * 1000000000) 17180892670661820416 63
      8389107749346592
      (by norm_num [abs_of_pos]) (by norm_num [abs_of_pos]) (by norm_num)
      (by norm_num [abs_lt]) (by norm_num) (by norm_num),
    mul_fin_fin,
    round_eq_of_near
      (17180892670661820416 * (4505783260700221 / 9223372036854775808))
      8393175325686371 52 8393175325686371
      (by norm_num [abs_of_pos]) (by norm_num [abs_of_pos]) (by norm_num)
      (by norm_num [abs_lt]) (by norm_num) (by norm_num)]
  exact toU64_ofNat_lit _ (by norm_num)

/-- C4 as stated fails, on both paths and for each unit.  POSIX: the nanosecond round trip
of `2^54 + 2` returns `2^54`; the millisecond round trip of `2^34 * 10^6 + 2` and the second
round trip of `2^24 * 10^9 + 2` return the tick value plus two; the tick value `2^64 - 1`
converts to the double `2^64`, whose conversion back is out of range.  Windows, after the
first `GetValue()`: at 1 Hz the nanosecond round trip of `2^53 + 1` returns `2^53 - 1`; at
7817279 Hz the millisecond round trip of 8596642980084212 (just above `2^33 * 10^6`) and at
488518 Hz the second round trip of 8393175325686369 (just above `2^23 * 10^9`) return the
tick value plus two. -/
theorem unit_roundtrip_counterexample :
    Posix.ConvertNanosecondsToValue (Posix.ConvertValueToNanoseconds 18014398509481986)
        = some 18014398509481984
    ∧ Posix.ConvertMillisecondsToValue (Posix.ConvertValueToMilliseconds 17179869184000002)
        = some 17179869184000004
    ∧ Posix.ConvertSecondsToValue (Posix.ConvertValueToSeconds 16777216000000002)
        = some 16777216000000004
    ∧ Posix.ConvertNanosecondsToValue (Posix.ConvertValueToNanoseconds 18446744073709551615)
        = none
    ∧ Win32.ConvertNanosecondsToValue (Win32.State.atFrequency 1)
        (Win32.ConvertValueToNanoseconds (Win32.State.atFrequency 1) 9007199254740993)
        = some 9007199254740991
    ∧ Win32.ConvertMillisecondsToValue (Win32.State.atFrequency 7817279)
        (Win32.ConvertValueToMilliseconds (Win32.State.atFrequency 7817279) 8596642980084212)
        = some 8596642980084214
    ∧ Win32.ConvertSecondsToValue (Win32.State.atFrequency 488518)
        (Win32.ConvertValueToSeconds (Win32.State.atFrequency 488518) 8393175325686369)
        = some 8393175325686371 := by
  refine ⟨posix_ns_roundtrip_off, posix_ms_roundtrip_off, posix_s_roundtrip_off, ?_,
    win32_ns_roundtrip_off, win32_ms_roundtrip_off, win32_s_roundtrip_off⟩
  have r2 : roundToGrid ((18446744073709551615 : ℕ) : ℚ) = (18446744073709551616 : ℚ) := by
    have := roundToGrid_eq_of_near ((18446744073709551615 : ℕ) : ℚ) 63 9007199254740992
      (by norm_num) (by norm_num) (by norm_num) (by norm_num [abs_lt])
    rw [this]
    norm_num
  unfold Posix.ConvertNanosecondsToValue Posix.ConvertValueToNanoseconds F64.ofU64
  rw [round_of_lt (by rw [r2]; norm_num), r2]
  simp only [F64.toU64]
  norm_num

/-- C4, amended. Each round trip `Convert*ToValue(ConvertValueTo*(v))` is defined and
differs from `v` by at most one tick on these ranges.  POSIX path: nanoseconds for
`v ≤ 2^54 + 1` (and the result is `v` itself for `v < 2^53`), milliseconds for
`v ≤ 2^34 * 10^6 + 1`, seconds for `v ≤ 2^24 * 10^9 + 1`.  Windows path, in a state whose
stored frequency is the one `GetValue()` stores for a `QueryPerformanceFrequency` answer `Q`
with `0 < Q < 2^63`: nanoseconds for `v ≤ 2^53`, milliseconds for `v < 2^33 * 10^6`,
seconds for `v < 2^23 * 10^9`. -/
theorem unit_roundtrip_within_one_tick :
    (∀ v : ℕ, v < 9007199254740992 →
      Posix.ConvertNanosecondsToValue (Posix.ConvertValueToNanoseconds v) = some v)
    ∧ (∀ v : ℕ, v ≤ 18014398509481985 →
      ∃ n, Posix.ConvertNanosecondsToValue (Posix.ConvertValueToNanoseconds v) = some n
        ∧ n ≤ v + 1 ∧ v ≤ n + 1)
    ∧ (∀ v : ℕ, v ≤ 17179869184000001 →
      ∃ n, Posix.ConvertMillisecondsToValue (Posix.ConvertValueToMilliseconds v) = some n
        ∧ n ≤ v + 1 ∧ v ≤ n + 1)
    ∧ (∀ v : ℕ, v ≤ 16777216000000001 →
      ∃ n, Posix.ConvertSecondsToValue (Posix.ConvertValueToSeconds v) = some n
        ∧ n ≤ v + 1 ∧ v ≤ n + 1)
    ∧ (∀ (s : Win32.State) (Q : ℤ) (v : ℕ), 0 < Q → Q < 9223372036854775808 →
      s.s_counter_frequency = F64.div (F64.ofI64 Q) (F64.fin 1000000000) →
      (v ≤ 9007199254740992 →
        ∃ n, Win32.ConvertNanosecondsToValue s (Win32.ConvertValueToNanoseconds s v) = some n
          ∧ n ≤ v + 1 ∧ v ≤ n + 1)
      ∧ (v < 8589934592000000 →
        ∃ n, Win32.ConvertMillisecondsToValue s (Win32.ConvertValueToMilliseconds s v)
            = some n ∧ n ≤ v + 1 ∧ v ≤ n + 1)
      ∧ (v < 8388608000000000 →
        ∃ n, Win32.ConvertSecondsToValue s (Win32.ConvertValueToSeconds s v) = some n
            ∧ n ≤ v + 1 ∧ v ≤ n + 1)) := by
  refine ⟨?_, ?_, ?_, ?_, ?_⟩
  · intro v hv
    unfold Posix.ConvertNanosecondsToValue Posix.ConvertValueToNanoseconds
    rw [ofU64_of_lt v hv]
    exact toU64_natCast v (by omega)
  · intro v hv
    exact posix_ns_roundtrip v (by omega)
  · intro v hv
    exact posix_ms_roundtrip v (by omega)
  · intro v hv
    exact posix_s_roundtrip v (by omega)
  · intro s Q v hQ0 hQ1 hs
    obtain ⟨a, ea, la, ua⟩ := frequency_range Q hQ0 hQ1
    rw [ea] at hs
    refine ⟨?_, ?_, ?_⟩
    · intro hv
      unfold Win32.ConvertNanosecondsToValue Win32.ConvertValueToNanoseconds
      rw [hs, ofU64_of_le v hv]
      exact roundtrip_two_le v a hv la ua
    · intro hv
      unfold Win32.ConvertMillisecondsToValue Win32.ConvertValueToMilliseconds
      rw [hs, ofU64_of_lt v (by omega)]
      exact win32_ms_roundtrip v a hv la ua
    · intro hv
      unfold Win32.ConvertSecondsToValue Win32.ConvertValueToSeconds
      rw [hs, ofU64_of_lt v (by omega)]
      exact win32_s_roundtrip v a hv la ua

/-- Witness for C4 (amended): POSIX, 5 ticks and `2^53 + 1` ticks as nanoseconds,
`10^16` ticks as milliseconds; Windows at 10 MHz, `2^53` ticks as nanoseconds and
`8 * 10^15` ticks as seconds. -/
theorem unit_roundtrip_within_one_tick_witness :
    ((5 : ℕ) < 9007199254740992
      ∧ Posix.ConvertNanosecondsToValue (Posix.ConvertValueToNanoseconds 5) = some 5)
    ∧ ((9007199254740993 : ℕ) ≤ 18014398509481985
      ∧ ∃ n, Posix.ConvertNanosecondsToValue (Posix.ConvertValueToNanoseconds 9007199254740993)
          = some n ∧ n ≤ 9007199254740993 + 1 ∧ 9007199254740993 ≤ n + 1)
    ∧ ((10000000000000000 : ℕ) ≤ 17179869184000001
      ∧ ∃ n, Posix.ConvertMillisecondsToValue
            (Posix.ConvertValueToMilliseconds 10000000000000000) = some n
          ∧ n ≤ 10000000000000000 + 1 ∧ 10000000000000000 ≤ n + 1)
    ∧ ((0 : ℤ) < 10000000 ∧ (10000000 : ℤ) < 9223372036854775808
      ∧ Win32.State.tenMHz.s_counter_frequency
          = F64.div (F64.ofI64 10000000) (F64.fin 1000000000)
      ∧ ((9007199254740992 : ℕ) ≤ 9007199254740992
        ∧ ∃ n, Win32.ConvertNanosecondsToValue Win32.State.tenMHz
              (Win32.ConvertValueToNanoseconds Win32.State.tenMHz 9007199254740992) = some n
            ∧ n ≤ 9007199254740992 + 1 ∧ 9007199254740992 ≤ n + 1)
      ∧ ((8000000000000000 : ℕ) < 8388608000000000
        ∧ ∃ n, Win32.ConvertSecondsToValue Win32.State.tenMHz
              (Win32.ConvertValueToSeconds Win32.State.tenMHz 8000000000000000) = some n
            ∧ n ≤ 8000000000000000 + 1 ∧ 8000000000000000 ≤ n + 1)) :=
  ⟨⟨by norm_num, unit_roundtrip_within_one_tick.1 5 (by norm_num)⟩,
    ⟨by norm_num, unit_roundtrip_within_one_tick.2.1 9007199254740993 (by norm_num)⟩,
    ⟨by norm_num, unit_roundtrip_within_one_tick.2.2.1 10000000000000000 (by norm_num)⟩,
    ⟨by norm_num, by norm_num, win32_tenMHz_frequency_eq,
      ⟨by norm_num, (unit_roundtrip_within_one_tick.2.2.2.2 Win32.State.tenMHz 10000000
        9007199254740992 (by norm_num) (by norm_num) win32_tenMHz_frequency_eq).1
        (by norm_num)⟩,
      ⟨by norm_num, (unit_roundtrip_within_one_tick.2.2.2.2 Win32.State.tenMHz 10000000
        8000000000000000 (by norm_num) (by norm_num) win32_tenMHz_frequency_eq).2.2
        (by norm_num)⟩⟩⟩


/-! ### C6: the stopwatch after an exact sleep -/

theorem roundToGrid_int_of_large {x : ℚ} (h : (2 : ℚ) ^ (52 : ℤ) ≤ x) :
    ∃ n : ℤ, roundToGrid x = (n : ℚ) := by
  have hx : 0 < x := lt_of_lt_of_le (by positivity) h
  have hl : (52 : ℤ) ≤ Int.log 2 |x| := by
    rw [abs_of_pos hx]
    exact (Int.zpow_le_iff_le_log (by norm_num) hx).mp (by simpa using h)
  have hj : (0 : ℤ) ≤ max (Int.log 2 |x|) (-1022) - 52 := by
    have := le_max_left (Int.log 2 |x|) (-1022)
    omega
  obtain ⟨j, hj2⟩ := Int.eq_ofNat_of_zero_le hj
  have hq : quantum x = (2 : ℚ) ^ j := by
    unfold quantum
    rw [hj2, zpow_natCast]
  rw [roundToGrid, hq]
  exact ⟨roundHalfEven (x / (2 : ℚ) ^ j) * 2 ^ j, by push_cast; ring⟩

theorem roundToGrid_of_exact_ticks {d : ℚ} {T : ℕ}
    (h : Posix.ConvertMillisecondsToValue (F64.fin d) = some T)
    (hT : (T : ℚ) = d * 1000000) : roundToGrid (T : ℚ) = (T : ℚ) := by
  rcases lt_or_le T 9007199254740992 with hlt | hge
  · exact roundToGrid_of_isDouble (isDouble_natCast T hlt)
  have hTq : (2 : ℚ) ^ (52 : ℤ) ≤ (T : ℚ) := by
    have : (9007199254740992 : ℚ) ≤ (T : ℚ) := by exact_mod_cast hge
    exact le_trans (by norm_num) this
  obtain ⟨n, hn⟩ := roundToGrid_int_of_large hTq
  have hnn : (0 : ℚ) ≤ roundToGrid (T : ℚ) := roundToGrid_nonneg (Nat.cast_nonneg T)
  have hn0 : 0 ≤ n := by
    rw [hn] at hnn
    exact_mod_cast hnn
  simp only [Posix.ConvertMillisecondsToValue, F64.mul, ← hT, F64.round] at h
  split_ifs at h with h1
  · simp [F64.toU64] at h
  · simp only [F64.toU64] at h
    split_ifs at h with h2
    · rw [hn, Int.floor_intCast] at h
      have : n.toNat = T := by simpa using h
      rw [hn]
      have h3 : (n : ℤ) = (T : ℤ) := by omega
      exact_mod_cast h3

theorem posix_elapsed_ge {d : ℚ} (E T : ℕ) (hd : IsDouble d) (hE : E < 18446744073709551616)
    (hTE : T ≤ E) (hT : (T : ℚ) = d * 1000000) (hr : roundToGrid (T : ℚ) = (T : ℚ)) :
    ∃ r, Posix.ConvertValueToMilliseconds E = F64.fin r ∧ d ≤ r := by
  have hd0 : 0 ≤ d := by
    have : (0 : ℚ) ≤ d * 1000000 := by rw [← hT]; exact Nat.cast_nonneg T
    linarith
  have hTEq : (T : ℚ) ≤ (E : ℚ) := by exact_mod_cast hTE
  have hEq : (E : ℚ) ≤ (2 : ℚ) ^ (64 : ℤ) := by
    norm_num
    exact_mod_cast (le_of_lt hE)
  have d64 := isDouble_two_zpow 64 (by norm_num) (by norm_num)
  have d0 : IsDouble (0 : ℚ) := by simpa using isDouble_natCast 0 (by norm_num)
  obtain ⟨e1, _, u1⟩ := round_between d0 d64 (le_refl 0) (Nat.cast_nonneg E) hEq
  have l1 : (T : ℚ) ≤ roundToGrid (E : ℚ) := by
    rw [← hr]
    exact roundToGrid_mono (Nat.cast_nonneg T) hTEq
  have l2 : d ≤ roundToGrid (E : ℚ) / 1000000 := by
    rw [le_div_iff₀ (by norm_num), ← hT]
    exact l1
  have u2 : roundToGrid (E : ℚ) / 1000000 ≤ (2 : ℚ) ^ (64 : ℤ) := by
    rw [div_le_iff₀ (by norm_num)]
    exact le_trans u1 (by norm_num)
  obtain ⟨e2, l3, _⟩ := round_between hd d64 hd0 l2 u2
  refine ⟨roundToGrid (roundToGrid (E : ℚ) / 1000000), ?_, l3⟩
  unfold Posix.ConvertValueToMilliseconds F64.ofU64
  rw [e1]
  simp only [F64.div]
  rw [if_neg (by norm_num), e2]


theorem posix_timespecValue_lt (tv : Posix.timespec) :
    Posix.timespecValue tv < 18446744073709551616 := by
  unfold Posix.timespecValue
  exact Nat.mod_lt _ (by norm_num)

theorem posix_ConvertMillisecondsToValue_100 :
    Posix.ConvertMillisecondsToValue (F64.fin 100) = some 100000000 := by
  unfold Posix.ConvertMillisecondsToValue
  simp only [F64.mul]
  have e : (100 : ℚ) * 1000000 = ((100000000 : ℕ) : ℚ) := by norm_num
  rw [e, round_of_isDouble (isDouble_natCast _ (by norm_num))]
  exact toU64_natCast _ (by norm_num)

theorem isDouble_100 : IsDouble (100 : ℚ) := by
  simpa using isDouble_natCast 100 (by norm_num)

/-- C6 as stated fails when the target wraps around `2^64`.  (1) With the clock constant
at `2^64 - 1` ns (a non-decreasing clock), the target `GetValue() + 10^8` is `10^8 - 1`, the
exact sleep returns at its first clock read, and `GetTimeMilliseconds()` returns 0.
(2) With the clock constant at `10^15` ns and the duration `d = 18446000000000` ms, whose
tick count `18446 * 10^15` is exact, the target wraps to `255926290448384`, the sleep
returns at once and `GetTimeMilliseconds()` returns 0. -/
theorem stopwatch_after_exact_sleep_counterexample :
    (Posix.constEnv 18446744073 709551615).Monotone
    ∧ (Posix.GetValue (Posix.constEnv 18446744073 709551615)
        (Timer.Reset (Posix.clock (Posix.constEnv 18446744073 709551615))
          { m_tvStartValue := 0 } { log := [] }).2).1 = 18446744073709551615
    ∧ Posix.ConvertMillisecondsToValue (F64.fin 100) = some 100000000
    ∧ addU64 18446744073709551615 100000000 = 99999999
    ∧ (∃ s3, Posix.SleepUntil false (Posix.constEnv 18446744073 709551615) 99999999 true 1
          (Posix.GetValue (Posix.constEnv 18446744073 709551615)
            (Timer.Reset (Posix.clock (Posix.constEnv 18446744073 709551615))
              { m_tvStartValue := 0 } { log := [] }).2).2 = some s3
        ∧ (Timer.GetTimeMilliseconds (Posix.clock (Posix.constEnv 18446744073 709551615))
            (Timer.Reset (Posix.clock (Posix.constEnv 18446744073 709551615))
              { m_tvStartValue := 0 } { log := [] }).1 s3).1 = F64.fin 0)
    ∧ (Posix.constEnv 1000000 0).Monotone
    ∧ (Posix.GetValue (Posix.constEnv 1000000 0)
        (Timer.Reset (Posix.clock (Posix.constEnv 1000000 0))
          { m_tvStartValue := 0 } { log := [] }).2).1 = 1000000000000000
    ∧ Posix.ConvertMillisecondsToValue (F64.fin 18446000000000) = some 18446000000000000000
    ∧ addU64 1000000000000000 18446000000000000000 = 255926290448384
    ∧ (∃ s3, Posix.SleepUntil false (Posix.constEnv 1000000 0) 255926290448384 true 1
          (Posix.GetValue (Posix.constEnv 1000000 0)
            (Timer.Reset (Posix.clock (Posix.constEnv 1000000 0))
              { m_tvStartValue := 0 } { log := [] }).2).2 = some s3
        ∧ (Timer.GetTimeMilliseconds (Posix.clock (Posix.constEnv 1000000 0))
            (Timer.Reset (Posix.clock (Posix.constEnv 1000000 0))
              { m_tvStartValue := 0 } { log := [] }).1 s3).1 = F64.fin 0) := by
  have z : Posix.ConvertValueToMilliseconds 0 = F64.fin 0 := by
    unfold Posix.ConvertValueToMilliseconds
    rw [ofU64_of_lt 0 (by norm_num)]
    simp [F64.div, round_zero]
  have big : Posix.ConvertMillisecondsToValue (F64.fin 18446000000000)
      = some 18446000000000000000 := by
    unfold Posix.ConvertMillisecondsToValue
    simp only [F64.mul]
    have e : (18446000000000 : ℚ) * 1000000 = ((18446000000000000000 : ℕ) : ℚ) := by norm_num
    have hd : IsDouble ((18446000000000000000 : ℕ) : ℚ) :=
      ⟨9006835937500000, 11, by norm_num, by norm_num, by norm_num, by norm_num⟩
    rw [e, round_of_isDouble hd]
    exact toU64_natCast _ (by norm_num)
  refine ⟨fun _ _ _ => le_refl _, by rfl, posix_ConvertMillisecondsToValue_100, by rfl,
    ⟨_, rfl, ?_⟩, fun _ _ _ => le_refl _, by rfl, big, by rfl, ⟨_, rfl, ?_⟩⟩
  · exact z
  · exact z


/-- C6, amended. On the POSIX path with a non-decreasing clock, for every duration `d` ms
(a double) whose tick count `T = d * 10^6` is exact, and every run of `Reset()`, then
`SleepUntil(GetValue() + T, exact = true)`, then `GetTimeMilliseconds()`: if the target
`GetValue() + T` does not wrap around `2^64` and the sleep returns, then
`GetTimeMilliseconds()` returns a finite double that is at least `d`.  The duration 100 ms
is such a `d`: its tick count is `10^8`. -/
theorem stopwatch_after_exact_sleep (apple : Bool) (env : Posix.Env) (self : Timer)
    (s0 s3 : Posix.State) (fuel T : ℕ) (d : ℚ)
    (hmono : env.Monotone) (hd : IsDouble d)
    (hticks : Posix.ConvertMillisecondsToValue (F64.fin d) = some T)
    (hexact : (T : ℚ) = d * 1000000)
    (hwrap : (Posix.GetValue env (Timer.Reset (Posix.clock env) self s0).2).1 + T
      < 18446744073709551616)
    (hsleep : Posix.SleepUntil apple env
        (addU64 (Posix.GetValue env (Timer.Reset (Posix.clock env) self s0).2).1 T) true fuel
        (Posix.GetValue env (Timer.Reset (Posix.clock env) self s0).2).2 = some s3) :
    (∃ r, (Timer.GetTimeMilliseconds (Posix.clock env)
          (Timer.Reset (Posix.clock env) self s0).1 s3).1 = F64.fin r ∧ d ≤ r)
    ∧ IsDouble (100 : ℚ)
    ∧ Posix.ConvertMillisecondsToValue (F64.fin 100) = some 100000000
    ∧ ((100000000 : ℕ) : ℚ) = 100 * 1000000 := by
  refine ⟨?_, isDouble_100, posix_ConvertMillisecondsToValue_100, by norm_num⟩
  have hadd : addU64 (Posix.GetValue env (Timer.Reset (Posix.clock env) self s0).2).1 T
      = (Posix.GetValue env (Timer.Reset (Posix.clock env) self s0).2).1 + T := by
    unfold addU64
    exact Nat.mod_eq_of_lt hwrap
  rw [hadd] at hsleep
  simp only [Posix.SleepUntil, if_true] at hsleep
  obtain ⟨rest, hlog, hle⟩ := posix_SleepUntilExact_last_read apple env _ fuel _ s3 hsleep
  -- the three clock reads: at Reset, before the sleep, and at the elapsed read
  have hstart : (Timer.Reset (Posix.clock env) self s0).1.m_tvStartValue
      = Posix.timespecValue (env.clock_gettime s0.log) := rfl
  have hnow : (Posix.GetValue env (Timer.Reset (Posix.clock env) self s0).2).1
      = Posix.timespecValue (env.clock_gettime
          (Timer.Reset (Posix.clock env) self s0).2.log) := rfl
  have h01 : Posix.timespecValue (env.clock_gettime s0.log)
      ≤ Posix.timespecValue (env.clock_gettime
          (Timer.Reset (Posix.clock env) self s0).2.log) :=
    hmono _ _ (List.suffix_cons _ _)
  have h23 : Posix.timespecValue (env.clock_gettime rest)
      ≤ Posix.timespecValue (env.clock_gettime s3.log) :=
    hmono _ _ (by rw [hlog]; exact List.suffix_cons _ _)
  have hfin := posix_timespecValue_lt (env.clock_gettime s3.log)
  have hval : (Timer.GetTimeMilliseconds (Posix.clock env)
        (Timer.Reset (Posix.clock env) self s0).1 s3).1
      = Posix.ConvertValueToMilliseconds
          (subU64 (Posix.timespecValue (env.clock_gettime s3.log))
            (Posix.timespecValue (env.clock_gettime s0.log))) := rfl
  rw [hval, subU64_of_le _ _ (by omega) hfin]
  exact posix_elapsed_ge _ T hd (by omega) (by omega) hexact
    (roundToGrid_of_exact_ticks hticks hexact)

theorem posix_waitEnv_monotone : Posix.waitEnv.Monotone := by
  intro l l0 h
  have hw : waitCalls l0 ≤ waitCalls l := by
    unfold waitCalls
    exact (h.sublist.filter _).length_le
  have e : ∀ n : Nat, n ≤ 10 →
      Posix.timespecValue { tv_sec := (n : Int), tv_nsec := 0 } = n * 1000000000 := by
    intro n hn
    have h1 : n < 18446744073709551616 := by omega
    have h2 : n * 1000000000 < 18446744073709551616 := by omega
    simp only [Posix.timespecValue, wrapU64_natCast _ h1, wrapU64_zero, Nat.zero_add,
      Nat.mod_eq_of_lt h2]
  simp only [Posix.waitEnv]
  rw [e _ (by split_ifs <;> omega), e _ (by split_ifs <;> omega)]
  split_ifs <;> omega

/-- Witness for C6 (amended): 100 ms on a clock that advances one second per wait. -/
theorem stopwatch_after_exact_sleep_witness :
    ∃ s3, Posix.SleepUntil false Posix.waitEnv
        (addU64 (Posix.GetValue Posix.waitEnv
          (Timer.Reset (Posix.clock Posix.waitEnv) { m_tvStartValue := 0 } { log := [] }).2).1
          100000000) true 2
        (Posix.GetValue Posix.waitEnv
          (Timer.Reset (Posix.clock Posix.waitEnv) { m_tvStartValue := 0 } { log := [] }).2).2
        = some s3
      ∧ ∃ r, (Timer.GetTimeMilliseconds (Posix.clock Posix.waitEnv)
          (Timer.Reset (Posix.clock Posix.waitEnv) { m_tvStartValue := 0 } { log := [] }).1
          s3).1 = F64.fin r ∧ (100 : ℚ) ≤ r :=
  ⟨_, rfl,
    (stopwatch_after_exact_sleep false Posix.waitEnv { m_tvStartValue := 0 } { log := [] } _ 2
      100000000 100 posix_waitEnv_monotone isDouble_100 posix_ConvertMillisecondsToValue_100
      (by norm_num) (by decide) rfl).1⟩


/-! ### C8: the stored tick frequency -/

theorem win32_initCounterFrequency_of_initialized (env : Win32.Env) (s : Win32.State)
    (h : s.s_counter_initialized = true) : Win32.initCounterFrequency env s = s := by
  unfold Win32.initCounterFrequency
  rw [if_pos h]

theorem win32_GetValue_frequency (env : Win32.Env) (s : Win32.State)
    (h : s.s_counter_initialized = true) :
    (Win32.GetValue env s).2.s_counter_frequency = s.s_counter_frequency
    ∧ (Win32.GetValue env s).2.s_counter_initialized = true := by
  unfold Win32.GetValue
  rw [win32_initCounterFrequency_of_initialized env s h]
  exact ⟨rfl, h⟩

theorem win32_GetValue_initialized (env : Win32.Env) (s : Win32.State) :
    (Win32.GetValue env s).2.s_counter_initialized = true := by
  unfold Win32.GetValue Win32.initCounterFrequency
  split
  · rename_i h
    exact h
  · rfl

theorem win32_GetSleepTimer_frequency (env : Win32.Env) (s : Win32.State) :
    (Win32.GetSleepTimer env s).2.s_counter_frequency = s.s_counter_frequency
    ∧ (Win32.GetSleepTimer env s).2.s_counter_initialized = s.s_counter_initialized := by
  unfold Win32.GetSleepTimer
  split <;> exact ⟨rfl, rfl⟩

theorem win32_waitOnTimer_frequency (env : Win32.Env) (timer : Nat) (diff : Int)
    (s : Win32.State) :
    (Win32.waitOnTimer env timer diff s).s_counter_frequency = s.s_counter_frequency
    ∧ (Win32.waitOnTimer env timer diff s).s_counter_initialized
        = s.s_counter_initialized := by
  unfold Win32.waitOnTimer
  simp only
  split <;> exact ⟨rfl, rfl⟩

theorem win32_SleepUntilApprox_frequency (uwp : Bool) (env : Win32.Env) (value : Nat)
    (s : Win32.State) (h : s.s_counter_initialized = true) :
    (Win32.SleepUntilApprox uwp env value s).s_counter_frequency = s.s_counter_frequency
    ∧ (Win32.SleepUntilApprox uwp env value s).s_counter_initialized = true := by
  obtain ⟨g1, g2⟩ := win32_GetValue_frequency env s h
  obtain ⟨t1, t2⟩ := win32_GetSleepTimer_frequency env (Win32.GetValue env s).2
  unfold Win32.SleepUntilApprox
  split
  · exact ⟨g1, g2⟩
  · split
    · exact ⟨g1, g2⟩
    · split
      · obtain ⟨w1, w2⟩ := win32_waitOnTimer_frequency env
          (Win32.GetSleepTimer env (Win32.GetValue env s).2).1
          (Win32.sleepDiff value (Win32.GetValue env s).1)
          (Win32.GetSleepTimer env (Win32.GetValue env s).2).2
        exact ⟨by rw [w1, t1, g1], by rw [w2, t2, g2]⟩
      · exact ⟨by rw [← g1, ← t1]; rfl, by rw [← g2, ← t2]; rfl⟩

theorem win32_SleepUntilExact_frequency (uwp : Bool) (env : Win32.Env) (value : Nat) :
    ∀ (fuel : Nat) (s s1 : Win32.State), s.s_counter_initialized = true →
      Win32.SleepUntilExact uwp env value fuel s = some s1 →
      s1.s_counter_frequency = s.s_counter_frequency ∧ s1.s_counter_initialized = true := by
  intro fuel
  induction fuel with
  | zero => intro s s1 _ h; simp [Win32.SleepUntilExact] at h
  | succ n ih =>
    intro s s1 hi h
    obtain ⟨g1, g2⟩ := win32_GetValue_frequency env s hi
    unfold Win32.SleepUntilExact at h
    split at h
    · obtain ⟨a1, a2⟩ := win32_SleepUntilApprox_frequency uwp env value _ g2
      obtain ⟨b1, b2⟩ := ih _ s1 a2 h
      exact ⟨by rw [b1, a1, g1], b2⟩
    · injection h with h
      subst h
      exact ⟨g1, g2⟩

theorem ofI64_1000000000 : F64.ofI64 1000000000 = F64.fin 1000000000 := by
  unfold F64.ofI64
  rw [Int.cast_ofNat]
  exact round_ofNat_lit _ (by norm_num)

theorem win32_frequency_one :
    F64.div (F64.ofI64 (wrapI64 1000000000)) (F64.fin 1000000000) = F64.fin 1 := by
  rw [wrapI64_of_range _ (by norm_num) (by norm_num), ofI64_1000000000,
    div_fin_fin _ _ (by norm_num), div_self (by norm_num), round_one]

theorem win32_first_GetValue_frequency_one :
    (Win32.GetValue (Win32.constEnv 1000000000 0 0) Win32.State.start).2.s_counter_frequency
      = F64.fin 1 := by
  rw [win32_GetValue_first_frequency _ _ rfl]
  exact win32_frequency_one

/-- C8, the code at the failing input: a conversion called before the first `GetValue()` of
the process.  The lazy initialisation sits in `GetValue` only, so the conversions read the
static zero.  With `QueryPerformanceFrequency` = 10^9 (one tick per nanosecond):
`ConvertNanosecondsToValue(5.0)` is 0 before the first `GetValue()` and 5 after it;
`ConvertValueToNanoseconds(5)` is `+inf` before and 5.0 after;
`ConvertValueToNanoseconds(0)` is NaN before and 0.0 after; and the round trip
`ConvertNanosecondsToValue(ConvertValueToNanoseconds(5))` is undefined before (NaN converted
to an unsigned integer) and 5 after. -/
theorem conversion_before_first_GetValue_divergence :
    (Win32.ConvertNanosecondsToValue Win32.State.start (F64.fin 5) = some 0
      ∧ Win32.ConvertNanosecondsToValue
          (Win32.GetValue (Win32.constEnv 1000000000 0 0) Win32.State.start).2 (F64.fin 5)
        = some 5)
    ∧ (Win32.ConvertValueToNanoseconds Win32.State.start 5 = F64.inf false
      ∧ Win32.ConvertValueToNanoseconds
          (Win32.GetValue (Win32.constEnv 1000000000 0 0) Win32.State.start).2 5
        = F64.fin 5)
    ∧ (Win32.ConvertValueToNanoseconds Win32.State.start 0 = F64.nan
      ∧ Win32.ConvertValueToNanoseconds
          (Win32.GetValue (Win32.constEnv 1000000000 0 0) Win32.State.start).2 0
        = F64.fin 0)
    ∧ (Win32.ConvertNanosecondsToValue Win32.State.start
          (Win32.ConvertValueToNanoseconds Win32.State.start 5) = none
      ∧ Win32.ConvertNanosecondsToValue
          (Win32.GetValue (Win32.constEnv 1000000000 0 0) Win32.State.start).2
          (Win32.ConvertValueToNanoseconds
            (Win32.GetValue (Win32.constEnv 1000000000 0 0) Win32.State.start).2 5)
        = some 5) := by
  have h5 : F64.round 5 = F64.fin 5 := round_ofNat_lit 5 (by norm_num)
  have h5u : F64.ofU64 5 = F64.fin 5 := by
    have := ofU64_of_lt 5 (by norm_num)
    rw [Nat.cast_ofNat] at this
    exact this
  have h0u : F64.ofU64 0 = F64.fin 0 := by
    have := ofU64_of_lt 0 (by norm_num)
    rw [Nat.cast_zero] at this
    exact this
  have t5 : F64.toU64 (F64.fin 5) = some 5 := toU64_ofNat_lit 5 (by norm_num)
  have t0 : F64.toU64 (F64.fin 0) = some 0 := by
    have := toU64_natCast 0 (by norm_num)
    rw [Nat.cast_zero] at this
    exact this
  have s0 : Win32.State.start.s_counter_frequency = F64.fin 0 := rfl
  have a1 : Win32.ConvertValueToNanoseconds Win32.State.start 5 = F64.inf false := by
    unfold Win32.ConvertValueToNanoseconds
    rw [s0, h5u]
    simp only [F64.div]
    norm_num
  have a2 : Win32.ConvertValueToNanoseconds
      (Win32.GetValue (Win32.constEnv 1000000000 0 0) Win32.State.start).2 5 = F64.fin 5 := by
    unfold Win32.ConvertValueToNanoseconds
    rw [win32_first_GetValue_frequency_one, h5u, div_fin_fin _ _ (by norm_num), div_one, h5]
  have b2 : Win32.ConvertNanosecondsToValue
      (Win32.GetValue (Win32.constEnv 1000000000 0 0) Win32.State.start).2 (F64.fin 5)
      = some 5 := by
    unfold Win32.ConvertNanosecondsToValue
    rw [win32_first_GetValue_frequency_one, mul_fin_fin, mul_one, h5, t5]
  refine ⟨⟨?_, b2⟩, ⟨a1, a2⟩, ⟨?_, ?_⟩, ⟨?_, ?_⟩⟩
  · unfold Win32.ConvertNanosecondsToValue
    rw [s0, mul_fin_fin, mul_zero, round_zero, t0]
  · unfold Win32.ConvertValueToNanoseconds
    rw [s0, h0u]
    rfl
  · unfold Win32.ConvertValueToNanoseconds
    rw [win32_first_GetValue_frequency_one, h0u, div_fin_fin _ _ (by norm_num), zero_div,
      round_zero]
  · rw [a1]
    unfold Win32.ConvertNanosecondsToValue
    rw [s0]
    rfl
  · rw [a2]
    exact b2

/-- What the code does guarantee about the stored frequency: a `GetValue()` call in a state
whose flag is clear stores `QueryPerformanceFrequency / 10^9` (computed in double); every
`GetValue()` leaves the flag set; once the flag is set, no later call (`GetValue`,
approximate or exact `SleepUntil`) changes the stored frequency; and each of the six
conversions is a function of its input and the stored frequency only. -/
theorem win32_counter_frequency_stable :
    (∀ (env : Win32.Env) (s : Win32.State), s.s_counter_initialized = false →
      (Win32.GetValue env s).2.s_counter_frequency
        = F64.div (F64.ofI64 (wrapI64 (env.QueryPerformanceFrequency s.log)))
            (F64.fin 1000000000))
    ∧ (∀ (env : Win32.Env) (s : Win32.State),
      (Win32.GetValue env s).2.s_counter_initialized = true)
    ∧ (∀ (uwp : Bool) (env : Win32.Env) (s : Win32.State), s.s_counter_initialized = true →
      ((Win32.GetValue env s).2.s_counter_frequency = s.s_counter_frequency
        ∧ (Win32.GetValue env s).2.s_counter_initialized = true)
      ∧ (∀ value : Nat,
        (Win32.SleepUntilApprox uwp env value s).s_counter_frequency = s.s_counter_frequency
        ∧ (Win32.SleepUntilApprox uwp env value s).s_counter_initialized = true)
      ∧ (∀ (value fuel : Nat) (s1 : Win32.State),
        Win32.SleepUntil uwp env value true fuel s = some s1 →
        s1.s_counter_frequency = s.s_counter_frequency ∧ s1.s_counter_initialized = true))
    ∧ (∀ (s s1 : Win32.State), s1.s_counter_frequency = s.s_counter_frequency →
      ∀ (v : Nat) (x : F64),
        Win32.ConvertValueToNanoseconds s1 v = Win32.ConvertValueToNanoseconds s v
        ∧ Win32.ConvertValueToMilliseconds s1 v = Win32.ConvertValueToMilliseconds s v
        ∧ Win32.ConvertValueToSeconds s1 v = Win32.ConvertValueToSeconds s v
        ∧ Win32.ConvertSecondsToValue s1 x = Win32.ConvertSecondsToValue s x
        ∧ Win32.ConvertMillisecondsToValue s1 x = Win32.ConvertMillisecondsToValue s x
        ∧ Win32.ConvertNanosecondsToValue s1 x = Win32.ConvertNanosecondsToValue s x) := by
  refine ⟨win32_GetValue_first_frequency, win32_GetValue_initialized, ?_, ?_⟩
  · intro uwp env s h
    refine ⟨win32_GetValue_frequency env s h,
      fun value => win32_SleepUntilApprox_frequency uwp env value s h, ?_⟩
    intro value fuel s1 hs
    simp only [Win32.SleepUntil, if_true] at hs
    exact win32_SleepUntilExact_frequency uwp env value fuel s s1 h hs
  · intro s s1 h v x
    unfold Win32.ConvertValueToNanoseconds Win32.ConvertValueToMilliseconds
      Win32.ConvertValueToSeconds Win32.ConvertSecondsToValue
      Win32.ConvertMillisecondsToValue Win32.ConvertNanosecondsToValue
    rw [h]
    exact ⟨rfl, rfl, rfl, rfl, rfl, rfl⟩


/-! ### C9: the duration requested from the OS on the Windows path -/

theorem win32_oneGHz_frequency : Win32.State.oneGHz.s_counter_frequency = F64.fin 1 := by
  unfold Win32.State.oneGHz
  rw [win32_GetValue_first_frequency _ _ rfl]
  exact win32_frequency_one

/-- The frequency stored for `QueryPerformanceFrequency` = 10 MHz: the double nearest to
0.01, which is `5764607523034235 / 2^59`. -/
theorem win32_tenMHz_frequency :
    Win32.State.tenMHz.s_counter_frequency
      = F64.fin (5764607523034235 / 576460752303423488) := by
  have e1 : F64.ofI64 10000000 = F64.fin 10000000 := by
    unfold F64.ofI64
    rw [Int.cast_ofNat]
    exact round_ofNat_lit _ (by norm_num)
  have e2 : roundToGrid ((10000000 : ℚ) / 1000000000)
      = 5764607523034235 / 576460752303423488 := by
    have := roundToGrid_eq_of_near ((10000000 : ℚ) / 1000000000) (-7) 5764607523034235
      (by norm_num [abs_of_pos]) (by norm_num [abs_of_pos]) (by norm_num)
      (by norm_num [abs_lt])
    rw [this]
    norm_num
  rw [win32_tenMHz_frequency_eq, e1, div_fin_fin _ _ (by norm_num),
    round_of_lt (by rw [e2]; norm_num [abs_of_pos]), e2]

/-- At 10 MHz, 10^7 ticks are 1000 ms: `ConvertValueToMilliseconds(10^7)` is exactly 1000.0,
and `ConvertValueToNanoseconds(10^7)` is exactly 10^9. -/
theorem win32_tenMHz_one_second :
    Win32.ConvertValueToNanoseconds Win32.State.tenMHz 10000000 = F64.fin 1000000000
    ∧ Win32.ConvertValueToMilliseconds Win32.State.tenMHz 10000000 = F64.fin 1000 := by
  have e1 : F64.ofU64 10000000 = F64.fin 10000000 := by
    have := ofU64_of_lt 10000000 (by norm_num)
    rw [Nat.cast_ofNat] at this
    exact this
  have e2 : roundToGrid ((10000000 : ℚ) / (5764607523034235 / 576460752303423488))
      = 1000000000 := by
    have := roundToGrid_eq_of_near
      ((10000000 : ℚ) / (5764607523034235 / 576460752303423488)) 29 8388608000000000
      (by norm_num [abs_of_pos]) (by norm_num [abs_of_pos]) (by norm_num)
      (by norm_num [abs_lt])
    rw [this]
    norm_num
  have e3 : Win32.ConvertValueToNanoseconds Win32.State.tenMHz 10000000
      = F64.fin 1000000000 := by
    unfold Win32.ConvertValueToNanoseconds
    rw [win32_tenMHz_frequency, e1, div_fin_fin _ _ (by norm_num),
      round_of_lt (by rw [e2]; norm_num [abs_of_pos]), e2]
  refine ⟨e3, ?_⟩
  have e4 : Win32.ConvertValueToMilliseconds Win32.State.tenMHz 10000000
      = F64.div (Win32.ConvertValueToNanoseconds Win32.State.tenMHz 10000000)
          (F64.fin 1000000) := rfl
  rw [e4, e3, div_fin_fin _ _ (by norm_num)]
  have e5 : (1000000000 : ℚ) / 1000000 = 1000 := by norm_num
  rw [e5]
  exact round_ofNat_lit 1000 (by norm_num)

/-- C9, the code at the failing inputs; each state is the one after the first `GetValue()`
of the process, the counter reads 0 and the file time 1000.  (1) At 10 MHz with the
fallback `Sleep` (here the `_UWP` build), a target 10^7 ticks (one second) ahead: the code
calls `Sleep(10)`, while `ConvertValueToMilliseconds(10^7)` is 1000.  (2) At 1 GHz with the
waitable timer, a target 10^9 ticks (one second) ahead: the code arms the timer for
`1000 + 10^9`, while `ConvertValueToNanoseconds(10^9) / 100` is `10^7`.  (3) For that same
difference the fallback path calls `Sleep(1000)`: the timer path asks for 100 s and the
sleep path for 1 s. -/
theorem SleepUntil_wait_amount_divergence :
    ((Win32.SleepUntilApprox true (Win32.constEnv 10000000 0 1000) 10000000
          Win32.State.tenMHz).log
        = Event.Sleep 10 :: Event.QueryPerformanceCounter 0 :: Win32.State.tenMHz.log
      ∧ Win32.ConvertValueToMilliseconds Win32.State.tenMHz 10000000 = F64.fin 1000)
    ∧ ((Win32.SleepUntilApprox false (Win32.constEnv 1000000000 0 1000) 1000000000
          Win32.State.oneGHz).log
        = Event.WaitForSingleObject 1 :: Event.SetWaitableTimer 1 1000001000 true
          :: Event.GetSystemTimeAsFileTime 1000 0 :: Event.CreateWaitableTimer 1
          :: Event.QueryPerformanceCounter 0 :: Win32.State.oneGHz.log
      ∧ Win32.ConvertValueToNanoseconds Win32.State.oneGHz 1000000000 = F64.fin 1000000000)
    ∧ (Win32.SleepUntilApprox true (Win32.constEnv 1000000000 0 1000) 1000000000
          Win32.State.oneGHz).log
        = Event.Sleep 1000 :: Event.QueryPerformanceCounter 0 :: Win32.State.oneGHz.log := by
  refine ⟨⟨by rfl, win32_tenMHz_one_second.2⟩, ⟨by rfl, ?_⟩, by rfl⟩
  have e1 : F64.ofU64 1000000000 = F64.fin 1000000000 := by
    have := ofU64_of_lt 1000000000 (by norm_num)
    rw [Nat.cast_ofNat] at this
    exact this
  unfold Win32.ConvertValueToNanoseconds
  rw [win32_oneGHz_frequency, e1, div_fin_fin _ _ (by norm_num), div_one]
  exact round_ofNat_lit 1000000000 (by norm_num)

end Common
